import Mathlib

/-!
S3 request signing and the OSD-map monitor

A shallow embedding of `src/rgw/rgw_auth_s3.cc` (canonical strings and HMAC
chains of the two S3 signature flavours) and of `src/mon/OSDMonitor.cc` (the
handlers that fill the pending increment of the OSD map).

Modelling conventions

* A `std::string` is a Lean `String`; every `Char` stands for one `char`, its
  code being the value of the byte. `operator<` on `std::string` compares the
  bytes as unsigned values, which is the order of `String`.
* A `char` is a signed type, as on x86: where a `char` is passed for a
  parameter of an unsigned integer type, a byte above 0x7f arrives as a value
  at the top of the range of that type.
* A `const char*` is an `Option String`: `none` is the null pointer, `some s`
  points at the C string whose characters (before the terminator) are `s`.
  `c_str` turns a `std::string` into the C string a callee reads from it.
* A `std::map` is a `StdMap`: its entries in strictly ascending key order, the
  order in which a range-for visits them.
* Out-parameters are returned; a function that may leave one untouched takes
  its old value.
* The cryptographic primitives (SHA-1, SHA-256 and their HMACs) live in an
  external library and are parameters of the functions that call them.
* An `epoch_t` is a natural number below 2^32; where the source adds to or
  subtracts from one, the result is reduced modulo 2^32 (`u32`). A `long`
  that is used as an `int` is reduced to 32 bits (`i32`).
* A buffer (`bufferlist`) that holds encoded maps or increments is the list of
  the values encoded into it; decoding reads the first.
* `m[k]` on a `std::map` without an entry for `k` gives it one, made by the
  default constructor; `StdMap.subscript` is the value read, and where the
  source writes through `m[k]` the entry is set.
* The monitor is the record `OSDMonitor` of its members and of what it reads
  and hands out; a member function maps a monitor to a monitor. A function
  that can stop at a failed `assert` returns a `Run`.
* The words of an admin command are a list; `m->cmd[i]` reads the word at `i`.
  A function that can read a word beyond the end of the list, or convert a
  float that no `int` holds, returns an `Option`: `none` is a run that leaves
  the defined behaviour of the code.
-/

/-! ## `std::map` -/

/-- A `std::map<K, V>`: the entries, strictly ascending in the key. -/
structure StdMap (K V : Type) [LinearOrder K] where
  entries : List (K × V)
  sorted : entries.Pairwise (fun a b => a.1 < b.1)

namespace StdMap

variable {K V : Type} [LinearOrder K]

/-- The empty map. -/
def empty : StdMap K V := ⟨[], List.Pairwise.nil⟩

/-- The call `m.find(k)`: the entry with key `k`; `none` stands for `m.end()`. -/
def find [DecidableEq K] (m : StdMap K V) (k : K) : Option (K × V) :=
  m.entries.find? (fun kv => decide (kv.1 = k))

/-- The call `m.count(k)`. -/
def count [DecidableEq K] (m : StdMap K V) (k : K) : Nat :=
  if (m.find k).isSome then 1 else 0

/-- The value stored under `k`, if any. -/
def get? [DecidableEq K] (m : StdMap K V) (k : K) : Option V :=
  (m.find k).map Prod.snd

/-- Whether `k` is a key of the map. -/
def contains [DecidableEq K] (m : StdMap K V) (k : K) : Bool :=
  (m.find k).isSome

/-- The keys, in iteration order. -/
def keys (m : StdMap K V) : List K := m.entries.map Prod.fst

/-- The entries after `m[k] = v`: the entry of `k` replaced, or a new entry
put at its place in the order. -/
def insert_entry (k : K) (v : V) : List (K × V) → List (K × V)
  | [] => [(k, v)]
  | kv :: rest =>
    if k < kv.1 then (k, v) :: kv :: rest
    else if k = kv.1 then (k, v) :: rest
    else kv :: insert_entry k v rest

/-- The assignment `m[k] = v`; the entries stay in ascending key order. -/
def set (m : StdMap K V) (k : K) (v : V) : StdMap K V :=
  ⟨insert_entry k v m.entries, by
    have hmem : ∀ (l : List (K × V)) (x : K × V),
        x ∈ insert_entry k v l → x = (k, v) ∨ x ∈ l := by
      intro l
      induction l with
      | nil => intro x h; simpa [insert_entry] using h
      | cons kv rest ih =>
        intro x h
        unfold insert_entry at h
        split_ifs at h with h1 h2
        · simpa using h
        · rcases List.mem_cons.mp h with h | h
          · exact Or.inl h
          · exact Or.inr (List.mem_cons_of_mem _ h)
        · rcases List.mem_cons.mp h with h | h
          · exact Or.inr (h ▸ List.mem_cons_self _ _)
          · rcases ih x h with h | h
            · exact Or.inl h
            · exact Or.inr (List.mem_cons_of_mem _ h)
    have hsorted : ∀ l : List (K × V), l.Pairwise (fun a b => a.1 < b.1) →
        (insert_entry k v l).Pairwise (fun a b => a.1 < b.1) := by
      intro l
      induction l with
      | nil => intro _; simp [insert_entry]
      | cons kv rest ih =>
        intro hl
        have hrest := (List.pairwise_cons.mp hl).2
        have hhead := (List.pairwise_cons.mp hl).1
        unfold insert_entry
        split_ifs with h1 h2
        · refine List.pairwise_cons.mpr ⟨?_, hl⟩
          intro x hx
          rcases List.mem_cons.mp hx with rfl | hx
          · exact h1
          · exact lt_trans h1 (hhead x hx)
        · refine List.pairwise_cons.mpr ⟨?_, hrest⟩
          intro x hx
          simpa [h2] using hhead x hx
        · refine List.pairwise_cons.mpr ⟨?_, ih hrest⟩
          intro x hx
          rcases hmem rest x hx with rfl | hx
          · exact lt_of_le_of_ne (not_lt.mp h1) (Ne.symm h2)
          · exact hhead x hx
    exact hsorted m.entries m.sorted⟩

/-- The call `m.erase(k)`. -/
def erase [DecidableEq K] (m : StdMap K V) (k : K) : StdMap K V :=
  ⟨m.entries.filter (fun kv => !decide (kv.1 = k)), m.sorted.filter _⟩

end StdMap

/-! ## Strings -/

/-- The C string read from `s.c_str()`: the characters before the first NUL. -/
def c_str (s : String) : String :=
  ⟨s.data.takeWhile (fun c => c != Char.ofNat 0)⟩

/-- The statement `dest.append(p)` guarded by `if (p)`, for a `const char*` argument. -/
def append_cstr (dest : String) (p : Option String) : String :=
  match p with
  | some s => dest ++ s
  | none => dest

/-! ## v2 canonical string (`rgw_auth_s3.cc`) -/

/-- The whitelist of signed sub-resources, in the order of the initializer
list. -/
def signed_subresources : List String :=
  [ "acl",
    "cors",
    "delete",
    "lifecycle",
    "location",
    "logging",
    "notification",
    "partNumber",
    "policy",
    "requestPayment",
    "response-cache-control",
    "response-content-disposition",
    "response-content-encoding",
    "response-content-language",
    "response-content-type",
    "response-expires",
    "torrent",
    "uploadId",
    "uploads",
    "start-date",
    "end-date",
    "versionId",
    "versioning",
    "versions",
    "website" ]

/-- One turn of the loop of `get_canon_amz_hdr`: four appends. -/
def canon_amz_hdr_step (dest : String) (kv : String × String) : String :=
  (((dest ++ kv.1) ++ ":") ++ kv.2) ++ "\n"

/-- The function `get_canon_amz_hdr`: the range-for over `meta_map`. -/
def get_canon_amz_hdr (meta_map : StdMap String String) : String :=
  meta_map.entries.foldl canon_amz_hdr_step ""

/-- One turn of the loop of `get_canon_resource` over the whitelist; the state
is `dest` and the flag `initial`. -/
def canon_resource_step (sub_resources : StdMap String String)
    (st : String × Bool) (subresource : String) : String × Bool :=
  match sub_resources.find subresource with
  | none => st
  | some iter =>
    let dest := if st.2 then st.1 ++ "?" else st.1 ++ "&"
    let dest := dest ++ iter.1
    let dest := if iter.2 ≠ "" then (dest ++ "=") ++ iter.2 else dest
    (dest, false)

/-- The function `get_canon_resource`. -/
def get_canon_resource (request_uri : Option String)
    (sub_resources : StdMap String String) : String :=
  let dest := append_cstr "" request_uri
  (signed_subresources.foldl (canon_resource_step sub_resources) (dest, true)).1

/-- The function `rgw_create_s3_canonical_header`, the overload on the separate fields;
the result is the value assigned to `dest_str`. -/
def rgw_create_s3_canonical_header (method content_md5 content_type date : Option String)
    (meta_map : StdMap String String) (request_uri : Option String)
    (sub_resources : StdMap String String) : String :=
  let dest := ""
  let dest := match method with
    | some m => m
    | none => dest
  let dest := dest ++ "\n"
  let dest := append_cstr dest content_md5
  let dest := dest ++ "\n"
  let dest := append_cstr dest content_type
  let dest := dest ++ "\n"
  let dest := append_cstr dest date
  let dest := dest ++ "\n"
  let dest := dest ++ get_canon_amz_hdr meta_map
  let dest := dest ++ get_canon_resource request_uri sub_resources
  dest

/-- The text a possibly absent C string contributes. -/
def cstr_text (p : Option String) : String := p.getD ""

/-- The text of one emitted sub-resource: the name, then `=` and the value
when the value is not empty. -/
def subresource_text (name value : String) : String :=
  if value = "" then name else name ++ "=" ++ value

/-- The texts of the whitelisted names that are keys of the map, in whitelist
order. -/
def emitted_subresources (sub_resources : StdMap String String) : List String :=
  signed_subresources.filterMap
    (fun name => (sub_resources.find name).map (fun kv => subresource_text name kv.2))

/-- Every text preceded by `&`. -/
def amp_joined : List String → String
  | [] => ""
  | t :: ts => "&" ++ t ++ amp_joined ts

/-- The canonical resource in the words of the specification: the URI, `?`
before the first emitted sub-resource and `&` before each later one. -/
def canon_resource_spec (uri : String) (sub_resources : StdMap String String) : String :=
  match emitted_subresources sub_resources with
  | [] => uri
  | first :: later => uri ++ "?" ++ first ++ amp_joined later

/-- A map with the two signed sub-resources `start-date` and `uploads`. -/
def uploads_map : StdMap String String :=
  ⟨[("start-date", "1"), ("uploads", "")],
   by simp [String.lt_iff_toList_lt]; decide⟩

/-- The line of one amz header: name, colon, value, line break. -/
def amz_hdr_line (kv : String × String) : String :=
  kv.1 ++ ":" ++ kv.2 ++ "\n"

/-- The texts one after the other. -/
def concat_all : List String → String
  | [] => ""
  | t :: ts => t ++ concat_all ts

/-- A header name with `A` to `Z` replaced by `a` to `z`. -/
def lower_cased (s : String) : String := ⟨s.data.map Char.toLower⟩

/-- The claim about `get_canon_amz_hdr` as the specification words it: the text
is one line per header of the map, each header once, the lines ordered by
lower-cased name. -/
def amz_hdr_sorted_by_lower_cased_name (meta_map : StdMap String String) : Prop :=
  ∃ lines : List (String × String),
    lines.Perm meta_map.entries
    ∧ lines.Pairwise (fun a b => lower_cased a.1 ≤ lower_cased b.1)
    ∧ get_canon_amz_hdr meta_map = concat_all (lines.map amz_hdr_line)

/-- Two headers whose names differ in case: `X-Amz-B` sorts before `x-amz-a`
as bytes and after it once lower-cased. -/
def mixed_case_map : StdMap String String :=
  ⟨[("X-Amz-B", "1"), ("x-amz-a", "2")],
   by simp [String.lt_iff_toList_lt]; decide⟩

/-- Two headers with lower-case names. -/
def lower_case_map : StdMap String String :=
  ⟨[("x-amz-acl", "private"), ("x-amz-date", "d")],
   by simp [String.lt_iff_toList_lt]; decide⟩

/-! ## v2 signature (`rgw_get_s3_header_digest`) -/

/-- A digest buffer `char buf[n]` after the library has filled it. -/
structure Digest (n : Nat) where
  bytes : List Nat
  size : bytes.length = n

/-- The bytes of a `std::string`, as handed over with `c_str()` and `size()`. -/
def str_bytes (s : String) : List Nat := s.data.map Char.toNat

/-- The value of `EINVAL` in `errno.h`. -/
def EINVAL : Int := 22

/-- The value of `ERANGE` in `errno.h`. -/
def ERANGE : Int := 34

/-- The constant `CEPH_CRYPTO_HMACSHA1_DIGESTSIZE`. -/
def CEPH_CRYPTO_HMACSHA1_DIGESTSIZE : Nat := 20

/-- The constant `CEPH_CRYPTO_HMACSHA256_DIGESTSIZE`. -/
def CEPH_CRYPTO_HMACSHA256_DIGESTSIZE : Nat := 32

/-- The base64 alphabet. -/
def base64_table : List Char :=
  "ABCDEFGHIJKLMNOPQRSTUVWXYZabcdefghijklmnopqrstuvwxyz0123456789+/".data

/-- The base64 character of a six-bit value. -/
def encode_bits (c : Nat) : Char := base64_table.getD c '='

/-- The base64 text of a byte sequence: four characters for every three bytes,
the last group padded with `=`. -/
def armor_groups : List Nat → List Char
  | [] => []
  | [a] => [encode_bits (a / 4), encode_bits ((a % 4) * 16), '=', '=']
  | [a, b] =>
    [encode_bits (a / 4), encode_bits ((a % 4) * 16 + b / 16),
     encode_bits ((b % 16) * 4), '=']
  | a :: b :: c :: rest =>
    [encode_bits (a / 4), encode_bits ((a % 4) * 16 + b / 16),
     encode_bits ((b % 16) * 4 + c / 64), encode_bits (c % 64)] ++ armor_groups rest

/-- Modelled from the spec: `ceph_armor` of `common/armor.h`, the base64
encoder of `base64( HMAC-SHA1(secret, canonical_string) )`. It writes the
base64 text of `src` (each byte read as `unsigned char`) into a destination of
`dst_size` characters and returns its length, or a negative code when the
text does not fit. `Except.ok` carries the text written, `Except.error` the
negative return value. -/
def ceph_armor (dst_size : Nat) (src : List Nat) : Except Int (List Char) :=
  let out := armor_groups (src.map (fun b => b % 256))
  if out.length ≤ dst_size then Except.ok out else Except.error (-ERANGE)

/-- The function `rgw_get_s3_header_digest`. The result is the return value and `dest`;
`none` stands for a store of the terminator past the end of `b64`, which has
64 characters. -/
def rgw_get_s3_header_digest
    (calc_hmac_sha1 : List Nat → List Nat → Digest CEPH_CRYPTO_HMACSHA1_DIGESTSIZE)
    (auth_hdr key dest : String) : Option (Int × String) :=
  if key = "" then
    some (-EINVAL, dest)
  else
    let hmac_sha1 := calc_hmac_sha1 (str_bytes key) (str_bytes auth_hdr)
    match ceph_armor 64 hmac_sha1.bytes with
    | Except.error ret => some (ret, dest)
    | Except.ok b64 =>
      if b64.length < 64 then
        -- b64[ret] = 0; dest = b64
        some (0, c_str (String.mk (b64 ++ [Char.ofNat 0])))
      else none

/-- The base64 text of a digest, as a string. -/
def base64_text (bytes : List Nat) : String :=
  String.mk (armor_groups (bytes.map (fun b => b % 256)))

/-- A stand-in for the HMAC-SHA1 of the library: the digest of twenty zero
bytes, whatever the key and the message. -/
def zero_hmac_sha1 (_key _msg : List Nat) : Digest CEPH_CRYPTO_HMACSHA1_DIGESTSIZE :=
  ⟨List.replicate 20 0, by simp [CEPH_CRYPTO_HMACSHA1_DIGESTSIZE]⟩

/-! ## v4 signature -/

/-- Modelled from the spec: `encode_utf8` of `common/utf8.h`, the multi-byte
aware UTF-8 encoder. It writes the encoding of the code point `u` and returns
the number of bytes written; the list is what it writes. A code point above
the four-byte range has no encoding here. -/
def encode_utf8 (u : Nat) : List Nat :=
  if u ≤ 0x7f then [u]
  else if u ≤ 0x7ff then [0xC0 + u / 64, 0x80 + u % 64]
  else if u ≤ 0xffff then [0xE0 + u / 4096, 0x80 + (u / 64) % 64, 0x80 + u % 64]
  else if u ≤ 0x1fffff then
    [0xF0 + u / 262144, 0x80 + (u / 4096) % 64, 0x80 + (u / 64) % 64, 0x80 + u % 64]
  else []

/-- A hexadecimal digit, lower case. -/
def hex_digit (n : Nat) : Char := "0123456789abcdef".data.getD n '0'

/-- The two hexadecimal digits of every byte. -/
def hex_chars : List Nat → List Char
  | [] => []
  | b :: rest => hex_digit ((b % 256) / 16) :: hex_digit (b % 16) :: hex_chars rest

/-- Modelled from the spec: `buf_to_hex` of `rgw_common.h`, the `hex( . )` of
the signature: two lower-case hexadecimal digits for every byte of the
buffer. -/
def buf_to_hex (buf : List Nat) : String := String.mk (hex_chars buf)

/-- Modelled from the spec: the part of `req_state::aws4_auth` that
`get_v4_signature` writes. -/
structure rgw_aws4_auth where
  signing_k : List Nat
  signing_key : String

/-- Modelled from the spec: the return value of `encode_utf8`: the number of
bytes written, -1 for a value that has no encoding. -/
def encode_utf8_result (u : Nat) : Int :=
  if u ≤ 0x1fffff then (encode_utf8 u).length else -1

/-- The value of the `char` argument `secret_key[i]` in the `unsigned long`
parameter of `encode_utf8`. A `char` is a signed type here, as on x86: a byte
above 0x7f is a negative number, and the conversion to `unsigned long` adds
2^64 to it. -/
def char_as_ulong (c : Char) : Nat :=
  if c.toNat % 256 < 128 then c.toNat % 256
  else 18446744073709551616 - 256 + c.toNat % 256

/-- One turn of the loop of `get_v4_signature` that fills `secret_k`, at the
character `c`. The state is the list of the first `n` bytes of `secret_k`, the
`size_t` counter `n` being its length: the bytes that `encode_utf8` writes at
offset `n` are appended and `n` grows by their number; when `encode_utf8`
returns -1 nothing is written and `n += -1` steps one byte back. The state is
`none` once `n` has stepped back from 0, where it wraps to 2^64 - 1 and no
buffer of that length exists. -/
def secret_key_utf8_step (st : Option (List Nat)) (c : Char) : Option (List Nat) :=
  match st with
  | none => none
  | some secret_k =>
    if encode_utf8_result (char_as_ulong c) < 0 then
      if secret_k.length = 0 then none else some secret_k.dropLast
    else some (secret_k ++ encode_utf8 (char_as_ulong c))

/-- The loop of `get_v4_signature` that fills `secret_k` and the string
`secret_key_utf8_k` made of its first `n` bytes. -/
def secret_key_utf8 (secret_key : String) : Option (List Nat) :=
  secret_key.data.foldl secret_key_utf8_step (some [])

/-- The function `get_v4_signature`. The result is the signature and the `aws4_auth` of the
request state, into which the signing key is stored; `none` when the loop over
the secret leaves no key (see `secret_key_utf8_step`). -/
def get_v4_signature
    (calc_hmac_sha256 : List Nat → List Nat → Digest CEPH_CRYPTO_HMACSHA256_DIGESTSIZE)
    (_aws4_auth : rgw_aws4_auth)
    (_access_key_id date region service string_to_sign access_key_secret : String) :
    Option (String × rgw_aws4_auth) :=
  let secret_key := "AWS4" ++ access_key_secret
  match secret_key_utf8 secret_key with
  | none => none
  | some secret_key_utf8_k =>
    -- date
    let date_k := calc_hmac_sha256 secret_key_utf8_k (str_bytes date)
    -- region
    let region_k := calc_hmac_sha256 date_k.bytes (str_bytes region)
    -- service
    let service_k := calc_hmac_sha256 region_k.bytes (str_bytes service)
    -- aws4_request
    let signing_k := calc_hmac_sha256 service_k.bytes (str_bytes "aws4_request")
    let aux := buf_to_hex signing_k.bytes
    let aws4_auth : rgw_aws4_auth := { signing_k := signing_k.bytes, signing_key := aux }
    -- new signature
    let signature_k := calc_hmac_sha256 signing_k.bytes (str_bytes string_to_sign)
    let aux := buf_to_hex signature_k.bytes
    let signature := aux
    some (signature, aws4_auth)

/-- The UTF-8 text of a string, character by character. -/
def utf8_text : List Char → List Nat
  | [] => []
  | c :: rest => encode_utf8 c.toNat ++ utf8_text rest

/-- The v4 signature in the words of the specification: four layers of
HMAC-SHA256 and the hexadecimal text of a fifth. -/
def v4_signature_spec
    (hmac : List Nat → List Nat → Digest CEPH_CRYPTO_HMACSHA256_DIGESTSIZE)
    (date region service string_to_sign secret : String) : String :=
  let k_date := hmac (utf8_text ("AWS4" ++ secret).data) (str_bytes date)
  let k_region := hmac k_date.bytes (str_bytes region)
  let k_service := hmac k_region.bytes (str_bytes service)
  let k_signing := hmac k_service.bytes (str_bytes "aws4_request")
  buf_to_hex (hmac k_signing.bytes (str_bytes string_to_sign)).bytes

/-- A stand-in for the HMAC-SHA256 of the library whose digest shows the
length of the key and of the message. -/
def length_hmac_sha256 (key msg : List Nat) : Digest CEPH_CRYPTO_HMACSHA256_DIGESTSIZE :=
  ⟨key.length :: msg.length :: List.replicate 30 0,
   by simp [CEPH_CRYPTO_HMACSHA256_DIGESTSIZE]⟩

/-- The function `assemble_v4_canonical_request`. -/
def assemble_v4_canonical_request
    (method canonical_uri canonical_qs canonical_hdrs signed_hdrs request_payload_hash :
      Option String) : String :=
  let dest := ""
  let dest := match method with
    | some m => m
    | none => dest
  let dest := dest ++ "\n"
  let dest := append_cstr dest canonical_uri
  let dest := dest ++ "\n"
  let dest := append_cstr dest canonical_qs
  let dest := dest ++ "\n"
  let dest := append_cstr dest canonical_hdrs
  let dest := dest ++ "\n"
  let dest := append_cstr dest signed_hdrs
  let dest := dest ++ "\n"
  let dest := append_cstr dest request_payload_hash
  dest

/-- Modelled from the spec: `calc_hash_sha256` of `rgw_common.h`, the
`SHA256_hex( . )` of the string to sign: the hexadecimal text of the SHA-256
digest of the data. -/
def calc_hash_sha256 (sha256 : List Nat → Digest CEPH_CRYPTO_HMACSHA256_DIGESTSIZE)
    (data : List Nat) : String :=
  buf_to_hex (sha256 data).bytes

/-- The call `hash_string_sha256(data, len)`; the argument is the `len` bytes at
`data`. -/
def hash_string_sha256 (sha256 : List Nat → Digest CEPH_CRYPTO_HMACSHA256_DIGESTSIZE)
    (data : List Nat) : String :=
  let dest := calc_hash_sha256 sha256 data
  dest

/-- The function `get_v4_canonical_request_hash`: every argument is passed on with
`c_str()`, the assembled request with `c_str()` and `size()`. -/
def get_v4_canonical_request_hash
    (sha256 : List Nat → Digest CEPH_CRYPTO_HMACSHA256_DIGESTSIZE)
    (http_verb canonical_uri canonical_qs canonical_hdrs signed_hdrs request_payload_hash :
      String) : String :=
  let canonical_req :=
    assemble_v4_canonical_request (some (c_str http_verb)) (some (c_str canonical_uri))
      (some (c_str canonical_qs)) (some (c_str canonical_hdrs)) (some (c_str signed_hdrs))
      (some (c_str request_payload_hash))
  let canonical_req_hash := hash_string_sha256 sha256 (str_bytes canonical_req)
  canonical_req_hash

/-- The function `rgw_assemble_s3_v4_string_to_sign`. -/
def rgw_assemble_s3_v4_string_to_sign
    (algorithm request_date credential_scope hashed_qr : Option String) : String :=
  let dest := ""
  let dest := match algorithm with
    | some a => a
    | none => dest
  let dest := dest ++ "\n"
  let dest := append_cstr dest request_date
  let dest := dest ++ "\n"
  let dest := append_cstr dest credential_scope
  let dest := dest ++ "\n"
  let dest := append_cstr dest hashed_qr
  dest

/-- The function `get_v4_string_to_sign`: every argument is passed on with `c_str()`. -/
def get_v4_string_to_sign (algorithm request_date credential_scope hashed_qr : String) :
    String :=
  let string_to_sign :=
    rgw_assemble_s3_v4_string_to_sign (some (c_str algorithm)) (some (c_str request_date))
      (some (c_str credential_scope)) (some (c_str hashed_qr))
  string_to_sign

/-- No character of the string is NUL. -/
def nul_free (s : String) : Prop := ∀ c ∈ s.data, c ≠ Char.ofNat 0

/-- A stand-in for the SHA-256 of the library: thirty-two zero bytes. -/
def zero_sha256 (_data : List Nat) : Digest CEPH_CRYPTO_HMACSHA256_DIGESTSIZE :=
  ⟨List.replicate 32 0, by simp [CEPH_CRYPTO_HMACSHA256_DIGESTSIZE]⟩

/-! ## v2 canonical string of a request -/

/-- The function `isalnum` of the C library, in the C locale. -/
def isalnum (c : Nat) : Bool :=
  (48 ≤ c && c ≤ 57) || (65 ≤ c && c ≤ 90) || (97 ≤ c && c ≤ 122)

/-- The function `isspace` of the C library, in the C locale: space, `\t`, `\n`, `\v`,
`\f`, `\r`. -/
def isspace (c : Nat) : Bool :=
  c == 32 || (9 ≤ c && c ≤ 13)

/-- The function `is_base64_for_content_md5`. -/
def is_base64_for_content_md5 (c : Char) : Bool :=
  isalnum c.toNat || isspace c.toNat || (c == '+') || (c == '/') || (c == '=')

/-- Modelled from the spec: `RGWEnv` of `rgw_common.h`, the environment of the
request (`HTTP_DATE`, `CONTENT_TYPE`, ...); the values are kept in a map. -/
structure RGWEnv where
  env_map : StdMap String String

/-- Modelled from the spec: `RGWEnv::get(name)`, the value as a C string, or
null when the variable is not set. -/
def RGWEnv.get (env : RGWEnv) (name : String) : Option String :=
  (env.env_map.get? name).map c_str

/-- Modelled from the spec: `RGWHTTPArgs` of `rgw_common.h`, the arguments of
the query string and, apart, those of them that are sub-resources. -/
structure RGWHTTPArgs where
  val_map : StdMap String String
  sub_resources : StdMap String String

/-- Modelled from the spec: `RGWHTTPArgs::get(name)`, the value of the
argument, or the empty string when the query has no such argument. -/
def RGWHTTPArgs.get (args : RGWHTTPArgs) (name : String) : String :=
  (args.val_map.get? name).getD ""

/-- Modelled from the spec: `RGWHTTPArgs::get_sub_resources()`. -/
def RGWHTTPArgs.get_sub_resources (args : RGWHTTPArgs) : StdMap String String :=
  args.sub_resources

/-- Modelled from the spec: `req_info` of `rgw_common.h`, by the fields the
canonical header reads. -/
structure req_info where
  env : RGWEnv
  args : RGWHTTPArgs
  x_meta_map : StdMap String String
  method : Option String
  request_uri : String
  effective_uri : String

/-- The fields of `struct tm`. -/
structure tm where
  tm_sec : Int
  tm_min : Int
  tm_hour : Int
  tm_mday : Int
  tm_mon : Int
  tm_year : Int

/-- Modelled from the spec: `utime_t`, seconds and nanoseconds. -/
structure utime_t where
  sec : Int
  nsec : Int
deriving DecidableEq

/-- Modelled from the spec: `a < b` on `utime_t`. -/
def utime_t.lt (a b : utime_t) : Bool :=
  decide (a.sec < b.sec) || (decide (a.sec = b.sec) && decide (a.nsec < b.nsec))

/-- Modelled from the spec: `a -= b` on `utime_t`, the time elapsed from `b`
to `a` as whole seconds and the nanoseconds left. -/
def utime_t.sub (a b : utime_t) : utime_t :=
  let total := (a.sec - b.sec) * 1000000000 + (a.nsec - b.nsec)
  ⟨total / 1000000000, total % 1000000000⟩

/-- The function `rgw_create_s3_canonical_header`, the overload on a request. The
parameters `parse_rfc2616` (`none` when the text does not parse) and
`internal_timegm` are the helpers of `rgw_common.h`. `header_time` is `none`
for a null pointer. The result is the return value, the time behind
`header_time` and `dest`. -/
def rgw_create_s3_canonical_header_req_info
    (parse_rfc2616 : String → Option tm) (internal_timegm : tm → Int)
    (info : req_info) (header_time : Option utime_t) (dest : String) (qsr : Bool) :
    Bool × Option utime_t × String :=
  let content_md5 := info.env.get "HTTP_CONTENT_MD5"
  let md5_is_base64 := match content_md5 with
    | some p => p.data.all is_base64_for_content_md5
    | none => true
  if !md5_is_base64 then
    (false, header_time, dest)
  else
    let content_type := info.env.get "CONTENT_TYPE"
    -- `finish date header_time` is the code below the date block
    let finish := fun (date : String) (header_time : Option utime_t) =>
      let meta_map := info.x_meta_map
      let sub_resources := info.args.get_sub_resources
      let request_uri :=
        if info.effective_uri = "" then info.request_uri else info.effective_uri
      (true, header_time,
        rgw_create_s3_canonical_header info.method content_md5 content_type
          (some (c_str date)) meta_map (some (c_str request_uri)) sub_resources)
    if qsr then
      finish (info.args.get "Expires") header_time
    else
      let str := info.env.get "HTTP_DATE"
      -- the pair is `date` and `req_date`
      let dates : Option (String × String) :=
        match str with
        | some s => some (s, s)
        | none =>
          match info.env.get "HTTP_X_AMZ_DATE" with
          | some r => some ("", r)
          | none => none
      match dates with
      | none => (false, header_time, dest)
      | some (date, req_date) =>
        match header_time with
        | none => finish date none
        | some _ =>
          match parse_rfc2616 req_date with
          | none => (false, header_time, dest)
          | some t =>
            if t.tm_year < 70 then (false, header_time, dest)
            else finish date (some ⟨internal_timegm t, 0⟩)

/-- A `std::map` with one entry. -/
def StdMap.single {K V : Type} [LinearOrder K] (k : K) (v : V) : StdMap K V :=
  ⟨[(k, v)], List.pairwise_singleton _ _⟩

/-- A GET of `/bucket/key` whose environment is `env_map`. -/
def get_request (env_map : StdMap String String) : req_info :=
  { env := ⟨env_map⟩, args := ⟨StdMap.empty, StdMap.empty⟩, x_meta_map := StdMap.empty,
    method := some "GET", request_uri := "/bucket/key", effective_uri := "" }

/-- A parser that accepts no text. -/
def parse_nothing (_s : String) : Option tm := none

/-- A parser that reads every text as 27 March 2007, 19:36:42. -/
def parse_as_2007 (_s : String) : Option tm := some ⟨42, 36, 19, 27, 2, 107⟩

/-- A `timegm` that returns the year of the date. -/
def timegm_year (t : tm) : Int := t.tm_year

/-- The request date the validity check reads: the Date header, else
X-Amz-Date. -/
def request_date (info : req_info) : Option String :=
  match info.env.get "HTTP_DATE" with
  | some d => some d
  | none => info.env.get "HTTP_X_AMZ_DATE"

/-- The Content-MD5 header is absent or made of characters that
`is_base64_for_content_md5` accepts. -/
def md5_acceptable (info : req_info) : Prop :=
  ∀ s, info.env.get "HTTP_CONTENT_MD5" = some s →
    ∀ c ∈ s.data, is_base64_for_content_md5 c = true

/-- The date stage lets the request through: it is pre-signed, or it carries a
request date which, when the caller asks for the header time, parses to a
year of 1970 or later. -/
def date_accepted (parse_rfc2616 : String → Option tm) (info : req_info)
    (header_time : Option utime_t) (qsr : Bool) : Prop :=
  qsr = true ∨ ∃ d, request_date info = some d
    ∧ (header_time = none ∨ ∃ t, parse_rfc2616 d = some t ∧ 70 ≤ t.tm_year)

/-- The text of the DATE line: for a pre-signed request the Expires argument
as a C string, otherwise the Date header, empty when that header is absent. -/
def date_line (info : req_info) (qsr : Bool) : String :=
  if qsr then c_str (info.args.get "Expires") else cstr_text (info.env.get "HTTP_DATE")

/-- The DATE line as the specification words it: Expires when pre-signed,
else the Date header, else the X-Amz-Date header. -/
def date_line_as_specified (info : req_info) (qsr : Bool) : String :=
  if qsr then info.args.get "Expires"
  else match info.env.get "HTTP_DATE" with
    | some d => d
    | none => cstr_text (info.env.get "HTTP_X_AMZ_DATE")

/-- The URI handed to the canonical resource: the effective URI when the
request has one, else the request URI, as a C string. -/
def canonical_uri_of (info : req_info) : String :=
  c_str (if info.effective_uri = "" then info.request_uri else info.effective_uri)

/-! ## The OSD map and its increments (`OSDMonitor.cc`) -/

instance StdMap.instDecidableEq {K V : Type} [LinearOrder K] [DecidableEq K] [DecidableEq V] :
    DecidableEq (StdMap K V) := fun a b =>
  decidable_of_iff (a.entries = b.entries) (by
    cases a; cases b; simp)

/-- A map epoch, `epoch_t`: an unsigned 32-bit number. -/
abbrev epoch_t := Nat

/-- The value an integer has as an unsigned 32-bit number. -/
def u32 (z : Int) : Nat := (z % 4294967296).toNat

/-- The value an integer has as a signed 32-bit number (`int`, `int32_t`). -/
def i32 (z : Int) : Int := (z + 2147483648) % 4294967296 - 2147483648

/-- The constant `CEPH_OSD_IN`. -/
def CEPH_OSD_IN : Nat := 0x10000

/-- The constant `CEPH_OSD_OUT`. -/
def CEPH_OSD_OUT : Nat := 0

/-- Modelled from the spec: `entity_addr_t`, a network address. -/
abbrev entity_addr_t := Nat

/-- Modelled from the spec: `entity_name_t`, the kind of an entity and its
number. -/
structure entity_name_t where
  kind : Nat
  num : Int
deriving DecidableEq

/-- The constant `CEPH_ENTITY_TYPE_OSD`. -/
def CEPH_ENTITY_TYPE_OSD : Nat := 4

/-- The name `entity_name_t::OSD(i)`. -/
def entity_name_t.OSD (i : Int) : entity_name_t := ⟨CEPH_ENTITY_TYPE_OSD, i⟩

/-- The test `is_osd()`. -/
def entity_name_t.is_osd (n : entity_name_t) : Bool := n.kind == CEPH_ENTITY_TYPE_OSD

/-- Modelled from the spec: `entity_inst_t`, a name and the address it is
reached at. -/
structure entity_inst_t where
  name : entity_name_t
  addr : entity_addr_t
deriving DecidableEq

/-- The key by which `entity_inst_t` values are ordered: name, then address. -/
def entity_inst_t.key (i : entity_inst_t) : ℕ ×ₗ ℤ ×ₗ ℕ :=
  toLex (i.name.kind, toLex (i.name.num, i.addr))

instance entity_inst_t.instLinearOrder : LinearOrder entity_inst_t :=
  LinearOrder.lift' entity_inst_t.key (by
    intro a b h
    cases a with
    | mk an aa =>
      cases b with
      | mk bn ba =>
        cases an
        cases bn
        simp [entity_inst_t.key] at h
        simp_all)

/-- Modelled from the spec: `osd_info_t`, the info record of an OSD. -/
structure osd_info_t where
  last_clean_first : epoch_t
  last_clean_last : epoch_t
  up_from : epoch_t
  up_thru : epoch_t
  down_at : epoch_t
  lost_at : epoch_t
deriving DecidableEq

/-- Modelled from the spec: `pool_snap_info_t`, a snapshot of a pool. -/
structure pool_snap_info_t where
  snapid : Nat
  stamp : utime_t
  name : String
deriving DecidableEq

/-- Modelled from the spec: `pg_pool_t`, a pool, by the fields the monitor
reads and writes: the encoded part `v`
(type, size, rule set, the four placement-group counts, `last_change`,
`snap_seq`, `snap_epoch`), the snapshots by id and the removed snapshot ids. -/
structure pg_pool_t where
  type : Nat
  size : Nat
  crush_ruleset : Nat
  pg_num : Nat
  pgp_num : Nat
  lpg_num : Nat
  lpgp_num : Nat
  last_change : epoch_t
  snap_seq : Nat
  snap_epoch : epoch_t
  snaps : StdMap Nat pool_snap_info_t
  removed_snaps : List Nat
deriving DecidableEq

/-- Modelled from the spec: the slot of one OSD id in the map: the state bits
`CEPH_OSD_EXISTS` and
`CEPH_OSD_UP`, the address, the weight and the info record. -/
structure osd_slot where
  allocated : Bool
  up : Bool
  addr : entity_addr_t
  weight : Nat
  info : osd_info_t
deriving DecidableEq

/-- Modelled from the spec: `OSDMap` of `osd/OSDMap.h`, the full map: fsid,
epoch, creation and modification time, one slot for every id below `max_osd`,
the pools and their names, the blacklist and the CRUSH blob. -/
structure OSDMap where
  fsid : Nat
  epoch : epoch_t
  created : utime_t
  modified : utime_t
  osds : List osd_slot
  pools : StdMap Int pg_pool_t
  pool_name : StdMap Int String
  blacklist : StdMap entity_addr_t utime_t
  crush : List Nat
deriving DecidableEq

namespace OSDMap

/-- Modelled from the spec: `get_max_osd()`. -/
def get_max_osd (m : OSDMap) : Int := m.osds.length

/-- The slot of an id, when the id lies in `[0, max_osd)`. -/
def slot (m : OSDMap) (osd : Int) : Option osd_slot :=
  if 0 ≤ osd then m.osds.get? osd.toNat else none

/-- Modelled from the spec: `exists(osd)`, the slot of the id is allocated
(`exists` is a reserved word here). -/
def osd_exists (m : OSDMap) (osd : Int) : Bool :=
  match m.slot osd with
  | some s => s.allocated
  | none => false

/-- Modelled from the spec: `is_up(osd)`. -/
def is_up (m : OSDMap) (osd : Int) : Bool :=
  match m.slot osd with
  | some s => s.allocated && s.up
  | none => false

/-- Modelled from the spec: `is_down(osd)`, an OSD is up or down. -/
def is_down (m : OSDMap) (osd : Int) : Bool := !m.is_up osd

/-- Modelled from the spec: `get_weight(osd)`. -/
def get_weight (m : OSDMap) (osd : Int) : Nat :=
  match m.slot osd with
  | some s => s.weight
  | none => CEPH_OSD_OUT

/-- Modelled from the spec: `is_out(osd)`, the weight is the OUT sentinel (or
the id does not exist). -/
def is_out (m : OSDMap) (osd : Int) : Bool :=
  !m.osd_exists osd || m.get_weight osd == CEPH_OSD_OUT

/-- Modelled from the spec: `is_in(osd)`. -/
def is_in (m : OSDMap) (osd : Int) : Bool := m.osd_exists osd && !m.is_out osd

/-- Modelled from the spec: `get_addr(osd)`. -/
def get_addr (m : OSDMap) (osd : Int) : entity_addr_t :=
  match m.slot osd with
  | some s => s.addr
  | none => 0

/-- Modelled from the spec: `get_inst(osd)`, the name `osd<id>` at the address
of the id. -/
def get_inst (m : OSDMap) (osd : Int) : entity_inst_t :=
  ⟨entity_name_t.OSD osd, m.get_addr osd⟩

/-- Modelled from the spec: `get_info(osd)`. -/
def get_info (m : OSDMap) (osd : Int) : osd_info_t :=
  match m.slot osd with
  | some s => s.info
  | none => ⟨0, 0, 0, 0, 0, 0⟩

/-- Modelled from the spec: `get_epoch()`. -/
def get_epoch (m : OSDMap) : epoch_t := m.epoch

/-- Modelled from the spec: `get_all_osds(ls)`, the ids that exist, ascending. -/
def get_all_osds (m : OSDMap) : List Int :=
  ((List.range m.osds.length).map (fun n => (n : Int))).filter (fun i => m.osd_exists i)

/-- Modelled from the spec: the map a monitor starts from before anything is
decoded: epoch 0, no OSD, no pool. -/
def blank : OSDMap :=
  { fsid := 0, epoch := 0, created := ⟨0, 0⟩, modified := ⟨0, 0⟩, osds := [],
    pools := StdMap.empty, pool_name := StdMap.empty, blacklist := StdMap.empty, crush := [] }

end OSDMap

/-- Modelled from the spec: `OSDMap::Incremental`, the delta from one epoch to
the next. `new_max_osd` is -1 while unset; `fullmap` is the buffer a full map
is encoded into (every encode appends one map) and `crush` the buffer of the
CRUSH blob. -/
structure Incremental where
  fsid : Nat
  epoch : epoch_t
  modified : utime_t
  new_max_osd : Int
  fullmap : List OSDMap
  crush : List Nat
  new_pools : StdMap Int pg_pool_t
  new_pool_names : StdMap Int String
  new_up : StdMap Int entity_addr_t
  new_down : StdMap Int Bool
  new_weight : StdMap Int Nat
  new_up_thru : StdMap Int epoch_t
  new_last_clean_interval : StdMap Int (epoch_t × epoch_t)
  new_lost : StdMap Int epoch_t
  new_blacklist : StdMap entity_addr_t utime_t
  old_blacklist : List entity_addr_t
deriving DecidableEq

/-- Modelled from the spec: the constructor `OSDMap::Incremental(e)`, an empty
increment for epoch `e`. -/
def Incremental.init (e : epoch_t) : Incremental :=
  { fsid := 0, epoch := e, modified := ⟨0, 0⟩, new_max_osd := -1, fullmap := [], crush := [],
    new_pools := StdMap.empty, new_pool_names := StdMap.empty, new_up := StdMap.empty,
    new_down := StdMap.empty, new_weight := StdMap.empty, new_up_thru := StdMap.empty,
    new_last_clean_interval := StdMap.empty, new_lost := StdMap.empty,
    new_blacklist := StdMap.empty, old_blacklist := [] }

/-! ### Messages -/

/-- Modelled from the spec: `OSDSuperblock`, as an OSD sends it when it boots. -/
structure OSDSuperblock where
  fsid : Nat
  mounted : epoch_t
  clean_thru : epoch_t
  weight : Nat
  current_epoch : epoch_t
deriving DecidableEq

/-- Modelled from the spec: `MOSDFailure`, the failed instance, the epoch of
the reporter and the sender. -/
structure MOSDFailure where
  fsid : Nat
  failed : entity_inst_t
  epoch : epoch_t
  orig_source_inst : entity_inst_t
deriving DecidableEq

/-- Modelled from the spec: `MOSDBoot`. -/
structure MOSDBoot where
  sb : OSDSuperblock
  orig_source_inst : entity_inst_t
deriving DecidableEq

/-- Modelled from the spec: `MOSDAlive`. -/
structure MOSDAlive where
  map_epoch : epoch_t
  orig_source_inst : entity_inst_t
deriving DecidableEq

/-- Modelled from the spec: `MOSDGetMap`. -/
structure MOSDGetMap where
  fsid : Nat
  start_epoch : epoch_t
  orig_source_inst : entity_inst_t
deriving DecidableEq

/-- Modelled from the spec: `MRemoveSnaps`, for every pool the snapshot ids to
remove. -/
structure MRemoveSnaps where
  snaps : StdMap Int (List Nat)
deriving DecidableEq

/-- Modelled from the spec: `MPoolSnap`. -/
structure MPoolSnap where
  fsid : Nat
  tid : Nat
  pool : Int
  name : String
  create : Bool
  orig_source_inst : entity_inst_t
deriving DecidableEq

/-- The payload of an admin command: nothing, a CRUSH blob or an encoded map. -/
inductive CommandData where
  | nothing
  | crush (blob : List Nat)
  | osdmap (map : OSDMap)
deriving DecidableEq

/-- Modelled from the spec: `MMonCommand`, the words of the command and its
payload. -/
structure MMonCommand where
  cmd : List String
  data : CommandData
  orig_source_inst : entity_inst_t
deriving DecidableEq

/-- Modelled from the spec: `MOSDMap`, encoded full maps and encoded increments
by epoch. A buffer that
holds encoded values is the list of the values encoded into it; an empty
buffer is the empty list. -/
structure MOSDMap where
  fsid : Nat
  maps : StdMap Nat (List OSDMap)
  incremental_maps : StdMap Nat (List Incremental)
deriving DecidableEq

/-- Modelled from the spec: the contexts of `OSDMonitor.h` that are handed to
`paxos->wait_for_commit`. -/
inductive Callback where
  | C_Reported (m : MOSDFailure)
  | C_RetryMessage (m : MOSDBoot)
  | C_Booted (m : MOSDBoot)
  | C_Alive (m : MOSDAlive)
  | C_Command (m : MMonCommand) (rc : Int) (rs : String)
  | C_Snap (m : MPoolSnap) (rc : Int) (epoch : epoch_t)
deriving DecidableEq

/-- What the monitor hands to the messenger and to its peer services. -/
inductive Sent where
  | osd_map (m : MOSDMap) (dest : entity_inst_t)
  | pool_snap_reply (fsid tid : Nat) (reply_code : Int) (epoch : epoch_t)
      (dest : entity_inst_t)
  | osd_scrub (fsid : Nat) (dest : entity_inst_t)
  | inject_args (dest : entity_inst_t) (args : String)
  | command_reply (m : MMonCommand) (rc : Int) (rs : String) (rdata : List String)
  | check_osd_map (epoch : epoch_t)
deriving DecidableEq

/-! ### The monitor -/

/-- The result of a run that may stop at a failed `assert` or, for a loop
given a bound on its turns, reach the bound. -/
inductive Run (α : Type) where
  | done (a : α)
  | aborted
  | unfinished
deriving DecidableEq

/-- The next step of a run that has not stopped. -/
def Run.andThen {α β : Type} (r : Run α) (f : α → Run β) : Run β :=
  match r with
  | Run.done a => f a
  | Run.aborted => Run.aborted
  | Run.unfinished => Run.unfinished

/-- Modelled from the spec: the consensus log as the monitor reads it:
`is_active()`, `is_readable()`, `get_version()`, the values `read(v)` returns
and the stash of `stash_latest` / `get_latest`. -/
structure Paxos where
  active : Bool
  readable : Bool
  version : Nat
  log : StdMap Nat (List Incremental)
  latest : Option (Nat × List OSDMap)
deriving DecidableEq

/-- Modelled from the spec: the two key spaces of the store, `osdmap`
(increments by epoch) and `osdmap_full` (full maps by epoch). -/
structure MonitorStore where
  osdmap : StdMap Nat (List Incremental)
  osdmap_full : StdMap Nat (List OSDMap)
deriving DecidableEq

/-- The state of `OSDMonitor`: its members (`osdmap`, `pending_inc`,
`down_pending_out`, `osd_weight`, `waiting_for_map`), what it reads of the
monitor and its services (the fsid of the monmap, leadership, the log, the
store, the instances of the MDSs that are up, whether placement groups are
being created) and what it has handed out (contexts waiting for a commit,
increments proposed, messages sent). Log lines are left out. -/
structure OSDMonitor where
  osdmap : OSDMap
  pending_inc : Incremental
  down_pending_out : StdMap Int utime_t
  osd_weight : StdMap Int Nat
  waiting_for_map : StdMap entity_inst_t epoch_t
  fsid : Nat
  is_leader : Bool
  paxos : Paxos
  store : MonitorStore
  mds_up : List entity_inst_t
  creating_pgs : Bool
  waiting_commit : List Callback
  proposed : List Incremental
  sent : List Sent
deriving DecidableEq

namespace OSDMonitor

/-- The call `paxos->wait_for_commit(c)`. -/
def wait_for_commit (s : OSDMonitor) (c : Callback) : OSDMonitor :=
  { s with waiting_commit := s.waiting_commit ++ [c] }

/-- The call `mon->messenger->send_message` and the calls into peer services. -/
def send (s : OSDMonitor) (x : Sent) : OSDMonitor :=
  { s with sent := s.sent ++ [x] }

/-- Modelled from the spec: `PaxosService::propose_pending()`, the pending
increment is handed to the log for the next round. -/
def propose_pending (s : OSDMonitor) : OSDMonitor :=
  { s with proposed := s.proposed ++ [s.pending_inc] }

/-- The function `create_pending`. -/
def create_pending (s : OSDMonitor) : OSDMonitor :=
  let pending_inc := Incremental.init (u32 (s.osdmap.epoch + 1))
  { s with pending_inc := { pending_inc with fsid := s.fsid } }

/-- The function `send_full`: a message whose one entry is the encoded map. -/
def send_full (s : OSDMonitor) (who : entity_inst_t) : OSDMonitor :=
  s.send (Sent.osd_map ⟨s.fsid, StdMap.single s.osdmap.epoch [s.osdmap], StdMap.empty⟩ who)

/-- The loop of `send_incremental`: `e` runs down from the current epoch
while `e >= from`, in unsigned 32-bit arithmetic; a buffer counts as found
when it is not empty. `turns` bounds the number of turns. -/
def send_incremental_loop (store : MonitorStore) (from_epoch : epoch_t) :
    (turns : Nat) → (e : epoch_t) → MOSDMap → Run MOSDMap
  | 0, _, _ => Run.unfinished
  | turns + 1, e, m =>
    if e ≥ from_epoch then
      match store.osdmap.get? e with
      | some (i :: bl) =>
        send_incremental_loop store from_epoch turns (u32 (e - 1))
          { m with incremental_maps := m.incremental_maps.set e (i :: bl) }
      | _ =>
        match store.osdmap_full.get? e with
        | some (f :: bl) =>
          send_incremental_loop store from_epoch turns (u32 (e - 1))
            { m with maps := m.maps.set e (f :: bl) }
        | _ => Run.aborted
    else Run.done m

/-- The function `send_incremental`. The loop ends within 2^32 + 1 turns or not
at all. -/
def send_incremental (s : OSDMonitor) (dest : entity_inst_t) (from_epoch : epoch_t) :
    Run OSDMonitor :=
  let m : MOSDMap := ⟨s.fsid, StdMap.empty, StdMap.empty⟩
  (send_incremental_loop s.store from_epoch 4294967297 s.osdmap.get_epoch m).andThen
    (fun m => Run.done (s.send (Sent.osd_map m dest)))

/-- One turn of the loop of `send_to_waiting`, at the entry `i`. -/
def send_to_waiting_step (r : Run OSDMonitor) (i : entity_inst_t × epoch_t) : Run OSDMonitor :=
  r.andThen (fun s =>
    if i.2 ≠ 0 then
      if i.2 ≤ s.osdmap.get_epoch then
        (s.send_incremental i.1 i.2).andThen
          (fun s => Run.done { s with waiting_for_map := s.waiting_for_map.erase i.1 })
      else Run.done s
    else
      let s := s.send_full i.1
      Run.done { s with waiting_for_map := s.waiting_for_map.erase i.1 })

/-- The function `send_to_waiting`. -/
def send_to_waiting (s : OSDMonitor) : Run OSDMonitor :=
  s.waiting_for_map.entries.foldl send_to_waiting_step (Run.done s)

/-- The function `bcast_latest_mds`: an incremental from the current epoch to
every MDS that is up. -/
def bcast_latest_mds (s : OSDMonitor) : Run OSDMonitor :=
  s.mds_up.foldl
    (fun r inst => r.andThen (fun s => s.send_incremental inst s.osdmap.get_epoch))
    (Run.done s)

/-- The loop `while (paxosv > osdmap.epoch)` of `update_from_paxos`: read the
next increment from the log, apply it, write the full map out. The state is
the map, the store and the buffer `bl`. `apply_incremental` is the function of
`OSDMap` (`none` when it fails); `turns` bounds the number of turns. -/
def update_from_paxos_loop (apply_incremental : OSDMap → Incremental → Option OSDMap)
    (paxos : Paxos) (paxosv : Nat) :
    (turns : Nat) → OSDMap → MonitorStore → List OSDMap →
      Run (OSDMap × MonitorStore × List OSDMap)
  | 0, _, _, _ => Run.unfinished
  | turns + 1, osdmap, store, bl =>
    if paxosv > osdmap.epoch then
      match paxos.log.get? (u32 (osdmap.epoch + 1)) with
      | some (inc :: _) =>
        match apply_incremental osdmap inc with
        | some osdmap =>
          let bl := [osdmap]
          let store := { store with osdmap_full := store.osdmap_full.set osdmap.epoch bl }
          update_from_paxos_loop apply_incremental paxos paxosv turns osdmap store bl
        | none => Run.aborted
      | _ => Run.aborted
    else Run.done (osdmap, store, bl)

/-- The loop of `update_from_paxos` that fills `down_pending_out`. -/
def populate_down_pending_out (osdmap : OSDMap) (now : utime_t)
    (down_pending_out : StdMap Int utime_t) : StdMap Int utime_t :=
  ((List.range osdmap.osds.length).map (fun n => (n : Int))).foldl
    (fun dpo o =>
      if osdmap.is_down o && osdmap.is_in o && dpo.count o == 0 then dpo.set o now else dpo)
    down_pending_out

/-- The function `update_from_paxos`. `now` is the reading of the clock and
`turns` the bound on the turns of the loop over the increments. -/
def update_from_paxos (apply_incremental : OSDMap → Incremental → Option OSDMap)
    (now : utime_t) (turns : Nat) (s : OSDMonitor) : Run (Bool × OSDMonitor) :=
  if !s.paxos.active then Run.aborted
  else
    let paxosv := s.paxos.version
    if paxosv = s.osdmap.epoch then Run.done (true, s)
    else if !(paxosv ≥ s.osdmap.epoch) then Run.aborted
    else
      -- startup: just load the latest full map
      let loaded : Run OSDMap :=
        if s.osdmap.epoch = 0 ∧ paxosv > 1 then
          match s.paxos.latest with
          | some (v, latest) =>
            if v ≠ 0 then
              match latest with
              | m :: _ => Run.done m
              | [] => Run.aborted
            else Run.done s.osdmap
          | none => Run.done s.osdmap
        else Run.done s.osdmap
      loaded.andThen (fun osdmap =>
        (update_from_paxos_loop apply_incremental s.paxos paxosv turns osdmap s.store []).andThen
          (fun (osdmap, store, bl) =>
            let s := { s with
              osdmap := osdmap
              store := store
              paxos := { s.paxos with latest := some (paxosv, bl) }
              down_pending_out := populate_down_pending_out osdmap now s.down_pending_out }
            let told : Run OSDMonitor :=
              if s.is_leader then (s.send (Sent.check_osd_map osdmap.epoch)).bcast_latest_mds
              else Run.done s
            (told.andThen send_to_waiting).andThen (fun s => Run.done (true, s))))

/-- The function `fake_osd_failure`. -/
def fake_osd_failure (s : OSDMonitor) (osd : Int) (down : Bool) : OSDMonitor :=
  let s :=
    if down then
      { s with pending_inc := { s.pending_inc with
          new_down := s.pending_inc.new_down.set osd false } }
    else
      { s with pending_inc := { s.pending_inc with
          new_weight := s.pending_inc.new_weight.set osd CEPH_OSD_OUT } }
  s.propose_pending

/-- The function `prepare_failure`; a failed `assert` aborts the run. -/
def prepare_failure (s : OSDMonitor) (m : MOSDFailure) : Run (Bool × OSDMonitor) :=
  -- take their word for it
  let badboy := m.failed.name.num
  if !s.osdmap.is_up badboy then Run.aborted
  else if !(s.osdmap.get_addr badboy == m.failed.addr) then Run.aborted
  else
    let s := { s with pending_inc := { s.pending_inc with
      new_down := s.pending_inc.new_down.set badboy false } }
    let s := s.wait_for_commit (Callback.C_Reported m)
    Run.done (true, s)

/-- The function `prepare_boot`; a failed `assert` aborts the run. Epochs are
unsigned 32-bit numbers, so `info.down_at-1` is taken modulo 2^32. -/
def prepare_boot (s : OSDMonitor) (m : MOSDBoot) : Run (Bool × OSDMonitor) :=
  if !m.orig_source_inst.name.is_osd then Run.aborted
  else
    let from_osd := m.orig_source_inst.name.num
    -- does this osd exist?
    if !s.osdmap.osd_exists from_osd then Run.done (false, s)
    -- already up?  mark down first?
    else if s.osdmap.is_up from_osd then
      if !(s.osdmap.get_inst from_osd != m.orig_source_inst) then Run.aborted
      else
        -- mark previous guy down
        let s := { s with pending_inc := { s.pending_inc with
          new_down := s.pending_inc.new_down.set from_osd false } }
        let s := s.wait_for_commit (Callback.C_RetryMessage m)
        Run.done (true, s)
    else
      -- mark new guy up.
      let s := { s with down_pending_out := s.down_pending_out.erase from_osd }
      let s := { s with pending_inc := { s.pending_inc with
        new_up := s.pending_inc.new_up.set from_osd m.orig_source_inst.addr } }
      -- mark in?
      let s := { s with pending_inc := { s.pending_inc with
        new_weight := s.pending_inc.new_weight.set from_osd CEPH_OSD_IN } }
      let s := if m.sb.weight ≠ 0 then
          { s with osd_weight := s.osd_weight.set from_osd m.sb.weight }
        else s
      -- adjust last clean unmount epoch?
      let info := s.osdmap.get_info from_osd
      let s :=
        if m.sb.mounted > info.last_clean_first ∨
            (m.sb.mounted = info.last_clean_first ∧ m.sb.clean_thru > info.last_clean_last) then
          let first := m.sb.mounted
          let last := m.sb.clean_thru
          -- adjust clean interval forward to the epoch the osd was actually marked down.
          let last :=
            if info.up_from = first ∧ u32 (info.down_at - 1) > last then u32 (info.down_at - 1)
            else last
          { s with pending_inc := { s.pending_inc with
            new_last_clean_interval :=
              s.pending_inc.new_last_clean_interval.set from_osd (first, last) } }
        else s
      -- wait
      let s := s.wait_for_commit (Callback.C_Booted m)
      Run.done (true, s)

/-- The branch `down` of `prepare_command`, taken for `osd down <id>`. `osd` is
the `long` that `strtol` reads from the third word; it becomes an `int` where
the map is asked and where it is used as a key. -/
def prepare_command_down (s : OSDMonitor) (m : MMonCommand) (osd : Int) :
    Bool × OSDMonitor :=
  if !s.osdmap.osd_exists (i32 osd) then
    let rs := "osd" ++ toString osd ++ " does not exist"
    (false, s.send (Sent.command_reply m (-EINVAL) rs []))
  else if s.osdmap.is_down (i32 osd) then
    let rs := "osd" ++ toString osd ++ " is already down"
    (false, s.send (Sent.command_reply m (-EINVAL) rs []))
  else
    let s := { s with pending_inc := { s.pending_inc with
      new_down := s.pending_inc.new_down.set (i32 osd) false } }
    let rs := "marked down osd" ++ toString osd
    let s := s.wait_for_commit (Callback.C_Command m 0 rs)
    -- send them the new map when it updates, so they know it
    let s := { s with waiting_for_map :=
      s.waiting_for_map.set (s.osdmap.get_inst (i32 osd)) s.osdmap.get_epoch }
    (true, s)

/-- The function `mark_all_down`; a failed `assert` aborts the run. -/
def mark_all_down (s : OSDMonitor) : Run OSDMonitor :=
  if !s.is_leader then Run.aborted
  else
    let ls := s.osdmap.get_all_osds
    let new_down := ls.foldl
      (fun new_down it => if s.osdmap.is_down it then new_down else new_down.set it true)
      s.pending_inc.new_down
    let s := { s with pending_inc := { s.pending_inc with new_down := new_down } }
    Run.done s.propose_pending

/-- One turn of the loop of `tick` over `down_pending_out`, at the entry `i`;
the state is the pending increment, the watchlist and `do_propose`. -/
def tick_down_step (osdmap : OSDMap) (now : utime_t) (mon_osd_down_out_interval : Int)
    (st : Incremental × StdMap Int utime_t × Bool) (i : Int × utime_t) :
    Incremental × StdMap Int utime_t × Bool :=
  let o := i.1
  let down := now.sub i.2
  if osdmap.is_down o && osdmap.is_in o then
    if down.sec ≥ mon_osd_down_out_interval then
      ({ st.1 with new_weight := st.1.new_weight.set o CEPH_OSD_OUT }, st.2.1.erase o, true)
    else st
  else (st.1, st.2.1.erase o, st.2.2)

/-- One turn of the loop of `tick` over the blacklist of the map; the state is
the pending increment and `do_propose`. -/
def tick_blacklist_step (now : utime_t) (st : Incremental × Bool)
    (p : entity_addr_t × utime_t) : Incremental × Bool :=
  if p.2.lt now then
    ({ st.1 with old_blacklist := st.1.old_blacklist ++ [p.1] }, true)
  else st

/-- The function `tick`. `now_update` and `now` are the readings of the clock
in `update_from_paxos` and in `tick`, `mon_osd_down_out_interval` is the setting
of that name, `turns` bounds the loop of `update_from_paxos`. -/
def tick (apply_incremental : OSDMap → Incremental → Option OSDMap)
    (mon_osd_down_out_interval : Int) (now_update now : utime_t) (turns : Nat)
    (s : OSDMonitor) : Run OSDMonitor :=
  if !s.paxos.active then Run.done s
  else
    (update_from_paxos apply_incremental now_update turns s).andThen (fun r =>
      let s := r.2
      if !s.is_leader then Run.done s
      else
        let do_propose := false
        -- mark down osds out?
        let st := s.down_pending_out.entries.foldl
          (tick_down_step s.osdmap now mon_osd_down_out_interval)
          (s.pending_inc, s.down_pending_out, do_propose)
        -- expire blacklisted items?
        let st2 := s.osdmap.blacklist.entries.foldl (tick_blacklist_step now) (st.1, st.2.2)
        let s := { s with pending_inc := st2.1, down_pending_out := st.2.1 }
        if st2.2 then Run.done s.propose_pending else Run.done s)

end OSDMonitor

/-- The states the monitor reaches from `create_pending` on `s0` while the
committed map stays as it is, by the operations that write `new_up` or
`new_down` and by `tick`. Between two operations everything but the committed
map and the pending increment may change (`env`). `fake_allowed s osd down`
says which calls of `fake_osd_failure` are taken into account. -/
inductive Reaches (apply_incremental : OSDMap → Incremental → Option OSDMap)
    (fake_allowed : OSDMonitor → Int → Bool → Prop) (s0 : OSDMonitor) : OSDMonitor → Prop where
  | create_pending : Reaches apply_incremental fake_allowed s0 s0.create_pending
  | env (s s2 : OSDMonitor) :
      Reaches apply_incremental fake_allowed s0 s →
      s2.osdmap = s.osdmap → s2.pending_inc = s.pending_inc →
      Reaches apply_incremental fake_allowed s0 s2
  | prepare_failure (s s2 : OSDMonitor) (m : MOSDFailure) (ret : Bool) :
      Reaches apply_incremental fake_allowed s0 s →
      s.prepare_failure m = Run.done (ret, s2) →
      Reaches apply_incremental fake_allowed s0 s2
  | prepare_boot (s s2 : OSDMonitor) (m : MOSDBoot) (ret : Bool) :
      Reaches apply_incremental fake_allowed s0 s →
      s.prepare_boot m = Run.done (ret, s2) →
      Reaches apply_incremental fake_allowed s0 s2
  | command_down (s : OSDMonitor) (m : MMonCommand) (osd : Int) :
      Reaches apply_incremental fake_allowed s0 s →
      Reaches apply_incremental fake_allowed s0 (s.prepare_command_down m osd).2
  | mark_all_down (s s2 : OSDMonitor) :
      Reaches apply_incremental fake_allowed s0 s →
      s.mark_all_down = Run.done s2 →
      Reaches apply_incremental fake_allowed s0 s2
  | fake_osd_failure (s : OSDMonitor) (osd : Int) (down : Bool) :
      Reaches apply_incremental fake_allowed s0 s →
      fake_allowed s osd down →
      Reaches apply_incremental fake_allowed s0 (s.fake_osd_failure osd down)
  | tick (s s2 : OSDMonitor) (interval : Int) (now_update now : utime_t) (turns : Nat) :
      Reaches apply_incremental fake_allowed s0 s →
      (s.paxos.active = true → s.paxos.version = s.osdmap.epoch) →
      s.tick apply_incremental interval now_update now turns = Run.done s2 →
      Reaches apply_incremental fake_allowed s0 s2

/-- Every call of `fake_osd_failure` counts. -/
def any_fake (_s : OSDMonitor) (_osd : Int) (_down : Bool) : Prop := True

/-- Only the calls of `fake_osd_failure` count that mark down an OSD which is
up in the committed map, or that mark an OSD out. -/
def fake_of_up_osd (s : OSDMonitor) (osd : Int) (down : Bool) : Prop :=
  down = true → s.osdmap.is_up osd = true

/-- An `osd_info_t` of zeros. -/
def osd_info_t.zero : osd_info_t := ⟨0, 0, 0, 0, 0, 0⟩

/-- A committed map of epoch 2 with two OSDs: osd0 up at address 100, osd1
existing and down. -/
def two_osd_map : OSDMap :=
  { OSDMap.blank with
    epoch := 2
    osds := [⟨true, true, 100, CEPH_OSD_IN, osd_info_t.zero⟩,
             ⟨true, false, 0, CEPH_OSD_OUT, osd_info_t.zero⟩] }

/-- A leader whose committed map is `two_osd_map`. -/
def two_osd_monitor : OSDMonitor :=
  { osdmap := two_osd_map, pending_inc := Incremental.init 0,
    down_pending_out := StdMap.empty, osd_weight := StdMap.empty,
    waiting_for_map := StdMap.empty, fsid := 0, is_leader := true,
    paxos := ⟨true, true, 2, StdMap.empty, none⟩, store := ⟨StdMap.empty, StdMap.empty⟩,
    mds_up := [], creating_pgs := false, waiting_commit := [], proposed := [], sent := [] }

/-- The boot message of osd1 from address 101. -/
def boot_of_osd1 : MOSDBoot :=
  { sb := ⟨0, 0, 0, CEPH_OSD_IN, 0⟩, orig_source_inst := ⟨entity_name_t.OSD 1, 101⟩ }

/-- A map function that applies nothing. -/
def apply_nothing (_m : OSDMap) (_inc : Incremental) : Option OSDMap := none

/-- The monitor after `create_pending` and the boot of osd1. -/
def booted_osd1 : OSDMonitor :=
  match two_osd_monitor.create_pending.prepare_boot boot_of_osd1 with
  | Run.done r => r.2
  | _ => two_osd_monitor

/-- The monitor after `create_pending`, the boot of osd1 and
`fake_osd_failure(1, true)`. -/
def booted_then_faked : OSDMonitor := booted_osd1.fake_osd_failure 1 true

/-- What holds of the pending increment against the committed map of `s0`
when only guarded operations wrote it: a key of `new_up` is not up in the
map, a key of `new_down` is up in the map. -/
def pending_consistent (s0 s : OSDMonitor) : Prop :=
  s.osdmap = s0.osdmap
  ∧ (∀ i, s.pending_inc.new_up.contains i = true → s0.osdmap.is_up i = false)
  ∧ (∀ i, s.pending_inc.new_down.contains i = true → s0.osdmap.is_up i = true)

/-! ### Failure reports and boots: what Preprocess decides -/

/-- Modelled from the spec: `have_inst(osd)`, the map has an instance for the
id: the id exists and is up. -/
def OSDMap.have_inst (m : OSDMap) (osd : Int) : Bool := m.osd_exists osd && m.is_up osd

/-- The function `preprocess_failure`. The label `didit` returns true; a
failed `assert` in `send_incremental` aborts the run. -/
def OSDMonitor.preprocess_failure (s : OSDMonitor) (m : MOSDFailure) :
    Run (Bool × OSDMonitor) :=
  -- who is failed
  let badboy := m.failed.name.num
  if m.fsid ≠ s.fsid then Run.done (true, s)
  -- first, verify the reporting host is valid
  else if m.orig_source_inst.name.is_osd &&
      (!s.osdmap.osd_exists m.orig_source_inst.name.num ||
        s.osdmap.get_addr m.orig_source_inst.name.num != m.orig_source_inst.addr ||
        s.osdmap.is_down m.orig_source_inst.name.num) then
    (s.send_incremental m.orig_source_inst (u32 (m.epoch + 1))).andThen
      (fun s => Run.done (true, s))
  -- weird?
  else if !s.osdmap.have_inst badboy then
    if m.epoch < s.osdmap.get_epoch then
      (s.send_incremental m.orig_source_inst (u32 (m.epoch + 1))).andThen
        (fun s => Run.done (true, s))
    else Run.done (true, s)
  else if s.osdmap.get_inst badboy != m.failed then
    if m.epoch < s.osdmap.get_epoch then
      (s.send_incremental m.orig_source_inst (u32 (m.epoch + 1))).andThen
        (fun s => Run.done (true, s))
    else Run.done (true, s)
  -- already reported?
  else if s.osdmap.is_down badboy then
    if m.epoch < s.osdmap.get_epoch then
      (s.send_incremental m.orig_source_inst (u32 (m.epoch + 1))).andThen
        (fun s => Run.done (true, s))
    else Run.done (true, s)
  else Run.done (false, s)

/-- The store holds an increment or a full map at epoch `e`: one of the two
reads of `send_incremental` finds a non-empty buffer. -/
def MonitorStore.holds (store : MonitorStore) (e : epoch_t) : Bool :=
  match store.osdmap.get? e with
  | some (_ :: _) => true
  | _ =>
    match store.osdmap_full.get? e with
    | some (_ :: _) => true
    | _ => false

/-- The report is one that `preprocess_failure` hands on to Prepare, as the
specification words it: the fsid matches, the reporter is not an OSD or an OSD
that exists, is up and has the address of the sender, and the failed OSD is up
under the reported name and address. -/
def forwardable_failure (s : OSDMonitor) (m : MOSDFailure) : Prop :=
  m.fsid = s.fsid
  ∧ (m.orig_source_inst.name.is_osd = false
      ∨ (s.osdmap.osd_exists m.orig_source_inst.name.num = true
          ∧ s.osdmap.is_up m.orig_source_inst.name.num = true
          ∧ s.osdmap.get_addr m.orig_source_inst.name.num = m.orig_source_inst.addr))
  ∧ s.osdmap.is_up m.failed.name.num = true
  ∧ s.osdmap.get_inst m.failed.name.num = m.failed

/-- The reporter of the failure is an OSD that the committed map does not
hold as up at the address of the sender. -/
def dead_reporter (s : OSDMonitor) (m : MOSDFailure) : Prop :=
  m.orig_source_inst.name.is_osd = true
  ∧ (s.osdmap.osd_exists m.orig_source_inst.name.num = false
      ∨ s.osdmap.is_up m.orig_source_inst.name.num = false
      ∨ s.osdmap.get_addr m.orig_source_inst.name.num ≠ m.orig_source_inst.addr)

/-- A store that holds the two increments of `two_osd_map`, epochs 1 and 2. -/
def two_epoch_store : MonitorStore :=
  ⟨(StdMap.single 1 [Incremental.init 1]).set 2 [Incremental.init 2], StdMap.empty⟩

/-- The leader of `two_osd_monitor` with the store `two_epoch_store`. -/
def two_osd_monitor_stored : OSDMonitor :=
  { two_osd_monitor with store := two_epoch_store }

/-- The report of osd0 at address 100 that osd1 failed, sent at epoch `e`. -/
def report_osd1_by_osd0 (e : epoch_t) : MOSDFailure :=
  { fsid := 0, failed := ⟨entity_name_t.OSD 1, 0⟩, epoch := e,
    orig_source_inst := ⟨entity_name_t.OSD 0, 100⟩ }

/-- The report of osd1, which the map holds as down, that osd0 at address 100
failed, sent at epoch `e`. -/
def report_osd0_by_osd1 (e : epoch_t) : MOSDFailure :=
  { fsid := 0, failed := ⟨entity_name_t.OSD 0, 100⟩, epoch := e,
    orig_source_inst := ⟨entity_name_t.OSD 1, 101⟩ }

/-- The report of a client at address 7 that osd0 at address 100 failed, sent
at epoch `e`. -/
def report_osd0_by_client (e : epoch_t) : MOSDFailure :=
  { fsid := 0, failed := ⟨entity_name_t.OSD 0, 100⟩, epoch := e,
    orig_source_inst := ⟨⟨8, 0⟩, 7⟩ }

/-! ### Boots: the clean interval -/

/-- The interval `p` advances the interval `q`: it is greater in the
lexicographic order, the test of `prepare_boot` on `(mounted, clean_thru)`
against `(last_clean_first, last_clean_last)`. -/
@[reducible] def interval_advances (p q : epoch_t × epoch_t) : Prop :=
  p.1 > q.1 ∨ (p.1 = q.1 ∧ p.2 > q.2)

/-- The pair `(first, last)` that `prepare_boot` computes from the info record
of the OSD and the superblock: the candidate `(mounted, clean_thru)`, its end
moved to `info.down_at-1` (an unsigned 32-bit number) when the OSD came up at
`first` and that epoch is later. -/
def clean_interval_candidate (info : osd_info_t) (sb : OSDSuperblock) : epoch_t × epoch_t :=
  (sb.mounted,
    if info.up_from = sb.mounted ∧ u32 (info.down_at - 1) > sb.clean_thru then
      u32 (info.down_at - 1)
    else sb.clean_thru)

/-- The pair as the specification words it: the stretch tested and taken over
the integers, so that `down_at = 0` never stretches. -/
def clean_interval_as_specified (info : osd_info_t) (sb : OSDSuperblock) : Int × Int :=
  (sb.mounted,
    if info.up_from = sb.mounted ∧ (info.down_at : Int) - 1 > sb.clean_thru then
      (info.down_at : Int) - 1
    else sb.clean_thru)

/-- The boot message of osd0 from address 101, where the map has it at 100. -/
def boot_of_osd0_moved : MOSDBoot :=
  { sb := ⟨0, 0, 0, 0, 0⟩, orig_source_inst := ⟨entity_name_t.OSD 0, 101⟩ }

/-- The leader of `two_osd_monitor` after the commit that marked osd0 down. -/
def osd0_down_monitor : OSDMonitor :=
  { two_osd_monitor with
    osdmap := { two_osd_map with
      epoch := 3
      osds := [⟨true, false, 100, CEPH_OSD_IN, osd_info_t.zero⟩,
               ⟨true, false, 0, CEPH_OSD_OUT, osd_info_t.zero⟩] } }

/-- The boot message of osd1 with weight 7 in its superblock. -/
def boot_of_osd1_weight_7 : MOSDBoot :=
  { sb := ⟨0, 0, 0, 7, 0⟩, orig_source_inst := ⟨entity_name_t.OSD 1, 101⟩ }

/-- The boot message of osd1 whose superblock says mounted at epoch 0, clean
through epoch 5. -/
def boot_clean_thru_5 : MOSDBoot :=
  { sb := ⟨0, 0, 5, 0, 0⟩, orig_source_inst := ⟨entity_name_t.OSD 1, 101⟩ }

/-- The monitor after `prepare_boot` of `boot_clean_thru_5` on
`two_osd_monitor`, where the info record of osd1 holds zeros. -/
def booted_clean_thru_5 : OSDMonitor :=
  match two_osd_monitor.prepare_boot boot_clean_thru_5 with
  | Run.done r => r.2
  | _ => two_osd_monitor

/-- The info record of an OSD that was clean over the epochs 3 to 5, came up
at epoch 3 and was marked down at epoch 10. -/
def stretch_info : osd_info_t :=
  { last_clean_first := 3, last_clean_last := 5, up_from := 3, up_thru := 0, down_at := 10,
    lost_at := 0 }

/-- A leader whose committed map (epoch 11) has osd0 up and osd1 down with the
info record `stretch_info`. -/
def stretch_monitor : OSDMonitor :=
  { two_osd_monitor with
    osdmap := { two_osd_map with
      epoch := 11
      osds := [⟨true, true, 100, CEPH_OSD_IN, osd_info_t.zero⟩,
               ⟨true, false, 0, CEPH_OSD_OUT, stretch_info⟩] } }

/-- The boot message of osd1 whose superblock says mounted at epoch 3, clean
through epoch 5. -/
def stretch_boot : MOSDBoot :=
  { sb := ⟨0, 3, 5, 0, 0⟩, orig_source_inst := ⟨entity_name_t.OSD 1, 101⟩ }

/-- The boot message of osd1 whose superblock says mounted at epoch 10, clean
through epoch 5. -/
def boot_mounted_after_clean : MOSDBoot :=
  { sb := ⟨0, 10, 5, 0, 0⟩, orig_source_inst := ⟨entity_name_t.OSD 1, 101⟩ }

/-- The boot message of osd1 whose superblock says mounted at epoch 4, clean
through epoch 6. -/
def boot_clean_4_to_6 : MOSDBoot :=
  { sb := ⟨0, 4, 6, 0, 0⟩, orig_source_inst := ⟨entity_name_t.OSD 1, 101⟩ }

/-! ### Removed snapshots -/

/-- The value `m[k]` reads: the value stored under `k`, or `d`, the value a
new entry is given. -/
def StdMap.subscript {K V : Type} [LinearOrder K] [DecidableEq K] (m : StdMap K V) (k : K)
    (d : V) : V :=
  (m.get? k).getD d

/-- Modelled from the spec: the `pg_pool_t` a default constructor gives: every
number zero, no snapshot, nothing removed. -/
def pg_pool_t.init : pg_pool_t :=
  { type := 0, size := 0, crush_ruleset := 0, pg_num := 0, pgp_num := 0, lpg_num := 0,
    lpgp_num := 0, last_change := 0, snap_seq := 0, snap_epoch := 0, snaps := StdMap.empty,
    removed_snaps := [] }

/-- Modelled from the spec: `get_snap_seq()`. -/
def pg_pool_t.get_snap_seq (p : pg_pool_t) : Nat := p.snap_seq

/-- Modelled from the spec: `set_snap_seq(s)`. -/
def pg_pool_t.set_snap_seq (p : pg_pool_t) (s : Nat) : pg_pool_t := { p with snap_seq := s }

/-- Modelled from the spec: `set_snap_epoch(e)`. -/
def pg_pool_t.set_snap_epoch (p : pg_pool_t) (e : epoch_t) : pg_pool_t :=
  { p with snap_epoch := e }

/-- Modelled from the spec: `contains(x)` of the interval set `removed_snaps`,
the set being the list of the ids put into it. -/
def interval_set_contains (set : List Nat) (x : Nat) : Bool := decide (x ∈ set)

/-- Modelled from the spec: `insert(x)` of the interval set `removed_snaps`. -/
def interval_set_insert (set : List Nat) (x : Nat) : List Nat := set ++ [x]

/-- Modelled from the spec: `have_pg_pool(p)`, the id is a key of `pools`. -/
def OSDMap.have_pg_pool (m : OSDMap) (p : Int) : Bool := m.pools.count p != 0

/-- Modelled from the spec: `get_pg_pool(p)`, the pool of an id the map has. -/
def OSDMap.get_pg_pool (m : OSDMap) (p : Int) : pg_pool_t := m.pools.subscript p pg_pool_t.init

/-- The inner loop of `preprocess_remove_snaps` over the snaps named for one
pool: false at the first snap that is above `snap_seq` or not removed yet. -/
def snaps_all_removed (pi : pg_pool_t) : List Nat → Bool
  | [] => true
  | p :: rest =>
    if p > pi.get_snap_seq || !interval_set_contains pi.removed_snaps p then false
    else snaps_all_removed pi rest

/-- The outer loop of `preprocess_remove_snaps` over the pools of the message;
a pool the map does not have is passed over. -/
def preprocess_remove_snaps_loop (osdmap : OSDMap) : List (Int × List Nat) → Bool
  | [] => true
  | q :: rest =>
    if !osdmap.have_pg_pool q.1 then preprocess_remove_snaps_loop osdmap rest
    else
      let pi := osdmap.get_pg_pool q.1
      if !snaps_all_removed pi q.2 then false
      else preprocess_remove_snaps_loop osdmap rest

/-- The function `preprocess_remove_snaps`. -/
def OSDMonitor.preprocess_remove_snaps (s : OSDMonitor) (m : MRemoveSnaps) :
    Bool × OSDMonitor :=
  (preprocess_remove_snaps_loop s.osdmap m.snaps.entries, s)

/-- One turn of the inner loop of `prepare_remove_snaps`, at the snap `q` of
the pool with id `pool`; `pi` is the pool that `osdmap.pools[pool]` refers to. -/
def remove_snap_step (pool : Int) (pi : pg_pool_t) (pending_inc : Incremental) (q : Nat) :
    Incremental :=
  if !interval_set_contains pi.removed_snaps q &&
      (pending_inc.new_pools.count pool == 0 ||
        !interval_set_contains
          (pending_inc.new_pools.subscript pool pg_pool_t.init).removed_snaps q) then
    let new_pools :=
      if pending_inc.new_pools.count pool = 0 then pending_inc.new_pools.set pool pi
      else pending_inc.new_pools
    let newpi := new_pools.subscript pool pg_pool_t.init
    let newpi := { newpi with removed_snaps := interval_set_insert newpi.removed_snaps q }
    let newpi := if q > newpi.get_snap_seq then newpi.set_snap_seq q else newpi
    let newpi := newpi.set_snap_epoch pending_inc.epoch
    { pending_inc with new_pools := new_pools.set pool newpi }
  else pending_inc

/-- One turn of the outer loop of `prepare_remove_snaps`, at the entry `p` of
the message. `osdmap.pools[p->first]` is `operator[]` of a `std::map`: it gives
the committed map an entry for the id when it has none. -/
def remove_snaps_step (s : OSDMonitor) (p : Int × List Nat) : OSDMonitor :=
  let osdmap :=
    if s.osdmap.pools.count p.1 = 0 then
      { s.osdmap with pools := s.osdmap.pools.set p.1 pg_pool_t.init }
    else s.osdmap
  let pi := osdmap.pools.subscript p.1 pg_pool_t.init
  { s with osdmap := osdmap, pending_inc := p.2.foldl (remove_snap_step p.1 pi) s.pending_inc }

/-- The function `prepare_remove_snaps`. -/
def OSDMonitor.prepare_remove_snaps (s : OSDMonitor) (m : MRemoveSnaps) : Bool × OSDMonitor :=
  (true, m.snaps.entries.foldl remove_snaps_step s)

/-- The pending increment after the loops of `prepare_remove_snaps` over
`entries`, `committed k` being what `osdmap.pools[k]` refers to. -/
def pending_remove_snaps (committed : Int → pg_pool_t) (pending_inc : Incremental)
    (entries : List (Int × List Nat)) : Incremental :=
  entries.foldl (fun inc p => p.2.foldl (remove_snap_step p.1 (committed p.1)) inc) pending_inc

/-- The snap `q` counts as removed for the pool `pool`: it is in `removed_snaps`
of the committed pool `pi` or of the copy of the pool in the pending increment. -/
def snap_removed (pool : Int) (pi : pg_pool_t) (pending_inc : Incremental) (q : Nat) : Prop :=
  q ∈ pi.removed_snaps
    ∨ ∃ np, pending_inc.new_pools.get? pool = some np ∧ q ∈ np.removed_snaps

/-- The pool a snap is put into: the copy in the pending increment, or the
committed pool `pi` when the pending increment has no copy yet. -/
def pool_to_change (pool : Int) (pi : pg_pool_t) (pending_inc : Incremental) : pg_pool_t :=
  (pending_inc.new_pools.get? pool).getD pi

/-- The pool `base` after the snap `q` was removed in the epoch `e`, as the
specification words it: `q` put into `removed_snaps`, `snap_seq` raised to
`max(snap_seq, q)`, `snap_epoch` set to `e`. -/
def pool_with_snap_removed (base : pg_pool_t) (q : Nat) (e : epoch_t) : pg_pool_t :=
  { base with
    removed_snaps := base.removed_snaps ++ [q]
    snap_seq := max base.snap_seq q
    snap_epoch := e }

/-- Every removed snap id of the pool is at most its `snap_seq`. -/
@[reducible] def snaps_within (p : pg_pool_t) : Prop := ∀ x ∈ p.removed_snaps, x ≤ p.snap_seq

/-- The pools of `later` extend the pools of `earlier`: every pool of `earlier`
is a pool of `later` with at least the removed snaps and at least the
`snap_seq` it had. -/
def pools_grow (earlier later : StdMap Int pg_pool_t) : Prop :=
  ∀ k np, earlier.get? k = some np →
    ∃ np2, later.get? k = some np2
      ∧ (∀ x ∈ np.removed_snaps, x ∈ np2.removed_snaps) ∧ np.snap_seq ≤ np2.snap_seq

/-- A pool with the `snap_seq` `seq` and the removed snaps `removed`. -/
def pool_seq (seq : Nat) (removed : List Nat) : pg_pool_t :=
  { pg_pool_t.init with snap_seq := seq, removed_snaps := removed }

/-- A leader whose committed map has pool 1 with `snap_seq` 5 and the removed
snaps 2 and 4, and whose pending increment (epoch 3) is empty. -/
def pool_monitor : OSDMonitor :=
  { two_osd_monitor with
    osdmap := { two_osd_map with pools := StdMap.single 1 (pool_seq 5 [2, 4]) }
    pending_inc := Incremental.init 3 }

/-- The monitor `pool_monitor` with a copy of pool 1 in the pending increment
whose `snap_seq` is 0, below the 5 of the committed pool. -/
def pool_monitor_low_pending : OSDMonitor :=
  { pool_monitor with
    pending_inc := { Incremental.init 3 with new_pools := StdMap.single 1 (pool_seq 0 []) } }

/-- The message that removes the snaps `snaps` of pool 1. -/
def remove_of_pool1 (snaps : List Nat) : MRemoveSnaps := ⟨StdMap.single 1 snaps⟩

/-! ### Pool snapshots by name -/

/-- The constant `ENOENT`. -/
def ENOENT : Int := 2

/-- The constant `EEXIST`. -/
def EEXIST : Int := 17

/-- Modelled from the spec: `snap_exists(s)`, the id of the snapshot of the
pool whose name is `s`, 0 when no snapshot has the name. -/
def pg_pool_t.snap_exists (p : pg_pool_t) (s : String) : Nat :=
  match p.snaps.entries.find? (fun e => decide (e.2.name = s)) with
  | some e => e.2.snapid
  | none => 0

/-- Modelled from the spec: `add_snap(n, stamp)`, the snapshot gets the id
`snap_seq + 1`, which becomes the `snap_seq` of the pool. -/
def pg_pool_t.add_snap (p : pg_pool_t) (n : String) (stamp : utime_t) : pg_pool_t :=
  let s := p.get_snap_seq + 1
  { p with snap_seq := s, snaps := p.snaps.set s ⟨s, stamp, n⟩ }

/-- Modelled from the spec: `remove_snap(s)`, the snapshot with the id `s`
leaves the pool. -/
def pg_pool_t.remove_snap (p : pg_pool_t) (s : Nat) : pg_pool_t :=
  { p with snaps := p.snaps.erase s }

/-- The function `_pool_snap`: the reply to a pool-snapshot message. -/
def OSDMonitor._pool_snap (s : OSDMonitor) (m : MPoolSnap) (replyCode : Int) (epoch : epoch_t) :
    OSDMonitor :=
  s.send (Sent.pool_snap_reply m.fsid m.tid replyCode epoch m.orig_source_inst)

/-- The function `preprocess_pool_snap`. The pointer `pp` is `none` when the
pending increment has no copy of the pool; the name goes to `snap_exists` as a
C string. -/
def OSDMonitor.preprocess_pool_snap (s : OSDMonitor) (m : MPoolSnap) : Bool × OSDMonitor :=
  if m.pool < 0 then (true, s._pool_snap m (-ENOENT) s.pending_inc.epoch)
  else
    let pp : Option pg_pool_t :=
      if s.pending_inc.new_pools.count m.pool ≠ 0 then
        some (s.pending_inc.new_pools.subscript m.pool pg_pool_t.init)
      else none
    -- check if the snapname exists
    let snap_exists : Bool :=
      decide ((s.osdmap.get_pg_pool m.pool).snap_exists (c_str m.name) ≠ 0) ||
        (match pp with
         | some pp => decide (pp.snap_exists (c_str m.name) ≠ 0)
         | none => false)
    if m.create then
      if snap_exists then (true, s._pool_snap m (-EEXIST) s.pending_inc.epoch)
      else (false, s)
    else if !snap_exists then (true, s._pool_snap m (-ENOENT) s.pending_inc.epoch)
    else (false, s)

/-- The function `prepare_pool_snap`; `now` is the reading of the clock. -/
def OSDMonitor.prepare_pool_snap (s : OSDMonitor) (now : utime_t) (m : MPoolSnap) :
    Bool × OSDMonitor :=
  let p := s.osdmap.get_pg_pool m.pool
  -- if the pool isn't already in the update, add it
  let new_pools :=
    if s.pending_inc.new_pools.count m.pool = 0 then s.pending_inc.new_pools.set m.pool p
    else s.pending_inc.new_pools
  let pp := new_pools.subscript m.pool pg_pool_t.init
  let pp :=
    if m.create then (pp.add_snap (c_str m.name) now).set_snap_epoch s.pending_inc.epoch
    else pp.remove_snap (pp.snap_exists (c_str m.name))
  let s := { s with pending_inc := { s.pending_inc with new_pools := new_pools.set m.pool pp } }
  let s := s.wait_for_commit (Callback.C_Snap m 0 s.pending_inc.epoch)
  (true, s)

/-- The name of the message is the name of a snapshot of the committed pool or
of the copy of the pool in the pending increment, as `snap_exists` finds it. -/
def snap_name_known (s : OSDMonitor) (m : MPoolSnap) : Prop :=
  (s.osdmap.get_pg_pool m.pool).snap_exists (c_str m.name) ≠ 0
    ∨ ∃ pp, s.pending_inc.new_pools.get? m.pool = some pp ∧ pp.snap_exists (c_str m.name) ≠ 0

/-- A pool with one snapshot, named x, made at time 0: its id is 1, `snap_seq`
is 1 and `snap_epoch` 0. -/
def pool_with_snap_x : pg_pool_t := pg_pool_t.init.add_snap "x" ⟨0, 0⟩

/-- A leader whose committed map has pool 1 with the snapshot x and whose
pending increment (epoch 3) is empty. -/
def snap_monitor : OSDMonitor :=
  { two_osd_monitor with
    osdmap := { two_osd_map with pools := StdMap.single 1 pool_with_snap_x }
    pending_inc := Incremental.init 3 }

/-- The message of a client that deletes the snapshot x of pool 1. -/
def delete_snap_x : MPoolSnap :=
  { fsid := 0, tid := 1, pool := 1, name := "x", create := false,
    orig_source_inst := ⟨⟨8, 0⟩, 7⟩ }

/-- The message of a client that creates the snapshot y of pool 1. -/
def create_snap_y : MPoolSnap :=
  { fsid := 0, tid := 2, pool := 1, name := "y", create := true,
    orig_source_inst := ⟨⟨8, 0⟩, 7⟩ }

/-- The monitor `snap_monitor` after `prepare_pool_snap` of `delete_snap_x`. -/
def snap_monitor_deleted : OSDMonitor := (snap_monitor.prepare_pool_snap ⟨9, 0⟩ delete_snap_x).2

/-! ### Maps sent to peers -/

/-- The store holds an increment at epoch `e`: the first read of
`send_incremental` finds a non-empty buffer. -/
def MonitorStore.inc_held (store : MonitorStore) (e : epoch_t) : Bool :=
  match store.osdmap.get? e with
  | some (_ :: _) => true
  | _ => false

/-- The message that `send_incremental` builds for the epochs from
`from_epoch` to the current one; the empty message when the loop does not end. -/
def OSDMonitor.incremental_message (s : OSDMonitor) (from_epoch : epoch_t) : MOSDMap :=
  match OSDMonitor.send_incremental_loop s.store from_epoch 4294967297 s.osdmap.get_epoch
      ⟨s.fsid, StdMap.empty, StdMap.empty⟩ with
  | Run.done m => m
  | _ => ⟨s.fsid, StdMap.empty, StdMap.empty⟩

/-- The function `send_latest`. -/
def OSDMonitor.send_latest (s : OSDMonitor) (who : entity_inst_t) (start : epoch_t) :
    Run OSDMonitor :=
  if s.paxos.readable then
    if start = 0 then Run.done (s.send_full who)
    else s.send_incremental who start
  else Run.done { s with waiting_for_map := s.waiting_for_map.set who start }

/-- What `send_to_waiting` sends for the entry `i` of `waiting_for_map`: the
full map when the epoch asked for is 0, else the incremental from that epoch. -/
def OSDMonitor.served (s : OSDMonitor) (i : entity_inst_t × epoch_t) : Sent :=
  if i.2 = 0 then
    Sent.osd_map ⟨s.fsid, StdMap.single s.osdmap.epoch [s.osdmap], StdMap.empty⟩ i.1
  else Sent.osd_map (s.incremental_message i.2) i.1

/-- The store `two_epoch_store` with an increment at epoch 0 added. -/
def three_epoch_store : MonitorStore :=
  { two_epoch_store with osdmap := two_epoch_store.osdmap.set 0 [Incremental.init 0] }

/-- A store with the increment of epoch 1, and at epoch 2 an increment and a
full map. -/
def mixed_store : MonitorStore :=
  ⟨(StdMap.single 1 [Incremental.init 1]).set 2 [Incremental.init 2],
   StdMap.single 2 [two_osd_map]⟩

/-- The monitor `two_osd_monitor_stored` with three peers waiting for a map:
osd0 from epoch 0 on, osd1 from epoch 2 on, a client from epoch 5 on. -/
def waiting_monitor : OSDMonitor :=
  { two_osd_monitor_stored with
    waiting_for_map :=
      ((StdMap.single (⟨entity_name_t.OSD 0, 100⟩ : entity_inst_t) (0 : epoch_t)).set
        ⟨entity_name_t.OSD 1, 101⟩ 2).set ⟨⟨8, 0⟩, 7⟩ 5 }

/-! ### The tick over the watchlist -/

/-- The leader of `two_osd_monitor` at the version of its map, with osd1 down
and weighted in, and with osd0, which is up, and osd1 on the watchlist since
the times 0 and 100. -/
def watch_monitor : OSDMonitor :=
  { two_osd_monitor with
    osdmap := { two_osd_map with
      osds := [⟨true, true, 100, CEPH_OSD_IN, osd_info_t.zero⟩,
               ⟨true, false, 0, CEPH_OSD_IN, osd_info_t.zero⟩] }
    down_pending_out := (StdMap.single 0 ⟨0, 0⟩).set 1 ⟨100, 0⟩ }

/-! ### The propose policy -/

/-- The function `should_propose`. The argument `delay` is passed by
reference: the result is the return value, the value of `delay` afterwards and
the monitor. A `double` is the rational number it stands for.
`adjust_osd_weights` is the function of `OSDMap` and `paxos_should_propose`
the function `PaxosService::should_propose`. -/
def OSDMonitor.should_propose
    (adjust_osd_weights : OSDMap → StdMap Int Nat → Incremental → Incremental)
    (paxos_should_propose : OSDMonitor → ℚ → Bool × ℚ) (s : OSDMonitor) (delay : ℚ) :
    Bool × ℚ × OSDMonitor :=
  -- if full map, propose immediately!  any subsequent changes will be clobbered.
  if s.pending_inc.fullmap.length ≠ 0 then (true, delay, s)
  -- adjust osd weights?
  else if s.osd_weight.entries.length = u32 s.osdmap.get_max_osd then
    let pending_inc := adjust_osd_weights s.osdmap s.osd_weight s.pending_inc
    let delay := 0
    (true, delay, { s with pending_inc := pending_inc, osd_weight := StdMap.empty })
  else
    let r := paxos_should_propose s delay
    (r.1, r.2, s)

/-- A reweighting that leaves the increment as it is. -/
def adjust_nothing (_m : OSDMap) (_w : StdMap Int Nat) (inc : Incremental) : Incremental := inc

/-- A default policy that waits: it says no and leaves the delay. -/
def policy_wait (_s : OSDMonitor) (delay : ℚ) : Bool × ℚ := (false, delay)

/-- The monitor `two_osd_monitor` with a full map in its pending increment. -/
def fullmap_monitor : OSDMonitor :=
  { two_osd_monitor with
    pending_inc := { Incremental.init 3 with fullmap := [two_osd_map] } }

/-! ### Catching up with the log -/

/-- The map after the next `n` increments of the log are applied to `osdmap`
in ascending order of epoch, as the specification words the loop of
`update_from_paxos`; `none` when an increment is missing or cannot be applied. -/
def apply_increments (apply_incremental : OSDMap → Incremental → Option OSDMap)
    (log : StdMap Nat (List Incremental)) : Nat → OSDMap → Option OSDMap
  | 0, osdmap => some osdmap
  | n + 1, osdmap =>
    match log.get? (osdmap.epoch + 1) with
    | some (inc :: _) =>
      match apply_incremental osdmap inc with
      | some next => apply_increments apply_incremental log n next
      | none => none
    | _ => none

/-- The monitor `later` is `earlier` but for what it has sent and for the
peers that wait for a map. -/
def sent_only (earlier later : OSDMonitor) : Prop :=
  { later with sent := earlier.sent, waiting_for_map := earlier.waiting_for_map } = earlier

/-- A map function that rejects an increment made for another epoch than the
next one of the map, and else moves the map on to the epoch and the
modification time of the increment. -/
def apply_next_epoch (m : OSDMap) (inc : Incremental) : Option OSDMap :=
  if inc.epoch = m.epoch + 1 then some { m with epoch := inc.epoch, modified := inc.modified }
  else none

/-- The monitor `two_osd_monitor_stored` with a log of version 4 that holds
the increments of the epochs 3 and 4, and with osd1, which is down, weighted
in. -/
def behind_monitor : OSDMonitor :=
  { two_osd_monitor_stored with
    osdmap := { two_osd_map with
      osds := [⟨true, true, 100, CEPH_OSD_IN, osd_info_t.zero⟩,
               ⟨true, false, 0, CEPH_OSD_IN, osd_info_t.zero⟩] }
    paxos := ⟨true, true, 4, (StdMap.single 3 [Incremental.init 3]).set 4 [Incremental.init 4],
      none⟩ }

/-! ### Admin commands: `reweight` and `pool create` -/

/-- The conversion `(int)x` of a floating-point value: the fraction is dropped
(rounding towards zero). When the result does not fit an `int` the conversion
is undefined, which is `none`. -/
def float_to_int (x : ℚ) : Option Int :=
  let t : Int := if 0 ≤ x then ⌊x⌋ else ⌈x⌉
  if -2147483648 ≤ t ∧ t ≤ 2147483647 then some t else none

/-- The branch `reweight` of `prepare_command`, taken for `osd reweight <id>
<w>`. `osd` is the `long` that `strtol` reads from the third word and `w` the
`float` that `strtof` reads from the fourth, as the rational number it stands
for; the product of a `float` with 0x10000 is exact. `reweight_text` is the
line written to the stream, in which the library prints the float. The result
is `none` where the conversion to `int` is undefined. -/
def OSDMonitor.prepare_command_reweight (reweight_text : Int → ℚ → Int → String)
    (s : OSDMonitor) (m : MMonCommand) (osd : Int) (w : ℚ) : Option (Bool × OSDMonitor) :=
  match float_to_int ((CEPH_OSD_IN : ℚ) * w) with
  | none => none
  | some ww =>
    if s.osdmap.osd_exists (i32 osd) then
      let s := { s with pending_inc := { s.pending_inc with
        new_weight := s.pending_inc.new_weight.set (i32 osd) (u32 ww) } }
      let rs := reweight_text osd w ww
      let s := s.wait_for_commit (Callback.C_Command m 0 rs)
      some (true, s)
    else
      some (false, s.send (Sent.command_reply m (-EINVAL) "" []))

/-- A way to write the line of `reweight` that leaves the float out. -/
def plain_reweight_text (osd : Int) (_w : ℚ) (ww : Int) : String :=
  "reweighted osd" ++ toString osd ++ " to (" ++ toString ww ++ ")"

/-- The command `osd reweight 0 0.00002288818359375`, from a client. -/
def reweight_command : MMonCommand :=
  { cmd := ["osd", "reweight", "0", "0.00002288818359375"], data := CommandData.nothing,
    orig_source_inst := ⟨⟨8, 0⟩, 7⟩ }

/-- The constant `CEPH_PG_TYPE_REP`. -/
def CEPH_PG_TYPE_REP : Nat := 1

/-- The call `getline(ss, rs)`: the text of the stream up to its first line
break. -/
def getline (ss : String) : String := ⟨ss.data.takeWhile (fun c => c != '\n')⟩

/-- The loop of `pool create` over `osdmap.pool_name`, with `pool` the id so
far: `none` when an entry has the name (`goto out`), else the id after the
loop. The sum `i->first + 1` is left as it is; it overflows an `int` only for
an id of 2^31 - 1. -/
def pool_create_id (name : String) : List (Int × String) → Int → Option Int
  | [], pool => some pool
  | i :: rest, pool =>
    if i.2 = name then none
    else pool_create_id name rest (if i.1 ≥ pool then i.1 + 1 else pool)

/-- The branch `pool create` of `prepare_command`, taken for `osd pool create
<name>`; `name` is the fourth word. Every `pending_inc.new_pools[pool]` is
`operator[]`: the first gives the pending increment an entry for the id when it
has none. -/
def OSDMonitor.prepare_command_pool_create (s : OSDMonitor) (m : MMonCommand) (name : String) :
    Bool × OSDMonitor :=
  match pool_create_id name s.osdmap.pool_name.entries 1 with
  | none =>
    let rs := getline ("pool '" ++ name ++ "' exists")
    (false, s.send (Sent.command_reply m (-EEXIST) rs []))
  | some pool =>
    let p := s.pending_inc.new_pools.subscript pool pg_pool_t.init
    let p := { p with
      type := CEPH_PG_TYPE_REP, size := 2, crush_ruleset := 0, pg_num := 8, pgp_num := 8,
      lpg_num := 0, lpgp_num := 0, last_change := s.pending_inc.epoch }
    let s := { s with pending_inc := { s.pending_inc with
      new_pools := s.pending_inc.new_pools.set pool p
      new_pool_names := s.pending_inc.new_pool_names.set pool name } }
    let rs := getline ("pool '" ++ name ++ "' created")
    let s := s.wait_for_commit (Callback.C_Command m 0 rs)
    (true, s)

/-- The id that `pool create` gives, as the specification words it: one more
than the greatest of the ids in `ids` and 0. -/
def next_pool_id (ids : List Int) : Int := ids.foldl max 0 + 1

/-- A leader whose committed map has the pools 1 (data) and 3 (rbd) and whose
pending increment has epoch 3. -/
def named_pool_monitor : OSDMonitor :=
  { two_osd_monitor with
    osdmap := { two_osd_map with
      pools := (StdMap.single 1 pg_pool_t.init).set 3 pg_pool_t.init
      pool_name := (StdMap.single 1 "data").set 3 "rbd" }
    pending_inc := Incremental.init 3 }

/-- The command `osd pool create <name>`, from a client. -/
def pool_create_command (name : String) : MMonCommand :=
  { cmd := ["osd", "pool", "create", name], data := CommandData.nothing,
    orig_source_inst := ⟨⟨8, 0⟩, 7⟩ }

/-! ### Liveness pings -/

/-- Modelled from the spec: `get_up_thru(osd)`. -/
def OSDMap.get_up_thru (m : OSDMap) (osd : Int) : epoch_t := (m.get_info osd).up_thru

/-- The function `_alive`. -/
def OSDMonitor._alive (s : OSDMonitor) (m : MOSDAlive) : Run OSDMonitor :=
  s.send_latest m.orig_source_inst m.map_epoch

/-- The function `preprocess_alive`; a failed `assert` in `send_latest` aborts
the run. -/
def OSDMonitor.preprocess_alive (s : OSDMonitor) (m : MOSDAlive) : Run (Bool × OSDMonitor) :=
  let from_osd := m.orig_source_inst.name.num
  if s.osdmap.is_up from_osd &&
      s.osdmap.get_inst from_osd == m.orig_source_inst &&
      decide (s.osdmap.get_up_thru from_osd ≥ m.map_epoch) then
    -- yup.
    (s._alive m).andThen (fun s => Run.done (true, s))
  else Run.done (false, s)

/-- The function `prepare_alive`. -/
def OSDMonitor.prepare_alive (s : OSDMonitor) (m : MOSDAlive) : Bool × OSDMonitor :=
  let from_osd := m.orig_source_inst.name.num
  let s := { s with pending_inc := { s.pending_inc with
    new_up_thru := s.pending_inc.new_up_thru.set from_osd m.map_epoch } }
  let s := s.wait_for_commit (Callback.C_Alive m)
  (true, s)

/-- The ping of an OSD with the id 7, which `two_osd_map` does not have, sent
at epoch 2 from the address 107. -/
def alive_of_osd7 : MOSDAlive :=
  { map_epoch := 2, orig_source_inst := ⟨entity_name_t.OSD 7, 107⟩ }

/-! ### Admin commands: the other branches -/

/-- The value of `EAGAIN` in `errno.h`. -/
def EAGAIN : Int := 11

/-- Modelled from the spec: `lookup_pg_pool_name(name)`, the id of the first
pool of `pool_name` that has the name, a negative number when no pool has it. -/
def OSDMap.lookup_pg_pool_name (m : OSDMap) (name : String) : Int :=
  match m.pool_name.entries.find? (fun e => decide (e.2 = name)) with
  | some e => e.1
  | none => -ENOENT

/-- Modelled from the spec: `get_pg_num()`. -/
def pg_pool_t.get_pg_num (p : pg_pool_t) : Int := p.pg_num

/-- Modelled from the spec: `get_pgp_num()`. -/
def pg_pool_t.get_pgp_num (p : pg_pool_t) : Int := p.pgp_num

/-- The functions of the C library and of the encoding that `prepare_command`
calls: `strtol(s, 0, 10)` (a `long`), `atoi(s)` (an `int`), `strtof(s, 0)` (a
`float`, as the rational number it stands for), the line that `reweight`
writes, in which the library prints the float, and the bytes of an encoded
map. -/
structure CommandLib where
  strtol : String → Int
  atoi : String → Int
  strtof : String → ℚ
  reweight_text : Int → ℚ → Int → String
  encode_map : OSDMap → List Nat

/-- The label `out` of `prepare_command`: the reply with `err` and the first
line of the stream, and the return value false. -/
def OSDMonitor.prepare_command_out (s : OSDMonitor) (m : MMonCommand) (err : Int) (ss : String) :
    Bool × OSDMonitor :=
  let rs := getline ss
  (false, s.send (Sent.command_reply m err rs []))

/-- The branch `setcrushmap` of `prepare_command`; the bytes of the payload
become `pending_inc.crush`. -/
def OSDMonitor.prepare_command_setcrushmap (lib : CommandLib) (s : OSDMonitor)
    (m : MMonCommand) : Bool × OSDMonitor :=
  let data : List Nat :=
    match m.data with
    | CommandData.nothing => []
    | CommandData.crush blob => blob
    | CommandData.osdmap map => lib.encode_map map
  let s := { s with pending_inc := { s.pending_inc with crush := data } }
  let rs := "set crush map"
  (true, s.wait_for_commit (Callback.C_Command m 0 rs))

/-- The branch `setmap` of `prepare_command`, taken for `osd setmap <e>`; `w2`
is the third word. The result is `none` when the payload is no encoded map,
which `decode` does not return from. -/
def OSDMonitor.prepare_command_setmap (lib : CommandLib) (s : OSDMonitor) (m : MMonCommand)
    (w2 : String) : Option (Bool × OSDMonitor) :=
  match m.data with
  | CommandData.osdmap map =>
    let e : epoch_t := u32 (lib.atoi (c_str w2))
    if map.fsid = s.fsid then
      if s.pending_inc.epoch = e then
        -- make sure epoch is correct
        let map := { map with epoch := s.pending_inc.epoch }
        let s := { s with pending_inc := { s.pending_inc with
          fullmap := s.pending_inc.fullmap ++ [map] } }
        let rs := "set osd map"
        some (true, s.wait_for_commit (Callback.C_Command m 0 rs))
      else
        some (s.prepare_command_out m (-EINVAL)
          ("next osdmap epoch " ++ toString s.pending_inc.epoch ++ " != " ++ toString e))
    else
      some (s.prepare_command_out m (-EINVAL)
        ("osdmap fsid " ++ toString map.fsid ++ " does not match monitor fsid "
          ++ toString s.fsid))
  | _ => none

/-- The branch `setmaxosd` of `prepare_command`; `w2` is the third word. -/
def OSDMonitor.prepare_command_setmaxosd (lib : CommandLib) (s : OSDMonitor) (m : MMonCommand)
    (w2 : String) : Bool × OSDMonitor :=
  let s := { s with pending_inc := { s.pending_inc with
    new_max_osd := i32 (lib.atoi (c_str w2)) } }
  let rs := getline ("set new max_osd = " ++ toString s.pending_inc.new_max_osd)
  (true, s.wait_for_commit (Callback.C_Command m 0 rs))

/-- The branch `out` of `prepare_command`, taken for `osd out <id>`; `osd` is
the `long` that `strtol` reads from the third word. -/
def OSDMonitor.prepare_command_mark_out (s : OSDMonitor) (m : MMonCommand) (osd : Int) :
    Bool × OSDMonitor :=
  if !s.osdmap.osd_exists (i32 osd) then
    s.prepare_command_out m (-EINVAL) ("osd" ++ toString osd ++ " does not exist")
  else if s.osdmap.is_out (i32 osd) then
    s.prepare_command_out m (-EINVAL) ("osd" ++ toString osd ++ " is already out")
  else
    let s := { s with pending_inc := { s.pending_inc with
      new_weight := s.pending_inc.new_weight.set (i32 osd) CEPH_OSD_OUT } }
    let rs := getline ("marked out osd" ++ toString osd)
    (true, s.wait_for_commit (Callback.C_Command m 0 rs))

/-- The branch `in` of `prepare_command`, taken for `osd in <id>`; `osd` is the
`long` that `strtol` reads from the third word. -/
def OSDMonitor.prepare_command_mark_in (s : OSDMonitor) (m : MMonCommand) (osd : Int) :
    Bool × OSDMonitor :=
  if s.osdmap.is_in (i32 osd) then
    s.prepare_command_out m (-EINVAL) ("osd" ++ toString osd ++ " is already in")
  else if !s.osdmap.osd_exists (i32 osd) then
    s.prepare_command_out m (-EINVAL) ("osd" ++ toString osd ++ " does not exist")
  else
    let s := { s with pending_inc := { s.pending_inc with
      new_weight := s.pending_inc.new_weight.set (i32 osd) CEPH_OSD_IN } }
    let rs := getline ("marked in osd" ++ toString osd)
    (true, s.wait_for_commit (Callback.C_Command m 0 rs))

/-- The branch `lost` of `prepare_command`, taken for `osd lost <id> ...`;
`osd` is the `long` that `strtol` reads from the third word. The fourth word
is read only when there are four words. -/
def OSDMonitor.prepare_command_lost (s : OSDMonitor) (m : MMonCommand) (osd : Int) :
    Bool × OSDMonitor :=
  if m.cmd.length < 4 ∨ m.cmd.get? 3 ≠ some "--yes-i-really-mean-it" then
    s.prepare_command_out m (-EINVAL)
      ("are you SURE?  this might mean real, permanent data loss.  pass "
        ++ "--yes-i-really-mean-it if you really do.")
  else if !s.osdmap.osd_exists (i32 osd) || !s.osdmap.is_down (i32 osd) then
    s.prepare_command_out m (-EINVAL)
      ("osd" ++ toString osd ++ " is not down or doesn't exist")
  else
    let e := (s.osdmap.get_info (i32 osd)).down_at
    let s := { s with pending_inc := { s.pending_inc with
      new_lost := s.pending_inc.new_lost.set (i32 osd) e } }
    let rs := getline ("marked osd lost in epoch " ++ toString e)
    (true, s.wait_for_commit (Callback.C_Command m 0 rs))

/-- The branch `pool mksnap` of `prepare_command`, taken for `osd pool mksnap
<name> <snapname>` (five words or more); `now` is the reading of the clock. The
pointer `pp` is `none` while the pending increment has no copy of the pool. -/
def OSDMonitor.prepare_command_pool_mksnap (now : utime_t) (s : OSDMonitor) (m : MMonCommand)
    (name snapname : String) : Bool × OSDMonitor :=
  let pool := s.osdmap.lookup_pg_pool_name (c_str name)
  if pool < 0 then
    s.prepare_command_out m (-ENOENT) ("unrecognized pool '" ++ name ++ "'")
  else
    let p := s.osdmap.get_pg_pool pool
    let pp : Option pg_pool_t :=
      if s.pending_inc.new_pools.count pool ≠ 0 then
        some (s.pending_inc.new_pools.subscript pool pg_pool_t.init)
      else none
    if decide (p.snap_exists (c_str snapname) ≠ 0) ||
        (match pp with
         | some pp => decide (pp.snap_exists (c_str snapname) ≠ 0)
         | none => false) then
      s.prepare_command_out m (-EEXIST)
        ("pool " ++ name ++ " snap " ++ snapname ++ " already exists")
    else
      let pp := (pp.getD p).add_snap (c_str snapname) now
      let pp := pp.set_snap_epoch s.pending_inc.epoch
      let s := { s with pending_inc := { s.pending_inc with
        new_pools := s.pending_inc.new_pools.set pool pp } }
      let rs := getline ("created pool " ++ name ++ " snap " ++ snapname)
      (true, s.wait_for_commit (Callback.C_Command m 0 rs))

/-- The branch `pool rmsnap` of `prepare_command`, taken for `osd pool rmsnap
<name> <snapname>` (five words or more). -/
def OSDMonitor.prepare_command_pool_rmsnap (s : OSDMonitor) (m : MMonCommand)
    (name snapname : String) : Bool × OSDMonitor :=
  let pool := s.osdmap.lookup_pg_pool_name (c_str name)
  if pool < 0 then
    s.prepare_command_out m (-ENOENT) ("unrecognized pool '" ++ name ++ "'")
  else
    let p := s.osdmap.get_pg_pool pool
    let pp : Option pg_pool_t :=
      if s.pending_inc.new_pools.count pool ≠ 0 then
        some (s.pending_inc.new_pools.subscript pool pg_pool_t.init)
      else none
    if decide (p.snap_exists (c_str snapname) = 0) &&
        (match pp with
         | some pp => decide (pp.snap_exists (c_str snapname) = 0)
         | none => true) then
      s.prepare_command_out m (-ENOENT)
        ("pool " ++ name ++ " snap " ++ snapname ++ " does not exists")
    else
      let pp := pp.getD p
      let sn := pp.snap_exists (c_str snapname)
      let pp := pp.remove_snap sn
      let pp := pp.set_snap_epoch s.pending_inc.epoch
      let s := { s with pending_inc := { s.pending_inc with
        new_pools := s.pending_inc.new_pools.set pool pp } }
      let rs := getline ("removed pool " ++ name ++ " snap " ++ snapname)
      (true, s.wait_for_commit (Callback.C_Command m 0 rs))

/-- The committed map after `osdmap.pools[pool]` was evaluated: `operator[]`
of a `std::map` gives the map an entry for the id when it has none. -/
def OSDMap.touch_pool (m : OSDMap) (pool : Int) : OSDMap :=
  if m.pools.count pool = 0 then { m with pools := m.pools.set pool pg_pool_t.init } else m

/-- The branch `pool set` of `prepare_command`, taken for `osd pool set ...`
with three words or more. The words `m->cmd[3]`, `m->cmd[5]` and `m->cmd[4]`
are read in this order, without a test of `m->cmd.size()`; a word read beyond
the end of `cmd` is outside the defined behaviour of the code, which is `none`.
`n` is the `int` that `atoi` reads; the fields of the pool take it as an
unsigned 32-bit value. -/
def OSDMonitor.prepare_command_pool_set (lib : CommandLib) (s : OSDMonitor) (m : MMonCommand) :
    Option (Bool × OSDMonitor) :=
  match m.cmd.get? 3 with
  | none => none
  | some name =>
    let pool := s.osdmap.lookup_pg_pool_name (c_str name)
    if pool < 0 then
      some (s.prepare_command_out m (-ENOENT) ("unrecognized pool '" ++ name ++ "'"))
    else
      let p := s.osdmap.get_pg_pool pool
      match m.cmd.get? 5 with
      | none => none
      | some w5 =>
        let n := i32 (lib.atoi (c_str w5))
        if n ≠ 0 then
          match m.cmd.get? 4 with
          | none => none
          | some field =>
            if field = "size" then
              let pp := { p with size := u32 n }
              let s := { s with pending_inc := { s.pending_inc with
                new_pools := s.pending_inc.new_pools.set pool pp } }
              let rs := getline ("set pool " ++ toString pool ++ " size to " ++ toString n)
              some (true, s.wait_for_commit (Callback.C_Command m 0 rs))
            else if field = "pg_num" then
              if n ≤ p.get_pg_num then
                some (s.prepare_command_out m (-EINVAL)
                  ("specified pg_num " ++ toString n ++ " <= current "
                    ++ toString p.get_pg_num))
              else if s.creating_pgs then
                some (s.prepare_command_out m (-EAGAIN) "currently creating pgs, wait")
              else
                let osdmap := s.osdmap.touch_pool pool
                let pp := osdmap.pools.subscript pool pg_pool_t.init
                let pp := { pp with pg_num := u32 n }
                let s := { s with
                  osdmap := osdmap
                  pending_inc := { s.pending_inc with
                    new_pools := s.pending_inc.new_pools.set pool pp } }
                let rs := getline ("set pool " ++ toString pool ++ " pg_num to " ++ toString n)
                some (true, s.wait_for_commit (Callback.C_Command m 0 rs))
            else if field = "pgp_num" then
              if n ≤ p.get_pgp_num then
                some (s.prepare_command_out m (-EINVAL)
                  ("specified pgp_num " ++ toString n ++ " <= current "
                    ++ toString p.get_pgp_num))
              else if n > p.get_pg_num then
                some (s.prepare_command_out m (-EINVAL)
                  ("specified pgp_num " ++ toString n ++ " > pg_num "
                    ++ toString p.get_pg_num))
              else if s.creating_pgs then
                some (s.prepare_command_out m (-EAGAIN) "still creating pgs, wait")
              else
                let osdmap := s.osdmap.touch_pool pool
                let pp := osdmap.pools.subscript pool pg_pool_t.init
                let pp := { pp with pgp_num := u32 n }
                let s := { s with
                  osdmap := osdmap
                  pending_inc := { s.pending_inc with
                    new_pools := s.pending_inc.new_pools.set pool pp } }
                let rs := getline ("set pool " ++ toString pool ++ " pgp_num to " ++ toString n)
                some (true, s.wait_for_commit (Callback.C_Command m 0 rs))
            else
              some (s.prepare_command_out m (-EINVAL) ("unrecognized pool field " ++ field))
        else some (s.prepare_command_out m (-EINVAL) "")

/-- The function `prepare_command`. Every `m->cmd[i]` is a read of the vector
of words: where the code reads a word without a test of `m->cmd.size()` that
covers it, the result is `none` for a list that is too short. `now` is the
reading of the clock. -/
def OSDMonitor.prepare_command (lib : CommandLib) (now : utime_t) (s : OSDMonitor)
    (m : MMonCommand) : Option (Bool × OSDMonitor) :=
  if m.cmd.length > 1 then
    match m.cmd.get? 1 with
    | none => none
    | some w1 =>
      if w1 = "setcrushmap" then some (s.prepare_command_setcrushmap lib m)
      else if w1 = "setmap" ∧ m.cmd.length = 3 then
        match m.cmd.get? 2 with
        | none => none
        | some w2 => s.prepare_command_setmap lib m w2
      else if w1 = "setmaxosd" ∧ m.cmd.length > 2 then
        match m.cmd.get? 2 with
        | none => none
        | some w2 => some (s.prepare_command_setmaxosd lib m w2)
      else if w1 = "down" ∧ m.cmd.length = 3 then
        match m.cmd.get? 2 with
        | none => none
        | some w2 => some (s.prepare_command_down m (lib.strtol (c_str w2)))
      else if w1 = "out" ∧ m.cmd.length = 3 then
        match m.cmd.get? 2 with
        | none => none
        | some w2 => some (s.prepare_command_mark_out m (lib.strtol (c_str w2)))
      else if w1 = "in" ∧ m.cmd.length = 3 then
        match m.cmd.get? 2 with
        | none => none
        | some w2 => some (s.prepare_command_mark_in m (lib.strtol (c_str w2)))
      else if w1 = "reweight" ∧ m.cmd.length = 4 then
        match m.cmd.get? 2, m.cmd.get? 3 with
        | some w2, some w3 =>
          s.prepare_command_reweight lib.reweight_text m (lib.strtol (c_str w2))
            (lib.strtof (c_str w3))
        | _, _ => none
      else if w1 = "lost" ∧ m.cmd.length ≥ 3 then
        match m.cmd.get? 2 with
        | none => none
        | some w2 => some (s.prepare_command_lost m (lib.strtol (c_str w2)))
      else if w1 = "pool" ∧ m.cmd.length ≥ 3 then
        match m.cmd.get? 2 with
        | none => none
        | some w2 =>
          if m.cmd.length ≥ 5 ∧ w2 = "mksnap" then
            match m.cmd.get? 3, m.cmd.get? 4 with
            | some name, some snapname =>
              some (s.prepare_command_pool_mksnap now m name snapname)
            | _, _ => none
          else if m.cmd.length ≥ 5 ∧ w2 = "rmsnap" then
            match m.cmd.get? 3, m.cmd.get? 4 with
            | some name, some snapname =>
              some (s.prepare_command_pool_rmsnap m name snapname)
            | _, _ => none
          else if w2 = "create" ∧ m.cmd.length ≥ 4 then
            match m.cmd.get? 3 with
            | none => none
            | some name => some (s.prepare_command_pool_create m name)
          else if w2 = "set" then s.prepare_command_pool_set lib m
          else some (s.prepare_command_out m (-EINVAL) "")
      else some (s.prepare_command_out m (-EINVAL) ("unknown command " ++ w1))
  else some (s.prepare_command_out m (-EINVAL) "no command?")

/-- A library whose `atoi` and `strtol` read the number `k` from every word
and whose `strtof` reads 1. -/
def lib_reading (k : Int) : CommandLib :=
  { strtol := fun _ => k, atoi := fun _ => k, strtof := fun _ => 1,
    reweight_text := plain_reweight_text, encode_map := fun _ => [] }

/-- A pool of 8 placement groups with the snapshot x. -/
def data_pool : pg_pool_t :=
  { pool_with_snap_x with type := CEPH_PG_TYPE_REP, size := 2, pg_num := 8, pgp_num := 8 }

/-- A leader whose committed map has pool 1, named data, which is `data_pool`,
and whose pending increment (epoch 3) is empty. -/
def data_pool_monitor : OSDMonitor :=
  { two_osd_monitor with
    osdmap := { two_osd_map with
      pools := StdMap.single 1 data_pool
      pool_name := StdMap.single 1 "data" }
    pending_inc := Incremental.init 3 }

/-- The command `osd pool set data <field> <n>`, from a client. -/
def pool_set_command (field n : String) : MMonCommand :=
  { cmd := ["osd", "pool", "set", "data", field, n], data := CommandData.nothing,
    orig_source_inst := ⟨⟨8, 0⟩, 7⟩ }

/-- The command with the words `words`, from a client. -/
def command_of (words : List String) : MMonCommand :=
  { cmd := words, data := CommandData.nothing, orig_source_inst := ⟨⟨8, 0⟩, 7⟩ }

/-- The message that removes the snap 3 of the pools 1 and 7. -/
def remove_of_pools_1_and_7 : MRemoveSnaps := ⟨(StdMap.single 1 [3]).set 7 [3]⟩

/-- The monitor `data_pool_monitor` while placement groups are being created. -/
def creating_monitor : OSDMonitor := { data_pool_monitor with creating_pgs := true }

/-- The result `r` of a command is a rejection: false is returned and the
monitor is as before but for the reply that was sent. -/
def command_rejected (s : OSDMonitor) (m : MMonCommand) (r : Bool × OSDMonitor) : Prop :=
  ∃ rc rs, r = (false, s.send (Sent.command_reply m rc rs []))

/-- The message that removes the snap 3 of the pools 1 and 2. -/
def remove_of_pools_1_and_2 : MRemoveSnaps := ⟨(StdMap.single 1 [3]).set 2 [3]⟩

/-- The monitor `data_pool_monitor` after `prepare_remove_snaps` of
`remove_of_pools_1_and_2`: the committed map has the pool 1, named data, and
the pool 2, which has no name. -/
def unnamed_pool_monitor : OSDMonitor :=
  (data_pool_monitor.prepare_remove_snaps remove_of_pools_1_and_2).2

/-! ## Theorems -/

theorem string_empty_append (s : String) : "" ++ s = s := by
  apply String.ext; simp

theorem append_cstr_eq (dest : String) (p : Option String) :
    append_cstr dest p = dest ++ cstr_text p := by
  cases p <;> simp [append_cstr, cstr_text]

theorem canonical_header_layout (method content_md5 content_type date : Option String)
    (meta_map : StdMap String String) (request_uri : Option String)
    (sub_resources : StdMap String String) :
    rgw_create_s3_canonical_header method content_md5 content_type date meta_map
        request_uri sub_resources
      = cstr_text method ++ "\n" ++ cstr_text content_md5 ++ "\n"
          ++ cstr_text content_type ++ "\n" ++ cstr_text date ++ "\n"
          ++ get_canon_amz_hdr meta_map ++ get_canon_resource request_uri sub_resources := by
  simp only [rgw_create_s3_canonical_header, append_cstr_eq]
  cases method <;> simp [cstr_text, string_empty_append]

/-- C1. The canonical header is the method, the Content-MD5, the Content-Type
and the date, each followed by a line break and each empty when absent, then
the canonical amz headers and the canonical resource; at the request of the
reference example it is the documented string. -/
theorem C1_canonical_header_layout :
    (∀ (method content_md5 content_type date : Option String)
        (meta_map : StdMap String String) (request_uri : Option String)
        (sub_resources : StdMap String String),
      rgw_create_s3_canonical_header method content_md5 content_type date meta_map
          request_uri sub_resources
        = cstr_text method ++ "\n" ++ cstr_text content_md5 ++ "\n"
            ++ cstr_text content_type ++ "\n" ++ cstr_text date ++ "\n"
            ++ get_canon_amz_hdr meta_map ++ get_canon_resource request_uri sub_resources)
    ∧ rgw_create_s3_canonical_header (some "GET") none none
          (some "Tue, 27 Mar 2007 19:36:42 +0000") StdMap.empty (some "/bucket/key")
          StdMap.empty
        = "GET\n\n\nTue, 27 Mar 2007 19:36:42 +0000\n/bucket/key" := by
  refine ⟨?_, by decide⟩
  intro method content_md5 content_type date meta_map request_uri sub_resources
  exact canonical_header_layout method content_md5 content_type date meta_map request_uri
    sub_resources

theorem StdMap.find_key {K V : Type} [LinearOrder K] [DecidableEq K] (m : StdMap K V) (k : K) (kv : K × V)
    (h : m.find k = some kv) : kv.1 = k := by
  have := List.find?_some h
  simpa using this

/-- The separator a sub-resource gets: `?` while `initial` holds. -/
theorem canon_resource_foldl (m : StdMap String String) (names : List String) :
    ∀ (dest : String) (initial : Bool),
      (names.foldl (canon_resource_step m) (dest, initial)).1
        = match names.filterMap
              (fun name => (m.find name).map (fun kv => subresource_text name kv.2)) with
          | [] => dest
          | first :: later =>
            dest ++ (if initial then "?" else "&") ++ first ++ amp_joined later := by
  induction names with
  | nil => intro dest initial; rfl
  | cons n ns ih =>
    intro dest initial
    rw [List.foldl_cons]
    cases hf : m.find n with
    | none =>
      have hstep : canon_resource_step m (dest, initial) n = (dest, initial) := by
        simp [canon_resource_step, hf]
      rw [hstep, ih]
      simp [List.filterMap_cons, hf]
    | some kv =>
      have hk : kv.1 = n := m.find_key n kv hf
      have hstep : canon_resource_step m (dest, initial) n
          = (dest ++ (if initial then "?" else "&") ++ subresource_text n kv.2, false) := by
        simp only [canon_resource_step, hf, subresource_text, hk]
        by_cases hv : kv.2 = "" <;> cases initial <;> simp [hv, String.append_assoc]
      rw [hstep, ih]
      simp only [List.filterMap_cons, hf, Option.map_some']
      cases ns.filterMap
          (fun name => (m.find name).map (fun kv => subresource_text name kv.2)) with
      | nil => simp [amp_joined]
      | cons a rest => simp [amp_joined, String.append_assoc]

theorem get_canon_resource_eq_spec (request_uri : Option String) (m : StdMap String String) :
    get_canon_resource request_uri m = canon_resource_spec (cstr_text request_uri) m := by
  unfold get_canon_resource canon_resource_spec emitted_subresources
  rw [canon_resource_foldl, append_cstr_eq, string_empty_append]
  rfl

/-- C2. The canonical resource is the URI followed by the whitelisted names
that are keys of the map, in whitelist order, `?` before the first and `&`
before each later one, each with `=value` only for a non-empty value; maps
that agree on the whitelisted names give the same text, and with no
whitelisted key the text is the URI. -/
theorem C2_canon_resource_whitelist_order :
    (∀ (request_uri : Option String) (m : StdMap String String),
      get_canon_resource request_uri m = canon_resource_spec (cstr_text request_uri) m)
    ∧ (∀ (request_uri : Option String) (m m2 : StdMap String String),
        (∀ name ∈ signed_subresources, m2.find name = m.find name) →
        get_canon_resource request_uri m2 = get_canon_resource request_uri m)
    ∧ (∀ (uri : String) (m : StdMap String String),
        (∀ name ∈ signed_subresources, m.find name = none) →
        get_canon_resource (some uri) m = uri)
    ∧ get_canon_resource (some "/b") uploads_map = "/b?uploads&start-date=1" := by
  refine ⟨get_canon_resource_eq_spec, ?_, ?_, by decide⟩
  · intro request_uri m m2 h
    rw [get_canon_resource_eq_spec, get_canon_resource_eq_spec]
    unfold canon_resource_spec emitted_subresources
    have : signed_subresources.filterMap
          (fun name => (m2.find name).map (fun kv => subresource_text name kv.2))
        = signed_subresources.filterMap
          (fun name => (m.find name).map (fun kv => subresource_text name kv.2)) := by
      apply List.filterMap_congr
      intro name hn
      rw [h name hn]
    rw [this]
  · intro uri m h
    rw [get_canon_resource_eq_spec]
    unfold canon_resource_spec emitted_subresources
    have : signed_subresources.filterMap
          (fun name => (m.find name).map (fun kv => subresource_text name kv.2)) = [] := by
      rw [List.filterMap_eq_nil_iff]
      intro name hn
      simp [h name hn]
    rw [this]
    rfl

theorem canon_amz_hdr_foldl (entries : List (String × String)) :
    ∀ dest : String,
      entries.foldl canon_amz_hdr_step dest = dest ++ concat_all (entries.map amz_hdr_line) := by
  induction entries with
  | nil => intro dest; simp [concat_all]
  | cons kv rest ih =>
    intro dest
    rw [List.foldl_cons, ih]
    simp [canon_amz_hdr_step, amz_hdr_line, concat_all, String.append_assoc]

theorem get_canon_amz_hdr_eq (m : StdMap String String) :
    get_canon_amz_hdr m = concat_all (m.entries.map amz_hdr_line) := by
  unfold get_canon_amz_hdr
  rw [canon_amz_hdr_foldl, string_empty_append]

theorem StdMap.keys_nodup {K V : Type} [LinearOrder K] (m : StdMap K V) :
    (m.entries.map Prod.fst).Nodup := by
  rw [List.Nodup, List.pairwise_map]
  exact m.sorted.imp (fun h => ne_of_lt h)

/-- C3 as stated fails: for the map holding `X-Amz-B` and `x-amz-a` the text
lists `X-Amz-B` first, which no ordering by lower-cased name allows. -/
theorem C3_lower_cased_order_counterexample :
    ¬ amz_hdr_sorted_by_lower_cased_name mixed_case_map := by
  rintro ⟨lines, hperm, hsorted, hout⟩
  have hlen : lines.length = 2 := by simpa [mixed_case_map] using hperm.length_eq
  obtain ⟨a, b, rfl⟩ := List.length_eq_two.mp hlen
  have ha : a ∈ mixed_case_map.entries := hperm.subset (by simp)
  have hb : b ∈ mixed_case_map.entries := hperm.subset (by simp)
  have hnd : [a, b].Nodup := hperm.nodup_iff.mpr (by simp [mixed_case_map])
  have hab : a ≠ b := by simpa using hnd
  simp only [mixed_case_map, List.mem_cons, List.mem_singleton, List.not_mem_nil,
    or_false] at ha hb
  rcases ha with rfl | rfl <;> rcases hb with rfl | rfl
  · exact hab rfl
  · have h := (List.pairwise_cons.mp hsorted).1 _ (List.mem_singleton_self _)
    rw [String.le_iff_toList_le] at h
    revert h
    decide
  · revert hout
    decide
  · exact hab rfl

/-- C3, amended. The text is one line `name:value\n` per entry of the map, each
name once, in the ascending byte order of the stored names; when every stored
name is lower-case that is the order of the lower-cased names, and the claim
holds as the specification words it. -/
theorem C3_canon_amz_hdr_key_order (meta_map : StdMap String String) :
    get_canon_amz_hdr meta_map = concat_all (meta_map.entries.map amz_hdr_line)
    ∧ (meta_map.entries.map Prod.fst).Nodup
    ∧ meta_map.entries.Pairwise (fun a b => a.1 < b.1)
    ∧ ((∀ kv ∈ meta_map.entries, lower_cased kv.1 = kv.1) →
        meta_map.entries.Pairwise (fun a b => lower_cased a.1 < lower_cased b.1)
        ∧ amz_hdr_sorted_by_lower_cased_name meta_map) := by
  refine ⟨get_canon_amz_hdr_eq meta_map, meta_map.keys_nodup, meta_map.sorted, ?_⟩
  intro hlow
  have hlt : meta_map.entries.Pairwise (fun a b => lower_cased a.1 < lower_cased b.1) := by
    refine meta_map.sorted.imp_of_mem ?_
    intro a b ha hb hab
    rw [hlow a ha, hlow b hb]
    exact hab
  exact ⟨hlt, meta_map.entries, List.Perm.refl _, hlt.imp (fun h => le_of_lt h),
    get_canon_amz_hdr_eq meta_map⟩

/-- C3, amended, at a map of two lower-case names. -/
theorem C3_canon_amz_hdr_key_order_witness :
    get_canon_amz_hdr lower_case_map = "x-amz-acl:private\nx-amz-date:d\n"
    ∧ lower_case_map.entries.Pairwise (fun a b => lower_cased a.1 < lower_cased b.1) :=
  ⟨by decide,
   ((C3_canon_amz_hdr_key_order lower_case_map).2.2.2 (by decide)).1⟩

theorem armor_groups_length (l : List Nat) :
    (armor_groups l).length = 4 * ((l.length + 2) / 3) := by
  induction l using armor_groups.induct with
  | case1 => simp [armor_groups]
  | case2 a => simp [armor_groups]
  | case3 a b => simp [armor_groups]
  | case4 a b c rest ih =>
    simp only [armor_groups, List.length_append, List.length_cons, List.length_nil, ih]
    omega

theorem encode_bits_ne_nul (n : Nat) : encode_bits n ≠ Char.ofNat 0 := by
  unfold encode_bits
  by_cases h : n < base64_table.length
  · rw [List.getD_eq_getElem _ _ h]
    have hall : ∀ c ∈ base64_table, c ≠ Char.ofNat 0 := by decide
    exact hall _ (List.getElem_mem h)
  · rw [List.getD_eq_default _ _ (Nat.le_of_not_lt h)]
    decide

theorem armor_groups_no_nul (l : List Nat) :
    ∀ c ∈ armor_groups l, c ≠ Char.ofNat 0 := by
  have hpad : ('=' : Char) ≠ Char.ofNat 0 := by decide
  induction l using armor_groups.induct with
  | case1 => simp [armor_groups]
  | case2 a =>
    intro c hc
    simp only [armor_groups, List.mem_cons, List.mem_singleton, List.not_mem_nil,
      or_false] at hc
    rcases hc with rfl | rfl | rfl | rfl <;> first | exact encode_bits_ne_nul _ | exact hpad
  | case3 a b =>
    intro c hc
    simp only [armor_groups, List.mem_cons, List.mem_singleton, List.not_mem_nil,
      or_false] at hc
    rcases hc with rfl | rfl | rfl | rfl <;> first | exact encode_bits_ne_nul _ | exact hpad
  | case4 a b c rest ih =>
    intro x hx
    simp only [armor_groups, List.mem_append, List.mem_cons, List.mem_singleton,
      List.not_mem_nil, or_false] at hx
    rcases hx with (rfl | rfl | rfl | rfl) | hx
    · exact encode_bits_ne_nul _
    · exact encode_bits_ne_nul _
    · exact encode_bits_ne_nul _
    · exact encode_bits_ne_nul _
    · exact ih x hx

theorem c_str_terminated (text : List Char) (h : ∀ c ∈ text, c ≠ Char.ofNat 0) :
    c_str (String.mk (text ++ [Char.ofNat 0])) = String.mk text := by
  unfold c_str
  congr 1
  induction text with
  | nil => simp
  | cons a rest ih =>
    have ha : a ≠ Char.ofNat 0 := h a (List.mem_cons_self _ _)
    have := ih (fun c hc => h c (List.mem_cons_of_mem _ hc))
    simp only [List.cons_append, List.takeWhile_cons]
    simp [ha]
    simpa using this

/-- C4. The digest function returns -EINVAL and leaves `dest` alone exactly
when the key is empty; for a non-empty key it returns 0 and `dest` becomes the
base64 text of the HMAC-SHA1 of the canonical string under the key. That text
has 28 characters, so the armor call succeeds and the terminator lands inside
the buffer of 64. -/
theorem C4_header_digest
    (calc_hmac_sha1 : List Nat → List Nat → Digest CEPH_CRYPTO_HMACSHA1_DIGESTSIZE)
    (auth_hdr key dest : String) :
    (key = "" → rgw_get_s3_header_digest calc_hmac_sha1 auth_hdr key dest
        = some (-EINVAL, dest))
    ∧ (key ≠ "" → rgw_get_s3_header_digest calc_hmac_sha1 auth_hdr key dest
        = some (0, base64_text (calc_hmac_sha1 (str_bytes key) (str_bytes auth_hdr)).bytes))
    ∧ ((∃ d, rgw_get_s3_header_digest calc_hmac_sha1 auth_hdr key dest = some (-EINVAL, d))
        ↔ key = "")
    ∧ (base64_text (calc_hmac_sha1 (str_bytes key) (str_bytes auth_hdr)).bytes).data.length = 28
    ∧ ceph_armor 64 (calc_hmac_sha1 (str_bytes key) (str_bytes auth_hdr)).bytes
        = Except.ok (base64_text (calc_hmac_sha1 (str_bytes key) (str_bytes auth_hdr)).bytes).data := by
  have hlen : (armor_groups ((calc_hmac_sha1 (str_bytes key) (str_bytes auth_hdr)).bytes.map
      (fun b => b % 256))).length = 28 := by
    rw [armor_groups_length, List.length_map,
      (calc_hmac_sha1 (str_bytes key) (str_bytes auth_hdr)).size]
    rfl
  have harmor : ceph_armor 64 (calc_hmac_sha1 (str_bytes key) (str_bytes auth_hdr)).bytes
      = Except.ok (armor_groups ((calc_hmac_sha1 (str_bytes key) (str_bytes auth_hdr)).bytes.map
          (fun b => b % 256))) := by
    simp [ceph_armor, hlen]
  have hok : key ≠ "" → rgw_get_s3_header_digest calc_hmac_sha1 auth_hdr key dest
      = some (0, base64_text (calc_hmac_sha1 (str_bytes key) (str_bytes auth_hdr)).bytes) := by
    intro hk
    unfold rgw_get_s3_header_digest
    rw [if_neg hk]
    simp only [harmor, hlen]
    rw [c_str_terminated _ (armor_groups_no_nul _)]
    rfl
  have hempty : key = "" → rgw_get_s3_header_digest calc_hmac_sha1 auth_hdr key dest
      = some (-EINVAL, dest) := by
    intro hk
    simp [rgw_get_s3_header_digest, hk]
  refine ⟨hempty, hok, ⟨?_, fun hk => ⟨dest, hempty hk⟩⟩, hlen, harmor⟩
  rintro ⟨d, hd⟩
  by_contra hk
  rw [hok hk] at hd
  simp [EINVAL] at hd

/-- C4 at a key and a canonical string, with the stand-in digest of zero
bytes: an empty key is refused, a key gives the 28 characters. -/
theorem C4_header_digest_witness :
    rgw_get_s3_header_digest zero_hmac_sha1 "GET\n\n\n\n/" "" "old" = some (-22, "old")
    ∧ rgw_get_s3_header_digest zero_hmac_sha1 "GET\n\n\n\n/" "key" "old"
        = some (0, "AAAAAAAAAAAAAAAAAAAAAAAAAAA=") :=
  ⟨(C4_header_digest zero_hmac_sha1 "GET\n\n\n\n/" "" "old").1 rfl,
   (C4_header_digest zero_hmac_sha1 "GET\n\n\n\n/" "key" "old").2.1 (by decide)⟩

theorem utf8_text_ascii (chars : List Char) (h : ∀ c ∈ chars, c.toNat < 128) :
    utf8_text chars = chars.map Char.toNat := by
  induction chars with
  | nil => rfl
  | cons c rest ih =>
    have hc : c.toNat ≤ 0x7f := Nat.lt_succ_iff.mp (h c (List.mem_cons_self _ _))
    have hrest := ih (fun x hx => h x (List.mem_cons_of_mem _ hx))
    simp [utf8_text, encode_utf8, hc, hrest]

theorem encode_utf8_ascii (u : Nat) (h : u < 128) :
    encode_utf8 u = [u] ∧ ¬ encode_utf8_result u < 0 := by
  have h1 : u ≤ 0x7f := by omega
  have h2 : u ≤ 0x1fffff := by omega
  have he : encode_utf8 u = [u] := by
    unfold encode_utf8
    rw [if_pos h1]
  refine ⟨he, ?_⟩
  unfold encode_utf8_result
  rw [if_pos h2, he]
  simp

theorem char_as_ulong_ascii (c : Char) (h : c.toNat < 128) : char_as_ulong c = c.toNat := by
  unfold char_as_ulong
  have hm : c.toNat % 256 = c.toNat := Nat.mod_eq_of_lt (by omega)
  rw [hm, if_pos h]

theorem secret_key_utf8_ascii_foldl (chars : List Char) (h : ∀ c ∈ chars, c.toNat < 128) :
    ∀ buf : List Nat,
      chars.foldl secret_key_utf8_step (some buf) = some (buf ++ chars.map Char.toNat) := by
  induction chars with
  | nil => intro buf; simp
  | cons c rest ih =>
    intro buf
    have hc := h c (List.mem_cons_self _ _)
    have hstep : secret_key_utf8_step (some buf) c = some (buf ++ [c.toNat]) := by
      unfold secret_key_utf8_step
      dsimp only
      rw [char_as_ulong_ascii c hc, if_neg (encode_utf8_ascii c.toNat hc).2,
        (encode_utf8_ascii c.toNat hc).1]
    rw [List.foldl_cons, hstep, ih (fun x hx => h x (List.mem_cons_of_mem _ hx))]
    simp

theorem secret_key_utf8_ascii (s : String) (h : ∀ c ∈ s.data, c.toNat < 128) :
    secret_key_utf8 s = some (str_bytes s) := by
  unfold secret_key_utf8 str_bytes
  rw [secret_key_utf8_ascii_foldl s.data h []]
  rfl

theorem aws4_secret_ascii (secret : String) (h : ∀ c ∈ secret.data, c.toNat < 128) :
    ∀ c ∈ ("AWS4" ++ secret).data, c.toNat < 128 := by
  intro c hc
  rw [String.data_append, List.mem_append] at hc
  rcases hc with hc | hc
  · revert c
    decide
  · exact h c hc

theorem get_v4_signature_ascii
    (calc_hmac_sha256 : List Nat → List Nat → Digest CEPH_CRYPTO_HMACSHA256_DIGESTSIZE)
    (aws4_auth : rgw_aws4_auth)
    (access_key_id date region service string_to_sign access_key_secret : String)
    (h : ∀ c ∈ access_key_secret.data, c.toNat < 128) :
    secret_key_utf8 ("AWS4" ++ access_key_secret)
        = some (str_bytes ("AWS4" ++ access_key_secret))
    ∧ (get_v4_signature calc_hmac_sha256 aws4_auth access_key_id date region service
          string_to_sign access_key_secret).map Prod.fst
        = some (v4_signature_spec calc_hmac_sha256 date region service string_to_sign
            access_key_secret) := by
  have hall := aws4_secret_ascii access_key_secret h
  have hkey := secret_key_utf8_ascii ("AWS4" ++ access_key_secret) hall
  refine ⟨hkey, ?_⟩
  unfold get_v4_signature v4_signature_spec
  dsimp only
  rw [hkey, utf8_text_ascii _ hall]
  rfl

/-- C5 at its failing input, the secret `k\xe9y`. The byte 0xe9 is a negative
`char`; as the `unsigned long` argument of `encode_utf8` it is above every
code point, the encoder returns -1 and `n += -1` steps back over the `k`
written before: the key of the first HMAC is `AWS4y`, not the UTF-8 text of
`AWS4k\xe9y` (`AWS4k`, 0xc3, 0xa9, `y`), and for every HMAC and every other
argument the secret `k\xe9y` is given the signature of the secret `y`. A
secret of five such bytes steps `n` back below 0. -/
theorem C5_signed_char_steps_back
    (calc_hmac_sha256 : List Nat → List Nat → Digest CEPH_CRYPTO_HMACSHA256_DIGESTSIZE)
    (aws4_auth : rgw_aws4_auth)
    (access_key_id date region service string_to_sign : String) :
    secret_key_utf8 ("AWS4" ++ "k\xe9y") = some (str_bytes "AWS4y")
    ∧ utf8_text ("AWS4" ++ "k\xe9y").data = [65, 87, 83, 52, 107, 0xc3, 0xa9, 121]
    ∧ get_v4_signature calc_hmac_sha256 aws4_auth access_key_id date region service
          string_to_sign "k\xe9y"
        = get_v4_signature calc_hmac_sha256 aws4_auth access_key_id date region service
          string_to_sign "y"
    ∧ (get_v4_signature calc_hmac_sha256 aws4_auth access_key_id date region service
          string_to_sign "k\xe9y").map Prod.fst
        = some (v4_signature_spec calc_hmac_sha256 date region service string_to_sign "y")
    ∧ secret_key_utf8 ("AWS4" ++ "\xe9\xe9\xe9\xe9\xe9") = none := by
  have hkey : secret_key_utf8 ("AWS4" ++ "k\xe9y") = secret_key_utf8 ("AWS4" ++ "y") := by
    decide
  have hsame : get_v4_signature calc_hmac_sha256 aws4_auth access_key_id date region service
        string_to_sign "k\xe9y"
      = get_v4_signature calc_hmac_sha256 aws4_auth access_key_id date region service
        string_to_sign "y" := by
    unfold get_v4_signature
    dsimp only
    rw [hkey]
  refine ⟨by decide, by decide, hsame, ?_, by decide⟩
  rw [hsame]
  exact (get_v4_signature_ascii calc_hmac_sha256 aws4_auth access_key_id date region service
    string_to_sign "y" (by decide)).2

theorem c_str_of_nul_free (s : String) (h : nul_free s) : c_str s = s := by
  unfold c_str
  apply String.ext
  simp only
  rw [List.takeWhile_eq_self_iff]
  intro c hc
  simpa using h c hc

theorem hex_digit_ne_nul (n : Nat) : hex_digit n ≠ Char.ofNat 0 := by
  unfold hex_digit
  by_cases h : n < "0123456789abcdef".data.length
  · rw [List.getD_eq_getElem _ _ h]
    have hall : ∀ c ∈ "0123456789abcdef".data, c ≠ Char.ofNat 0 := by decide
    exact hall _ (List.getElem_mem h)
  · rw [List.getD_eq_default _ _ (Nat.le_of_not_lt h)]
    decide

theorem buf_to_hex_nul_free (buf : List Nat) : nul_free (buf_to_hex buf) := by
  unfold nul_free buf_to_hex
  induction buf with
  | nil => simp [hex_chars]
  | cons b rest ih =>
    intro c hc
    simp only [hex_chars, List.mem_cons] at hc
    rcases hc with rfl | rfl | hc
    · exact hex_digit_ne_nul _
    · exact hex_digit_ne_nul _
    · exact ih c hc

theorem get_v4_string_to_sign_eq (algorithm request_date credential_scope hashed_qr : String) :
    get_v4_string_to_sign algorithm request_date credential_scope hashed_qr
      = c_str algorithm ++ "\n" ++ c_str request_date ++ "\n" ++ c_str credential_scope
          ++ "\n" ++ c_str hashed_qr := by
  simp [get_v4_string_to_sign, rgw_assemble_s3_v4_string_to_sign, append_cstr]

theorem get_v4_canonical_request_hash_eq
    (sha256 : List Nat → Digest CEPH_CRYPTO_HMACSHA256_DIGESTSIZE)
    (http_verb canonical_uri canonical_qs canonical_hdrs signed_hdrs request_payload_hash :
      String) :
    get_v4_canonical_request_hash sha256 http_verb canonical_uri canonical_qs canonical_hdrs
        signed_hdrs request_payload_hash
      = buf_to_hex (sha256 (str_bytes
          (c_str http_verb ++ "\n" ++ c_str canonical_uri ++ "\n" ++ c_str canonical_qs
            ++ "\n" ++ c_str canonical_hdrs ++ "\n" ++ c_str signed_hdrs ++ "\n"
            ++ c_str request_payload_hash))).bytes := by
  simp [get_v4_canonical_request_hash, assemble_v4_canonical_request, append_cstr,
    hash_string_sha256, calc_hash_sha256]

/-- C6 as stated fails: an algorithm name with a NUL inside is cut at the NUL,
since the argument is passed on as a C string. -/
theorem C6_string_to_sign_counterexample :
    ¬ (∀ algorithm request_date credential_scope hashed_qr : String,
        get_v4_string_to_sign algorithm request_date credential_scope hashed_qr
          = algorithm ++ "\n" ++ request_date ++ "\n" ++ credential_scope ++ "\n"
              ++ hashed_qr) := by
  intro h
  have h1 := h "A\x00B" "d" "s" "h"
  revert h1
  decide

/-- C6, amended. For arguments without a NUL character the string to sign is
algorithm, request date, credential scope and hashed request separated by three
line breaks, the canonical request hash is the hexadecimal SHA-256 of the six
fields separated by five line breaks, and the two compose; in general every
argument contributes its characters before the first NUL. -/
theorem C6_v4_string_to_sign_layout
    (sha256 : List Nat → Digest CEPH_CRYPTO_HMACSHA256_DIGESTSIZE)
    (algorithm request_date credential_scope hashed_qr : String)
    (http_verb canonical_uri canonical_qs canonical_hdrs signed_hdrs request_payload_hash :
      String) :
    (nul_free algorithm → nul_free request_date → nul_free credential_scope →
        nul_free hashed_qr →
      get_v4_string_to_sign algorithm request_date credential_scope hashed_qr
        = algorithm ++ "\n" ++ request_date ++ "\n" ++ credential_scope ++ "\n" ++ hashed_qr)
    ∧ (nul_free http_verb → nul_free canonical_uri → nul_free canonical_qs →
        nul_free canonical_hdrs → nul_free signed_hdrs → nul_free request_payload_hash →
      get_v4_canonical_request_hash sha256 http_verb canonical_uri canonical_qs
          canonical_hdrs signed_hdrs request_payload_hash
        = buf_to_hex (sha256 (str_bytes
            (http_verb ++ "\n" ++ canonical_uri ++ "\n" ++ canonical_qs ++ "\n"
              ++ canonical_hdrs ++ "\n" ++ signed_hdrs ++ "\n"
              ++ request_payload_hash))).bytes)
    ∧ (nul_free algorithm → nul_free request_date → nul_free credential_scope →
      get_v4_string_to_sign algorithm request_date credential_scope
          (get_v4_canonical_request_hash sha256 http_verb canonical_uri canonical_qs
            canonical_hdrs signed_hdrs request_payload_hash)
        = algorithm ++ "\n" ++ request_date ++ "\n" ++ credential_scope ++ "\n"
            ++ get_v4_canonical_request_hash sha256 http_verb canonical_uri canonical_qs
                canonical_hdrs signed_hdrs request_payload_hash)
    ∧ get_v4_string_to_sign algorithm request_date credential_scope hashed_qr
        = c_str algorithm ++ "\n" ++ c_str request_date ++ "\n" ++ c_str credential_scope
            ++ "\n" ++ c_str hashed_qr
    ∧ get_v4_canonical_request_hash sha256 http_verb canonical_uri canonical_qs
          canonical_hdrs signed_hdrs request_payload_hash
        = buf_to_hex (sha256 (str_bytes
            (c_str http_verb ++ "\n" ++ c_str canonical_uri ++ "\n" ++ c_str canonical_qs
              ++ "\n" ++ c_str canonical_hdrs ++ "\n" ++ c_str signed_hdrs ++ "\n"
              ++ c_str request_payload_hash))).bytes := by
  refine ⟨?_, ?_, ?_, get_v4_string_to_sign_eq _ _ _ _,
    get_v4_canonical_request_hash_eq _ _ _ _ _ _ _⟩
  · intro h1 h2 h3 h4
    rw [get_v4_string_to_sign_eq, c_str_of_nul_free _ h1, c_str_of_nul_free _ h2,
      c_str_of_nul_free _ h3, c_str_of_nul_free _ h4]
  · intro h1 h2 h3 h4 h5 h6
    rw [get_v4_canonical_request_hash_eq, c_str_of_nul_free _ h1, c_str_of_nul_free _ h2,
      c_str_of_nul_free _ h3, c_str_of_nul_free _ h4, c_str_of_nul_free _ h5,
      c_str_of_nul_free _ h6]
  · intro h1 h2 h3
    rw [get_v4_string_to_sign_eq, c_str_of_nul_free _ h1, c_str_of_nul_free _ h2,
      c_str_of_nul_free _ h3, c_str_of_nul_free _ (by
        rw [get_v4_canonical_request_hash_eq]; exact buf_to_hex_nul_free _)]

/-- C6, amended, at the scope of a request of 24 May 2013, with the stand-in
SHA-256 of zero bytes. -/
theorem C6_v4_string_to_sign_layout_witness :
    get_v4_string_to_sign "AWS4-HMAC-SHA256" "20130524T000000Z"
        "20130524/us-east-1/s3/aws4_request" "00ff"
      = "AWS4-HMAC-SHA256\n20130524T000000Z\n20130524/us-east-1/s3/aws4_request\n00ff" :=
  (C6_v4_string_to_sign_layout zero_sha256 "AWS4-HMAC-SHA256" "20130524T000000Z"
    "20130524/us-east-1/s3/aws4_request" "00ff" "GET" "/" "" "host:h\n" "host" "e3b0").1
    (by unfold nul_free; decide) (by unfold nul_free; decide)
    (by unfold nul_free; decide) (by unfold nul_free; decide)

theorem req_info_md5_rejected (parse_rfc2616 : String → Option tm) (internal_timegm : tm → Int)
    (info : req_info) (header_time : Option utime_t) (dest : String) (qsr : Bool)
    (h : ¬ md5_acceptable info) :
    rgw_create_s3_canonical_header_req_info parse_rfc2616 internal_timegm info header_time
      dest qsr = (false, header_time, dest) := by
  unfold md5_acceptable at h
  push_neg at h
  obtain ⟨s, hs, c, hc, hbad⟩ := h
  have : s.data.all is_base64_for_content_md5 = false := by
    rw [List.all_eq_false]
    exact ⟨c, hc, by simpa using hbad⟩
  simp [rgw_create_s3_canonical_header_req_info, hs, this]

theorem req_info_accepted_iff (parse_rfc2616 : String → Option tm) (internal_timegm : tm → Int)
    (info : req_info) (header_time : Option utime_t) (dest : String) (qsr : Bool)
    (hmd5 : md5_acceptable info) :
    (rgw_create_s3_canonical_header_req_info parse_rfc2616 internal_timegm info header_time
      dest qsr).1 = true ↔ date_accepted parse_rfc2616 info header_time qsr := by
  have hall : (match info.env.get "HTTP_CONTENT_MD5" with
      | some p => p.data.all is_base64_for_content_md5
      | none => true) = true := by
    cases h : info.env.get "HTTP_CONTENT_MD5" with
    | none => rfl
    | some s => simpa using hmd5 s h
  unfold rgw_create_s3_canonical_header_req_info date_accepted request_date
  simp only [hall]
  cases qsr
  · cases hd : info.env.get "HTTP_DATE" <;> cases hx : info.env.get "HTTP_X_AMZ_DATE" <;>
      cases header_time <;> simp
    all_goals
      first
      | (cases hp : parse_rfc2616 _ <;> simp; split <;> simp <;> omega)
  · simp

theorem req_info_refused (parse_rfc2616 : String → Option tm) (internal_timegm : tm → Int)
    (info : req_info) (header_time : Option utime_t) (dest : String) (qsr : Bool)
    (h : (rgw_create_s3_canonical_header_req_info parse_rfc2616 internal_timegm info
      header_time dest qsr).1 = false) :
    rgw_create_s3_canonical_header_req_info parse_rfc2616 internal_timegm info header_time
      dest qsr = (false, header_time, dest) := by
  revert h
  unfold rgw_create_s3_canonical_header_req_info
  simp only
  split
  · intro _; rfl
  · cases qsr
    · cases hd : info.env.get "HTTP_DATE" <;> cases hx : info.env.get "HTTP_X_AMZ_DATE" <;>
        cases header_time <;> simp
      all_goals
        first
        | (cases hp : parse_rfc2616 _ <;> simp; split <;> simp; assumption)
    · simp

theorem c_str_nul_free (s : String) : nul_free (c_str s) := by
  intro c hc
  have := List.mem_takeWhile_imp hc
  simpa using this

theorem c_str_idem (s : String) : c_str (c_str s) = c_str s :=
  c_str_of_nul_free _ (c_str_nul_free s)

theorem RGWEnv.get_is_cstr (env : RGWEnv) (name v : String) (h : env.get name = some v) :
    c_str v = v := by
  unfold RGWEnv.get at h
  cases hg : env.env_map.get? name with
  | none => simp [hg] at h
  | some x =>
    simp only [hg, Option.map_some', Option.some.injEq] at h
    rw [← h, c_str_idem]

theorem req_info_dest (parse_rfc2616 : String → Option tm) (internal_timegm : tm → Int)
    (info : req_info) (header_time : Option utime_t) (dest : String) (qsr : Bool)
    (h : (rgw_create_s3_canonical_header_req_info parse_rfc2616 internal_timegm info
      header_time dest qsr).1 = true) :
    (rgw_create_s3_canonical_header_req_info parse_rfc2616 internal_timegm info header_time
      dest qsr).2.2
      = rgw_create_s3_canonical_header info.method (info.env.get "HTTP_CONTENT_MD5")
          (info.env.get "CONTENT_TYPE") (some (date_line info qsr)) info.x_meta_map
          (some (canonical_uri_of info)) info.args.sub_resources := by
  revert h
  unfold rgw_create_s3_canonical_header_req_info date_line canonical_uri_of
    RGWHTTPArgs.get_sub_resources
  simp only
  split
  · simp
  · cases qsr
    · cases hd : info.env.get "HTTP_DATE" <;> cases hx : info.env.get "HTTP_X_AMZ_DATE" <;>
        cases header_time <;> simp [cstr_text]
      all_goals
        have h0 : c_str "" = "" := by decide
        try rw [info.env.get_is_cstr _ _ hd]
        try rw [h0]
        try (cases hp : parse_rfc2616 _ <;> simp; split <;> simp)
    · simp

/-- C7. A Content-MD5 header holding a character that is not alphanumeric,
white space, `+`, `/` or `=` makes the function return false with `dest` and
the header time untouched; an absent header, or one made of such characters
only, leaves the outcome to the date stage, and on success it stands unchanged
between the first and the second line break of the canonical string. -/
theorem C7_content_md5_validity
    (parse_rfc2616 : String → Option tm) (internal_timegm : tm → Int)
    (info : req_info) (header_time : Option utime_t) (dest : String) (qsr : Bool) :
    (∀ s, info.env.get "HTTP_CONTENT_MD5" = some s →
        (∃ c ∈ s.data, is_base64_for_content_md5 c = false) →
        rgw_create_s3_canonical_header_req_info parse_rfc2616 internal_timegm info
          header_time dest qsr = (false, header_time, dest))
    ∧ (md5_acceptable info →
        ((rgw_create_s3_canonical_header_req_info parse_rfc2616 internal_timegm info
            header_time dest qsr).1 = true
          ↔ date_accepted parse_rfc2616 info header_time qsr))
    ∧ ((rgw_create_s3_canonical_header_req_info parse_rfc2616 internal_timegm info
          header_time dest qsr).1 = true →
        ∃ rest, (rgw_create_s3_canonical_header_req_info parse_rfc2616 internal_timegm info
            header_time dest qsr).2.2
          = cstr_text info.method ++ "\n" ++ cstr_text (info.env.get "HTTP_CONTENT_MD5")
              ++ "\n" ++ rest) := by
  refine ⟨?_, req_info_accepted_iff parse_rfc2616 internal_timegm info header_time dest qsr, ?_⟩
  · intro s hs hbad
    apply req_info_md5_rejected
    intro hacc
    obtain ⟨c, hc, hfalse⟩ := hbad
    rw [hacc s hs c hc] at hfalse
    exact Bool.noConfusion hfalse
  · intro hok
    rw [req_info_dest _ _ _ _ _ _ hok, canonical_header_layout]
    refine ⟨cstr_text (info.env.get "CONTENT_TYPE") ++ "\n"
      ++ cstr_text (some (date_line info qsr)) ++ "\n" ++ get_canon_amz_hdr info.x_meta_map
      ++ get_canon_resource (some (canonical_uri_of info)) info.args.sub_resources, ?_⟩
    simp only [String.append_assoc]

/-- C7 at two requests: `a b*` is refused for its `*`, and `a b+/=` followed by
a line break is copied into the second line. -/
theorem C7_content_md5_validity_witness :
    rgw_create_s3_canonical_header_req_info parse_as_2007 timegm_year
        (get_request (StdMap.single "HTTP_CONTENT_MD5" "a b*")) (some ⟨0, 0⟩) "old" true
      = (false, some ⟨0, 0⟩, "old")
    ∧ rgw_create_s3_canonical_header_req_info parse_as_2007 timegm_year
        (get_request (StdMap.single "HTTP_CONTENT_MD5" "a b+/=\n")) (some ⟨0, 0⟩) "old" true
      = (true, some ⟨0, 0⟩, "GET\na b+/=\n\n\n\n/bucket/key") :=
  ⟨(C7_content_md5_validity parse_as_2007 timegm_year
      (get_request (StdMap.single "HTTP_CONTENT_MD5" "a b*")) (some ⟨0, 0⟩) "old" true).1
      "a b*" (by decide) ⟨'*', by decide, by decide⟩,
   by decide⟩

/-- C8 as stated fails: with a null `header_time` a request that is not
pre-signed succeeds although its Date header does not parse. -/
theorem C8_date_check_counterexample :
    ¬ (∀ (parse_rfc2616 : String → Option tm) (internal_timegm : tm → Int) (info : req_info)
        (header_time : Option utime_t) (dest : String),
        (rgw_create_s3_canonical_header_req_info parse_rfc2616 internal_timegm info
          header_time dest false).1 = true →
        ∃ d t, request_date info = some d ∧ parse_rfc2616 d = some t ∧ 70 ≤ t.tm_year) := by
  intro h
  obtain ⟨d, t, _, hparse, _⟩ :=
    h parse_nothing timegm_year (get_request (StdMap.single "HTTP_DATE" "yesterday")) none ""
      (by decide)
  simp [parse_nothing] at hparse

/-- C8, amended. When the caller passes a `header_time`, a request that is
not pre-signed succeeds only if its request date (Date, else X-Amz-Date)
parses and has `tm_year >= 70`, and then the header time is set from it; it is
refused when no date header is present, when the date does not parse and when
`tm_year < 70`. With a null `header_time` the date is not parsed: a date
header must be present and nothing more. A pre-signed request undergoes no
date check. -/
theorem C8_date_check
    (parse_rfc2616 : String → Option tm) (internal_timegm : tm → Int)
    (info : req_info) (header_time : Option utime_t) (dest : String) :
    (header_time ≠ none →
        (rgw_create_s3_canonical_header_req_info parse_rfc2616 internal_timegm info
          header_time dest false).1 = true →
        ∃ d t, request_date info = some d ∧ parse_rfc2616 d = some t ∧ 70 ≤ t.tm_year)
    ∧ (request_date info = none →
        rgw_create_s3_canonical_header_req_info parse_rfc2616 internal_timegm info
          header_time dest false = (false, header_time, dest))
    ∧ (header_time ≠ none → ∀ d, request_date info = some d → parse_rfc2616 d = none →
        rgw_create_s3_canonical_header_req_info parse_rfc2616 internal_timegm info
          header_time dest false = (false, header_time, dest))
    ∧ (header_time ≠ none → ∀ d t, request_date info = some d → parse_rfc2616 d = some t →
        t.tm_year < 70 →
        rgw_create_s3_canonical_header_req_info parse_rfc2616 internal_timegm info
          header_time dest false = (false, header_time, dest))
    ∧ (header_time = none →
        ((rgw_create_s3_canonical_header_req_info parse_rfc2616 internal_timegm info
            header_time dest false).1 = true
          ↔ md5_acceptable info ∧ request_date info ≠ none))
    ∧ ((rgw_create_s3_canonical_header_req_info parse_rfc2616 internal_timegm info
          header_time dest true).1 = true ↔ md5_acceptable info) := by
  have hmd5 : ∀ qsr, (rgw_create_s3_canonical_header_req_info parse_rfc2616 internal_timegm
      info header_time dest qsr).1 = true → md5_acceptable info := by
    intro qsr hok
    by_contra hbad
    rw [req_info_md5_rejected _ _ _ _ _ _ hbad] at hok
    exact Bool.noConfusion hok
  have hiff : ∀ qsr, ((rgw_create_s3_canonical_header_req_info parse_rfc2616 internal_timegm
      info header_time dest qsr).1 = true
      ↔ md5_acceptable info ∧ date_accepted parse_rfc2616 info header_time qsr) := by
    intro qsr
    constructor
    · intro hok
      exact ⟨hmd5 qsr hok, (req_info_accepted_iff _ _ _ _ _ _ (hmd5 qsr hok)).mp hok⟩
    · rintro ⟨h1, h2⟩
      exact (req_info_accepted_iff _ _ _ _ _ _ h1).mpr h2
  have hrefuse : ¬ date_accepted parse_rfc2616 info header_time false →
      rgw_create_s3_canonical_header_req_info parse_rfc2616 internal_timegm info
        header_time dest false = (false, header_time, dest) := by
    intro hno
    apply req_info_refused
    cases hres : (rgw_create_s3_canonical_header_req_info parse_rfc2616 internal_timegm info
      header_time dest false).1 with
    | false => rfl
    | true => exact absurd ((hiff false).mp hres).2 hno
  refine ⟨?_, ?_, ?_, ?_, ?_, ?_⟩
  · intro hht hok
    rcases ((hiff false).mp hok).2 with hq | ⟨d, hd, hnone | ⟨t, ht, hy⟩⟩
    · exact Bool.noConfusion hq
    · exact absurd hnone hht
    · exact ⟨d, t, hd, ht, hy⟩
  · intro hnone
    apply hrefuse
    rintro (hq | ⟨d, hd, _⟩)
    · exact Bool.noConfusion hq
    · rw [hnone] at hd; exact Option.noConfusion hd
  · intro hht d hd hparse
    apply hrefuse
    rintro (hq | ⟨d2, hd2, hnone | ⟨t, ht, _⟩⟩)
    · exact Bool.noConfusion hq
    · exact hht hnone
    · rw [hd] at hd2
      cases hd2
      rw [hparse] at ht
      exact Option.noConfusion ht
  · intro hht d t hd hparse hy
    apply hrefuse
    rintro (hq | ⟨d2, hd2, hnone | ⟨t2, ht2, hy2⟩⟩)
    · exact Bool.noConfusion hq
    · exact hht hnone
    · rw [hd] at hd2
      cases hd2
      rw [hparse] at ht2
      cases ht2
      omega
  · intro hnone
    rw [hiff false]
    constructor
    · rintro ⟨h1, hq | ⟨d, hd, _⟩⟩
      · exact Bool.noConfusion hq
      · exact ⟨h1, by rw [hd]; exact Option.some_ne_none d⟩
    · rintro ⟨h1, h2⟩
      obtain ⟨d, hd⟩ := Option.ne_none_iff_exists'.mp h2
      exact ⟨h1, Or.inr ⟨d, hd, Or.inl hnone⟩⟩
  · rw [hiff true]
    exact ⟨fun h => h.1, fun h => ⟨h, Or.inl rfl⟩⟩

/-- C8, amended, at a request with a Date header, a `header_time` and the
parser that reads every date as of 2007: the request succeeds, the date
parses and its year is 107. -/
theorem C8_date_check_witness :
    ∃ d t, request_date (get_request (StdMap.single "HTTP_DATE" "Tue, 27 Mar 2007 19:36:42 +0000"))
        = some d ∧ parse_as_2007 d = some t ∧ 70 ≤ t.tm_year :=
  (C8_date_check parse_as_2007 timegm_year
    (get_request (StdMap.single "HTTP_DATE" "Tue, 27 Mar 2007 19:36:42 +0000"))
    (some ⟨0, 0⟩) "").1 (by decide) (by decide)

/-- C9 as stated fails: for a request with an X-Amz-Date header and no Date
header the DATE line of the canonical string is empty, not the X-Amz-Date
value. -/
theorem C9_date_line_counterexample :
    ¬ (∀ (parse_rfc2616 : String → Option tm) (internal_timegm : tm → Int) (info : req_info)
        (header_time : Option utime_t) (dest : String) (qsr : Bool),
        (rgw_create_s3_canonical_header_req_info parse_rfc2616 internal_timegm info
          header_time dest qsr).1 = true →
        (rgw_create_s3_canonical_header_req_info parse_rfc2616 internal_timegm info
          header_time dest qsr).2.2
          = rgw_create_s3_canonical_header info.method (info.env.get "HTTP_CONTENT_MD5")
              (info.env.get "CONTENT_TYPE") (some (date_line_as_specified info qsr))
              info.x_meta_map (some (canonical_uri_of info)) info.args.sub_resources) := by
  intro h
  have h1 := h parse_as_2007 timegm_year
    (get_request (StdMap.single "HTTP_X_AMZ_DATE" "Tue, 27 Mar 2007 19:36:42 +0000"))
    none "" false (by decide)
  revert h1
  decide

/-- C9, amended. On success the canonical string is method, Content-MD5,
Content-Type and the DATE line, each followed by a line break, then the amz
headers and the resource, where the DATE line is the Expires query argument
(read as a C string, empty when absent) for a pre-signed request, otherwise
the Date header when present, otherwise empty: X-Amz-Date serves the validity
check only. -/
theorem C9_date_line
    (parse_rfc2616 : String → Option tm) (internal_timegm : tm → Int)
    (info : req_info) (header_time : Option utime_t) (dest : String) (qsr : Bool)
    (hok : (rgw_create_s3_canonical_header_req_info parse_rfc2616 internal_timegm info
      header_time dest qsr).1 = true) :
    (rgw_create_s3_canonical_header_req_info parse_rfc2616 internal_timegm info
        header_time dest qsr).2.2
      = cstr_text info.method ++ "\n" ++ cstr_text (info.env.get "HTTP_CONTENT_MD5") ++ "\n"
          ++ cstr_text (info.env.get "CONTENT_TYPE") ++ "\n" ++ date_line info qsr ++ "\n"
          ++ get_canon_amz_hdr info.x_meta_map
          ++ get_canon_resource (some (canonical_uri_of info)) info.args.sub_resources
    ∧ (qsr = true → date_line info qsr = c_str (info.args.get "Expires"))
    ∧ (qsr = false → ∀ d, info.env.get "HTTP_DATE" = some d → date_line info qsr = d)
    ∧ (qsr = false → info.env.get "HTTP_DATE" = none → date_line info qsr = "") := by
  refine ⟨?_, ?_, ?_, ?_⟩
  · rw [req_info_dest _ _ _ _ _ _ hok, canonical_header_layout]
    rfl
  · intro hq; simp [date_line, hq]
  · intro hq d hd; simp [date_line, hq, hd, cstr_text]
  · intro hq hd; simp [date_line, hq, hd, cstr_text]

/-- C9, amended, at the request with an X-Amz-Date header and no Date header:
the DATE line is empty. -/
theorem C9_date_line_witness :
    (rgw_create_s3_canonical_header_req_info parse_as_2007 timegm_year
        (get_request (StdMap.single "HTTP_X_AMZ_DATE" "Tue, 27 Mar 2007 19:36:42 +0000"))
        none "" false).2.2
      = "GET" ++ "\n" ++ "" ++ "\n" ++ "" ++ "\n" ++ "" ++ "\n" ++ "" ++ "/bucket/key" :=
  (C9_date_line parse_as_2007 timegm_year
    (get_request (StdMap.single "HTTP_X_AMZ_DATE" "Tue, 27 Mar 2007 19:36:42 +0000"))
    none "" false (by decide)).1.trans (by decide)

theorem StdMap.find_set {K V : Type} [LinearOrder K] [DecidableEq K] (m : StdMap K V)
    (k : K) (v : V) (k2 : K) :
    (m.set k v).find k2 = if k = k2 then some (k, v) else m.find k2 := by
  unfold StdMap.set StdMap.find
  simp only
  induction m.entries with
  | nil =>
    by_cases h : k = k2 <;> simp [StdMap.insert_entry, h]
  | cons kv rest ih =>
    unfold StdMap.insert_entry
    by_cases h1 : k < kv.1
    · rw [if_pos h1]
      by_cases h : k = k2 <;> simp [List.find?_cons, h]
    · rw [if_neg h1]
      by_cases h2 : k = kv.1
      · rw [if_pos h2]
        by_cases h : k = k2
        · simp [List.find?_cons, h]
        · have hkv : ¬ kv.1 = k2 := fun h3 => h (h2.trans h3)
          simp [List.find?_cons, h, hkv]
      · rw [if_neg h2]
        by_cases hkv : kv.1 = k2
        · have h : ¬ k = k2 := fun h3 => h2 (h3.trans hkv.symm)
          simp [List.find?_cons, hkv, h]
        · simp [List.find?_cons, hkv, ih]

theorem StdMap.contains_set {K V : Type} [LinearOrder K] [DecidableEq K] (m : StdMap K V)
    (k : K) (v : V) (k2 : K) :
    (m.set k v).contains k2 = (decide (k = k2) || m.contains k2) := by
  unfold StdMap.contains
  rw [StdMap.find_set]
  by_cases h : k = k2 <;> simp [h]

theorem StdMap.contains_empty {K V : Type} [LinearOrder K] [DecidableEq K] (k : K) :
    (StdMap.empty : StdMap K V).contains k = false := rfl

theorem pending_consistent_of_same (s0 s s2 : OSDMonitor) (h : pending_consistent s0 s)
    (hmap : s2.osdmap = s.osdmap) (hup : s2.pending_inc.new_up = s.pending_inc.new_up)
    (hdown : s2.pending_inc.new_down = s.pending_inc.new_down) :
    pending_consistent s0 s2 := by
  unfold pending_consistent at *
  rw [hmap, hup, hdown]
  exact h

theorem pending_consistent_set_down (s0 s s2 : OSDMonitor) (h : pending_consistent s0 s)
    (osd : Int) (clean : Bool) (hosd : s.osdmap.is_up osd = true)
    (hmap : s2.osdmap = s.osdmap) (hup : s2.pending_inc.new_up = s.pending_inc.new_up)
    (hdown : s2.pending_inc.new_down = s.pending_inc.new_down.set osd clean) :
    pending_consistent s0 s2 := by
  obtain ⟨h1, h2, h3⟩ := h
  refine ⟨hmap.trans h1, ?_, ?_⟩
  · rw [hup]; exact h2
  · intro i hi
    rw [hdown, StdMap.contains_set] at hi
    rcases Bool.or_eq_true _ _ ▸ hi with hi | hi
    · rw [← h1, ← of_decide_eq_true hi]; exact hosd
    · exact h3 i hi

theorem pending_consistent_set_up (s0 s s2 : OSDMonitor) (h : pending_consistent s0 s)
    (osd : Int) (addr : entity_addr_t) (hosd : s.osdmap.is_up osd = false)
    (hmap : s2.osdmap = s.osdmap)
    (hup : s2.pending_inc.new_up = s.pending_inc.new_up.set osd addr)
    (hdown : s2.pending_inc.new_down = s.pending_inc.new_down) :
    pending_consistent s0 s2 := by
  obtain ⟨h1, h2, h3⟩ := h
  refine ⟨hmap.trans h1, ?_, ?_⟩
  · intro i hi
    rw [hup, StdMap.contains_set] at hi
    rcases Bool.or_eq_true _ _ ▸ hi with hi | hi
    · rw [← h1, ← of_decide_eq_true hi]; exact hosd
    · exact h2 i hi
  · rw [hdown]; exact h3

theorem prepare_failure_consistent (s0 s s2 : OSDMonitor) (m : MOSDFailure) (ret : Bool)
    (h : pending_consistent s0 s) (hrun : s.prepare_failure m = Run.done (ret, s2)) :
    pending_consistent s0 s2 := by
  unfold OSDMonitor.prepare_failure at hrun
  cases hup : s.osdmap.is_up m.failed.name.num with
  | false => simp [hup] at hrun
  | true =>
    simp only [hup, Bool.not_true, Bool.false_eq_true, if_false] at hrun
    split at hrun
    · exact Run.noConfusion hrun
    · simp only [Run.done.injEq, Prod.mk.injEq] at hrun
      obtain ⟨_, rfl⟩ := hrun
      exact pending_consistent_set_down s0 s _ h m.failed.name.num false hup rfl rfl rfl

theorem prepare_boot_writes (s s2 : OSDMonitor) (m : MOSDBoot) (ret : Bool)
    (hrun : s.prepare_boot m = Run.done (ret, s2)) :
    s2.osdmap = s.osdmap
    ∧ ((s2.pending_inc.new_up = s.pending_inc.new_up
          ∧ s2.pending_inc.new_down = s.pending_inc.new_down)
      ∨ (s.osdmap.is_up m.orig_source_inst.name.num = true
          ∧ s2.pending_inc.new_up = s.pending_inc.new_up
          ∧ s2.pending_inc.new_down
              = s.pending_inc.new_down.set m.orig_source_inst.name.num false)
      ∨ (s.osdmap.is_up m.orig_source_inst.name.num = false
          ∧ s2.pending_inc.new_up
              = s.pending_inc.new_up.set m.orig_source_inst.name.num m.orig_source_inst.addr
          ∧ s2.pending_inc.new_down = s.pending_inc.new_down)) := by
  unfold OSDMonitor.prepare_boot at hrun
  cases h1 : m.orig_source_inst.name.is_osd
  · simp [h1] at hrun
  · cases h2 : s.osdmap.osd_exists m.orig_source_inst.name.num
    · simp [h1, h2] at hrun
      obtain ⟨_, rfl⟩ := hrun
      exact ⟨rfl, Or.inl ⟨rfl, rfl⟩⟩
    · cases h3 : s.osdmap.is_up m.orig_source_inst.name.num
      · simp only [h1, h2, h3, Bool.not_true, Bool.false_eq_true, if_false, Run.done.injEq,
          Prod.mk.injEq] at hrun
        obtain ⟨_, rfl⟩ := hrun
        refine ⟨?_, Or.inr (Or.inr ⟨rfl, ?_, ?_⟩)⟩
        · simp only [OSDMonitor.wait_for_commit]; split_ifs <;> rfl
        · simp only [OSDMonitor.wait_for_commit]; split_ifs <;> rfl
        · simp only [OSDMonitor.wait_for_commit]; split_ifs <;> rfl
      · simp only [h1, h2, h3, Bool.not_true, Bool.false_eq_true, if_false, if_true] at hrun
        split_ifs at hrun
        simp only [Run.done.injEq, Prod.mk.injEq] at hrun
        obtain ⟨_, rfl⟩ := hrun
        exact ⟨rfl, Or.inr (Or.inl ⟨rfl, rfl, rfl⟩)⟩

theorem prepare_boot_consistent (s0 s s2 : OSDMonitor) (m : MOSDBoot) (ret : Bool)
    (h : pending_consistent s0 s) (hrun : s.prepare_boot m = Run.done (ret, s2)) :
    pending_consistent s0 s2 := by
  obtain ⟨hmap, hw | ⟨hup, h1, h2⟩ | ⟨hup, h1, h2⟩⟩ := prepare_boot_writes s s2 m ret hrun
  · exact pending_consistent_of_same s0 s s2 h hmap hw.1 hw.2
  · exact pending_consistent_set_down s0 s s2 h _ false hup hmap h1 h2
  · exact pending_consistent_set_up s0 s s2 h _ _ hup hmap h1 h2

theorem command_down_consistent (s0 s : OSDMonitor) (m : MMonCommand) (osd : Int)
    (h : pending_consistent s0 s) :
    pending_consistent s0 (s.prepare_command_down m osd).2 := by
  unfold OSDMonitor.prepare_command_down
  cases h1 : s.osdmap.osd_exists (i32 osd)
  · simp only [h1, Bool.not_false, if_true]
    exact pending_consistent_of_same s0 s _ h rfl rfl rfl
  · cases h2 : s.osdmap.is_down (i32 osd)
    · simp only [h1, h2, Bool.not_true, Bool.false_eq_true, if_false]
      have hup : s.osdmap.is_up (i32 osd) = true := by
        unfold OSDMap.is_down at h2
        simpa using h2
      exact pending_consistent_set_down s0 s _ h (i32 osd) false hup rfl rfl rfl
    · simp only [h1, h2, Bool.not_true, Bool.false_eq_true, if_false, if_true]
      exact pending_consistent_of_same s0 s _ h rfl rfl rfl

theorem mark_all_down_fold (osdmap : OSDMap) (ls : List Int) :
    ∀ new_down : StdMap Int Bool,
      (∀ i, new_down.contains i = true → osdmap.is_up i = true) →
      ∀ i, (ls.foldl
          (fun new_down it => if osdmap.is_down it then new_down else new_down.set it true)
          new_down).contains i = true → osdmap.is_up i = true := by
  induction ls with
  | nil => intro new_down h i hi; exact h i hi
  | cons it rest ih =>
    intro new_down h
    rw [List.foldl_cons]
    apply ih
    cases hd : osdmap.is_down it
    · intro i hi
      simp only [Bool.false_eq_true, if_false] at hi
      rw [StdMap.contains_set] at hi
      rcases Bool.or_eq_true _ _ ▸ hi with hi | hi
      · rw [← of_decide_eq_true hi]
        unfold OSDMap.is_down at hd
        simpa using hd
      · exact h i hi
    · intro i hi
      simp only [if_true] at hi
      exact h i hi

theorem mark_all_down_consistent (s0 s s2 : OSDMonitor) (h : pending_consistent s0 s)
    (hrun : s.mark_all_down = Run.done s2) : pending_consistent s0 s2 := by
  unfold OSDMonitor.mark_all_down at hrun
  cases hl : s.is_leader
  · simp [hl] at hrun
  · simp only [hl, Bool.not_true, Bool.false_eq_true, if_false, Run.done.injEq] at hrun
    subst hrun
    obtain ⟨h1, h2, h3⟩ := h
    refine ⟨h1, h2, ?_⟩
    intro i hi
    rw [← h1]
    exact mark_all_down_fold s.osdmap _ _ (fun j hj => h1 ▸ h3 j hj) i hi

theorem fake_osd_failure_consistent (s0 s : OSDMonitor) (osd : Int) (down : Bool)
    (h : pending_consistent s0 s) (hfake : fake_of_up_osd s osd down) :
    pending_consistent s0 (s.fake_osd_failure osd down) := by
  unfold OSDMonitor.fake_osd_failure
  cases down
  · exact pending_consistent_of_same s0 s _ h rfl rfl rfl
  · exact pending_consistent_set_down s0 s _ h osd false (hfake rfl) rfl rfl rfl

theorem tick_down_fold (osdmap : OSDMap) (now : utime_t) (interval : Int)
    (entries : List (Int × utime_t)) :
    ∀ st : Incremental × StdMap Int utime_t × Bool,
      (entries.foldl (OSDMonitor.tick_down_step osdmap now interval) st).1.new_up = st.1.new_up
      ∧ (entries.foldl (OSDMonitor.tick_down_step osdmap now interval) st).1.new_down
          = st.1.new_down := by
  induction entries with
  | nil => intro st; exact ⟨rfl, rfl⟩
  | cons e rest ih =>
    intro st
    rw [List.foldl_cons]
    obtain ⟨h1, h2⟩ := ih (OSDMonitor.tick_down_step osdmap now interval st e)
    rw [h1, h2]
    unfold OSDMonitor.tick_down_step
    dsimp only
    split_ifs <;> exact ⟨rfl, rfl⟩

theorem tick_blacklist_fold (now : utime_t) (entries : List (entity_addr_t × utime_t)) :
    ∀ st : Incremental × Bool,
      (entries.foldl (OSDMonitor.tick_blacklist_step now) st).1.new_up = st.1.new_up
      ∧ (entries.foldl (OSDMonitor.tick_blacklist_step now) st).1.new_down
          = st.1.new_down := by
  induction entries with
  | nil => intro st; exact ⟨rfl, rfl⟩
  | cons e rest ih =>
    intro st
    rw [List.foldl_cons]
    obtain ⟨h1, h2⟩ := ih (OSDMonitor.tick_blacklist_step now st e)
    rw [h1, h2]
    unfold OSDMonitor.tick_blacklist_step
    dsimp only
    split_ifs <;> exact ⟨rfl, rfl⟩

theorem tick_consistent (apply_incremental : OSDMap → Incremental → Option OSDMap)
    (s0 s s2 : OSDMonitor) (interval : Int) (now_update now : utime_t) (turns : Nat)
    (h : pending_consistent s0 s)
    (hfixed : s.paxos.active = true → s.paxos.version = s.osdmap.epoch)
    (hrun : s.tick apply_incremental interval now_update now turns = Run.done s2) :
    pending_consistent s0 s2 := by
  unfold OSDMonitor.tick at hrun
  cases ha : s.paxos.active
  · simp only [ha, Bool.not_false, if_true, Run.done.injEq] at hrun
    subst hrun
    exact h
  · have hupd : OSDMonitor.update_from_paxos apply_incremental now_update turns s
        = Run.done (true, s) := by
      unfold OSDMonitor.update_from_paxos
      simp [ha, hfixed ha]
    simp only [ha, Bool.not_true, Bool.false_eq_true, if_false, hupd, Run.andThen] at hrun
    cases hl : s.is_leader
    · simp only [hl, Bool.not_false, if_true, Run.done.injEq] at hrun
      subst hrun
      exact h
    · simp only [hl, Bool.not_true, Bool.false_eq_true, if_false] at hrun
      have hd := tick_down_fold s.osdmap now interval s.down_pending_out.entries
        (s.pending_inc, s.down_pending_out, false)
      have hb := tick_blacklist_fold now s.osdmap.blacklist.entries
        ((s.down_pending_out.entries.foldl
            (OSDMonitor.tick_down_step s.osdmap now interval)
            (s.pending_inc, s.down_pending_out, false)).1,
          (s.down_pending_out.entries.foldl
            (OSDMonitor.tick_down_step s.osdmap now interval)
            (s.pending_inc, s.down_pending_out, false)).2.2)
      split_ifs at hrun
      all_goals
        simp only [Run.done.injEq] at hrun
        subst hrun
        refine pending_consistent_of_same s0 s _ h rfl ?_ ?_
        · exact hb.1.trans hd.1
        · exact hb.2.trans hd.2

theorem create_pending_consistent (s0 : OSDMonitor) :
    pending_consistent s0 s0.create_pending := by
  refine ⟨rfl, ?_, ?_⟩
  · intro i hi
    simp [OSDMonitor.create_pending, Incremental.init, StdMap.contains_empty] at hi
  · intro i hi
    simp [OSDMonitor.create_pending, Incremental.init, StdMap.contains_empty] at hi

/-- The invariant of C10 for the guarded operations: as long as
`fake_osd_failure` marks down only OSDs that are up in the committed map, no
id is a key of both `new_up` and `new_down`, whatever sequence of
`prepare_failure`, `prepare_boot`, `osd down`, `mark_all_down`,
`fake_osd_failure` and `tick` built the pending increment. -/
theorem new_up_new_down_disjoint_when_guarded
    (apply_incremental : OSDMap → Incremental → Option OSDMap) (s0 s : OSDMonitor)
    (hreach : Reaches apply_incremental fake_of_up_osd s0 s) (i : Int) :
    ¬ (s.pending_inc.new_up.contains i = true ∧ s.pending_inc.new_down.contains i = true) := by
  have hinv : pending_consistent s0 s := by
    induction hreach with
    | create_pending => exact create_pending_consistent s0
    | env s s2 _ hmap hpend ih =>
      exact pending_consistent_of_same s0 s s2 ih hmap (by rw [hpend]) (by rw [hpend])
    | prepare_failure s s2 m ret _ hrun ih => exact prepare_failure_consistent s0 s s2 m ret ih hrun
    | prepare_boot s s2 m ret _ hrun ih => exact prepare_boot_consistent s0 s s2 m ret ih hrun
    | command_down s m osd _ ih => exact command_down_consistent s0 s m osd ih
    | mark_all_down s s2 _ hrun ih => exact mark_all_down_consistent s0 s s2 ih hrun
    | fake_osd_failure s osd down _ hfake ih =>
      exact fake_osd_failure_consistent s0 s osd down ih hfake
    | tick s s2 interval now_update now turns _ hfixed hrun ih =>
      exact tick_consistent apply_incremental s0 s s2 interval now_update now turns ih hfixed hrun
  rintro ⟨hup, hdown⟩
  have h1 := hinv.2.1 i hup
  have h2 := hinv.2.2 i hdown
  rw [h1] at h2
  exact Bool.noConfusion h2

/-- C10 at its failing input: with osd1 existing and down in the committed
map, `create_pending`, the boot of osd1 and `fake_osd_failure(1, true)` leave a
pending increment in which osd1 is a key of `new_up` and of `new_down`. -/
theorem C10_new_up_and_new_down_after_fake_failure :
    Reaches apply_nothing any_fake two_osd_monitor booted_then_faked
    ∧ booted_then_faked.pending_inc.new_up.entries = [(1, 101)]
    ∧ booted_then_faked.pending_inc.new_down.entries = [(1, false)]
    ∧ booted_then_faked.pending_inc.new_up.contains 1 = true
    ∧ booted_then_faked.pending_inc.new_down.contains 1 = true
    ∧ booted_then_faked.proposed = [booted_then_faked.pending_inc] := by
  refine ⟨?_, by decide, by decide, by decide, by decide, by decide⟩
  have hrun : two_osd_monitor.create_pending.prepare_boot boot_of_osd1
      = Run.done (true, booted_osd1) := by decide
  exact Reaches.fake_osd_failure booted_osd1 1 true
    (Reaches.prepare_boot _ booted_osd1 boot_of_osd1 true Reaches.create_pending hrun) trivial

theorem u32_pred (e : Nat) (h1 : 1 ≤ e) (h2 : e < 4294967296) : u32 ((e : Int) - 1) = e - 1 := by
  unfold u32
  omega

theorem u32_succ (e : Nat) (h : e < 4294967295) : u32 ((e : Int) + 1) = e + 1 := by
  unfold u32
  omega

theorem send_incremental_loop_done (store : MonitorStore) (from_epoch : Nat)
    (hfrom : 1 ≤ from_epoch) :
    ∀ (turns : Nat) (e : Nat) (msg : MOSDMap), e < turns → e < 4294967296 →
      (∀ k, from_epoch ≤ k → k ≤ e → store.holds k = true) →
      ∃ msg2, OSDMonitor.send_incremental_loop store from_epoch turns e msg = Run.done msg2 := by
  intro turns
  induction turns with
  | zero => intro e msg h; omega
  | succ n ih =>
    intro e msg hlt hbound hstore
    unfold OSDMonitor.send_incremental_loop
    by_cases he : e ≥ from_epoch
    · rw [if_pos he]
      have hu : u32 ((e : Int) - 1) = e - 1 := u32_pred e (by omega) hbound
      have hh := hstore e he le_rfl
      have hrec : ∀ msg3, ∃ msg2,
          OSDMonitor.send_incremental_loop store from_epoch n (e - 1) msg3 = Run.done msg2 :=
        fun msg3 => ih (e - 1) msg3 (by omega) (by omega)
          (fun k hk1 hk2 => hstore k hk1 (by omega))
      unfold MonitorStore.holds at hh
      rw [hu]
      split
      · exact hrec _
      · split
        · exact hrec _
        · rename_i h1 _ h2
          split at hh
          · rename_i i bl h3
            exact absurd h3 (h1 i bl)
          · split at hh
            · rename_i f bl h3
              exact absurd h3 (h2 f bl)
            · exact absurd hh (by decide)
    · rw [if_neg he]
      exact ⟨msg, rfl⟩

theorem send_incremental_done (s : OSDMonitor) (dest : entity_inst_t) (from_epoch : Nat)
    (hfrom : 1 ≤ from_epoch) (hepoch : (s.osdmap.get_epoch : Nat) < 4294967296)
    (hstore : ∀ k : Nat, from_epoch ≤ k → k ≤ s.osdmap.get_epoch → s.store.holds k = true) :
    ∃ msg, s.send_incremental dest from_epoch = Run.done (s.send (Sent.osd_map msg dest)) := by
  obtain ⟨msg, h⟩ := send_incremental_loop_done s.store from_epoch hfrom 4294967297
    s.osdmap.get_epoch ⟨s.fsid, StdMap.empty, StdMap.empty⟩
    (Nat.lt_trans hepoch (by decide)) hepoch hstore
  refine ⟨msg, ?_⟩
  unfold OSDMonitor.send_incremental
  simp only [h, Run.andThen]

theorem send_incremental_state (s s2 : OSDMonitor) (dest : entity_inst_t) (from_epoch : epoch_t)
    (h : s.send_incremental dest from_epoch = Run.done s2) :
    ∃ msg, s2 = s.send (Sent.osd_map msg dest) := by
  unfold OSDMonitor.send_incremental at h
  cases hl : OSDMonitor.send_incremental_loop s.store from_epoch 4294967297 s.osdmap.get_epoch
      ⟨s.fsid, StdMap.empty, StdMap.empty⟩ with
  | done msg =>
    simp only [hl, Run.andThen, Run.done.injEq] at h
    exact ⟨msg, h.symm⟩
  | aborted => simp [hl, Run.andThen] at h
  | unfinished => simp [hl, Run.andThen] at h

theorem OSDMap.is_up_exists (m : OSDMap) (osd : Int) (h : m.is_up osd = true) :
    m.osd_exists osd = true := by
  unfold OSDMap.is_up at h
  unfold OSDMap.osd_exists
  cases hs : m.slot osd with
  | none => simp [hs] at h
  | some sl =>
    simp only [hs, Bool.and_eq_true] at h
    exact h.1

theorem preprocess_failure_forward (s s2 : OSDMonitor) (m : MOSDFailure) :
    s.preprocess_failure m = Run.done (false, s2) ↔ (forwardable_failure s m ∧ s = s2) := by
  have hx := OSDMap.is_up_exists s.osdmap m.failed.name.num
  unfold OSDMonitor.preprocess_failure forwardable_failure OSDMap.have_inst OSDMap.is_down
  dsimp only
  generalize s.send_incremental m.orig_source_inst (u32 (↑m.epoch + 1)) = r
  split_ifs <;> cases r <;> simp_all [Run.andThen] <;> intros <;> simp_all <;>
    cases hosd : m.orig_source_inst.name.is_osd <;> simp_all

theorem preprocess_failure_dropped (s : OSDMonitor) (m : MOSDFailure)
    (hfwd : ¬ forwardable_failure s m) :
    (m.fsid ≠ s.fsid → s.preprocess_failure m = Run.done (true, s))
    ∧ (m.fsid = s.fsid → dead_reporter s m →
        s.preprocess_failure m
          = (s.send_incremental m.orig_source_inst (u32 (m.epoch + 1))).andThen
              (fun s => Run.done (true, s)))
    ∧ (m.fsid = s.fsid → ¬ dead_reporter s m → m.epoch < s.osdmap.get_epoch →
        s.preprocess_failure m
          = (s.send_incremental m.orig_source_inst (u32 (m.epoch + 1))).andThen
              (fun s => Run.done (true, s)))
    ∧ (m.fsid = s.fsid → ¬ dead_reporter s m → ¬ m.epoch < s.osdmap.get_epoch →
        s.preprocess_failure m = Run.done (true, s)) := by
  have hx := OSDMap.is_up_exists s.osdmap m.failed.name.num
  have hy := OSDMap.is_up_exists s.osdmap m.orig_source_inst.name.num
  unfold OSDMonitor.preprocess_failure forwardable_failure dead_reporter OSDMap.have_inst
    OSDMap.is_down at *
  dsimp only
  generalize s.send_incremental m.orig_source_inst (u32 (↑m.epoch + 1)) = r
  refine ⟨?_, ?_, ?_, ?_⟩
  · intro hf
    rw [if_pos hf]
  · intro hf hd
    split_ifs <;> simp_all
  · intro hf hd he
    split_ifs <;> simp_all
  · intro hf hd he
    split_ifs <;> simp_all

/-- C11 as stated fails: a report that is not handed on is not always
consumed. With no map in the store the catch-up of a dead reporter stops at
the `assert(0)` of `send_incremental`; and with every map of epochs 1 and 2 in
the store a dead reporter whose epoch is 2^32 - 1 makes `get_epoch()+1` wrap
to 0, so that the loop asks the store for epoch 0 and stops there. -/
theorem C11_preprocess_failure_counterexample :
    ¬ (∀ (s : OSDMonitor) (m : MOSDFailure), ¬ forwardable_failure s m →
        ∃ s2, s.preprocess_failure m = Run.done (true, s2))
    ∧ two_osd_monitor.preprocess_failure (report_osd0_by_osd1 0) = Run.aborted
    ∧ two_epoch_store.holds 1 = true ∧ two_epoch_store.holds 2 = true
    ∧ two_osd_monitor_stored.preprocess_failure (report_osd0_by_osd1 4294967295)
        = Run.aborted := by
  have h1 : two_osd_monitor.preprocess_failure (report_osd0_by_osd1 0) = Run.aborted := by
    decide
  refine ⟨?_, h1, by decide, by decide, by decide⟩
  intro h
  obtain ⟨s2, h2⟩ := h two_osd_monitor (report_osd0_by_osd1 0) (by
    unfold forwardable_failure
    decide)
  rw [h1] at h2
  exact Run.noConfusion h2

/-- C11, amended. The function `preprocess_failure` hands a report on to
Prepare (returns false, the monitor unchanged) if and only if the fsid
matches, the reporter is not an OSD or an OSD that exists, is up and has the
address of the sender, and the failed OSD is up under the reported name and
address; a report on an OSD that is down is never handed on. When the
reporter's epoch is below 2^32 - 1 and the store holds an increment or a full
map at every epoch from the reporter's epoch + 1 to the current epoch, every
other report is consumed (returns true) with the committed map and the pending
increment unchanged: a dead reporter is sent one incremental from
epoch + 1; an unknown, wrong or duplicate report is sent one exactly when the
reporter's epoch is below the current epoch; a report with a foreign fsid is
sent nothing. -/
theorem C11_preprocess_failure (s : OSDMonitor) (m : MOSDFailure)
    (hepoch : (s.osdmap.get_epoch : Nat) < 4294967296)
    (hreporter : (m.epoch : Nat) < 4294967295)
    (hstore : ∀ k : Nat, m.epoch + 1 ≤ k → k ≤ s.osdmap.get_epoch → s.store.holds k = true) :
    (∀ s2, s.preprocess_failure m = Run.done (false, s2) ↔ (forwardable_failure s m ∧ s = s2))
    ∧ (s.osdmap.is_up m.failed.name.num = false → ¬ forwardable_failure s m)
    ∧ (¬ forwardable_failure s m →
        ∃ s2, s.preprocess_failure m = Run.done (true, s2)
          ∧ s2.pending_inc = s.pending_inc ∧ s2.osdmap = s.osdmap
          ∧ (m.fsid ≠ s.fsid → s2 = s)
          ∧ (m.fsid = s.fsid → dead_reporter s m →
              s.send_incremental m.orig_source_inst (m.epoch + 1) = Run.done s2
              ∧ ∃ msg, s2 = s.send (Sent.osd_map msg m.orig_source_inst))
          ∧ (m.fsid = s.fsid → ¬ dead_reporter s m → m.epoch < s.osdmap.get_epoch →
              s.send_incremental m.orig_source_inst (m.epoch + 1) = Run.done s2
              ∧ ∃ msg, s2 = s.send (Sent.osd_map msg m.orig_source_inst))
          ∧ (m.fsid = s.fsid → ¬ dead_reporter s m → ¬ m.epoch < s.osdmap.get_epoch →
              s2 = s)) := by
  refine ⟨fun s2 => preprocess_failure_forward s s2 m, ?_, ?_⟩
  · intro hdown hfwd
    rw [hfwd.2.2.1] at hdown
    exact Bool.noConfusion hdown
  · intro hfwd
    obtain ⟨h1, h2, h3, h4⟩ := preprocess_failure_dropped s m hfwd
    have hu : u32 ((m.epoch : Int) + 1) = m.epoch + 1 := u32_succ m.epoch hreporter
    rw [hu] at h2 h3
    obtain ⟨msg, hsend⟩ := send_incremental_done s m.orig_source_inst (m.epoch + 1)
      (Nat.le_add_left 1 m.epoch) hepoch hstore
    by_cases hf : m.fsid = s.fsid
    · by_cases hd : dead_reporter s m
      · refine ⟨s.send (Sent.osd_map msg m.orig_source_inst), ?_, rfl, rfl,
          fun hne => absurd hf hne, fun _ _ => ⟨hsend, msg, rfl⟩,
          fun _ hnd => absurd hd hnd, fun _ hnd => absurd hd hnd⟩
        rw [h2 hf hd, hsend]
        rfl
      · by_cases he : m.epoch < s.osdmap.get_epoch
        · refine ⟨s.send (Sent.osd_map msg m.orig_source_inst), ?_, rfl, rfl,
            fun hne => absurd hf hne, fun _ hdd => absurd hdd hd,
            fun _ _ _ => ⟨hsend, msg, rfl⟩, fun _ _ hne => absurd he hne⟩
          rw [h3 hf hd he, hsend]
          rfl
        · exact ⟨s, h4 hf hd he, rfl, rfl, fun _ => rfl, fun _ hdd => absurd hdd hd,
            fun _ _ hee => absurd hee he, fun _ _ _ => rfl⟩
    · exact ⟨s, h1 hf, rfl, rfl, fun _ => rfl, fun hff => absurd hff hf,
        fun hff => absurd hff hf, fun hff => absurd hff hf⟩

theorem C11_preprocess_failure_witness :
    ∃ s2, two_osd_monitor_stored.preprocess_failure (report_osd0_by_osd1 0) = Run.done (true, s2)
      ∧ s2.pending_inc = two_osd_monitor_stored.pending_inc
      ∧ ∃ msg, s2 = two_osd_monitor_stored.send
          (Sent.osd_map msg (report_osd0_by_osd1 0).orig_source_inst) := by
  have hstore : ∀ k : Nat, (report_osd0_by_osd1 0).epoch + 1 ≤ k →
      k ≤ two_osd_monitor_stored.osdmap.get_epoch → two_osd_monitor_stored.store.holds k = true := by
    intro k h1 h2
    have h3 : 1 ≤ k := h1
    have h4 : k ≤ 2 := h2
    interval_cases k <;> decide
  obtain ⟨s2, h1, h2, _, _, h3, _⟩ :=
    (C11_preprocess_failure two_osd_monitor_stored (report_osd0_by_osd1 0) (by decide) (by decide)
      hstore).2.2 (by unfold forwardable_failure; decide)
  exact ⟨s2, h1, h2, (h3 rfl (by unfold dead_reporter; decide)).2⟩

/-- C12. Whenever `preprocess_failure` hands a report on, both assertions of
`prepare_failure` hold against every monitor with the same committed map (the
failed OSD is up and its address is the reported one); `prepare_failure` then
returns true, sets `new_down[badboy] = false`, changes no other field of the
pending increment and waits for the commit with the report. -/
theorem C12_prepare_failure_after_forward (s s1 s2 : OSDMonitor) (m : MOSDFailure)
    (hfwd : s.preprocess_failure m = Run.done (false, s1))
    (hmap : s2.osdmap = s.osdmap) :
    s2.osdmap.is_up m.failed.name.num = true
    ∧ s2.osdmap.get_addr m.failed.name.num = m.failed.addr
    ∧ s2.prepare_failure m = Run.done (true,
        { s2 with
          pending_inc := { s2.pending_inc with
            new_down := s2.pending_inc.new_down.set m.failed.name.num false }
          waiting_commit := s2.waiting_commit ++ [Callback.C_Reported m] }) := by
  obtain ⟨⟨_, _, hup, hinst⟩, _⟩ := (preprocess_failure_forward s s1 m).mp hfwd
  have haddr : s.osdmap.get_addr m.failed.name.num = m.failed.addr := by
    have h := congrArg entity_inst_t.addr hinst
    simpa [OSDMap.get_inst] using h
  rw [← hmap] at hup haddr
  refine ⟨hup, haddr, ?_⟩
  unfold OSDMonitor.prepare_failure
  simp [hup, haddr, OSDMonitor.wait_for_commit]

theorem C12_prepare_failure_after_forward_witness :
    two_osd_monitor_stored.osdmap.is_up 0 = true
    ∧ two_osd_monitor_stored.osdmap.get_addr 0 = 100
    ∧ two_osd_monitor_stored.prepare_failure (report_osd0_by_client 2) = Run.done (true,
        { two_osd_monitor_stored with
          pending_inc := { two_osd_monitor_stored.pending_inc with
            new_down := two_osd_monitor_stored.pending_inc.new_down.set 0 false }
          waiting_commit := [Callback.C_Reported (report_osd0_by_client 2)] }) :=
  C12_prepare_failure_after_forward two_osd_monitor_stored two_osd_monitor_stored
    two_osd_monitor_stored (report_osd0_by_client 2) (by decide) rfl

theorem StdMap.find_erase {K V : Type} [LinearOrder K] [DecidableEq K] (m : StdMap K V)
    (k k2 : K) :
    (m.erase k).find k2 = if k = k2 then none else m.find k2 := by
  unfold StdMap.erase StdMap.find
  simp only
  induction m.entries with
  | nil => simp
  | cons kv rest ih =>
    by_cases h1 : kv.1 = k
    · rw [List.filter_cons_of_neg (by simp [h1]), ih]
      by_cases h : k = k2
      · simp [h]
      · have hkv : ¬ kv.1 = k2 := fun h3 => h (h1.symm.trans h3)
        simp [h, hkv, List.find?_cons]
    · rw [List.filter_cons_of_pos (by simp [h1])]
      by_cases hkv : kv.1 = k2
      · have h : ¬ k = k2 := fun h3 => h1 (hkv.trans h3.symm)
        simp [hkv, h, List.find?_cons]
      · simp [hkv, List.find?_cons, ih]

theorem StdMap.get_set {K V : Type} [LinearOrder K] [DecidableEq K] (m : StdMap K V)
    (k : K) (v : V) (k2 : K) :
    (m.set k v).get? k2 = if k = k2 then some v else m.get? k2 := by
  unfold StdMap.get?
  rw [StdMap.find_set]
  by_cases h : k = k2 <;> simp [h]

theorem StdMap.get_erase {K V : Type} [LinearOrder K] [DecidableEq K] (m : StdMap K V)
    (k k2 : K) :
    (m.erase k).get? k2 = if k = k2 then none else m.get? k2 := by
  unfold StdMap.get?
  rw [StdMap.find_erase]
  by_cases h : k = k2 <;> simp [h]

theorem prepare_boot_of_up (s : OSDMonitor) (m : MOSDBoot)
    (hosd : m.orig_source_inst.name.is_osd = true)
    (hup : s.osdmap.is_up m.orig_source_inst.name.num = true)
    (haddr : s.osdmap.get_addr m.orig_source_inst.name.num ≠ m.orig_source_inst.addr) :
    s.prepare_boot m = Run.done (true,
      { s with
        pending_inc := { s.pending_inc with
          new_down := s.pending_inc.new_down.set m.orig_source_inst.name.num false }
        waiting_commit := s.waiting_commit ++ [Callback.C_RetryMessage m] }) := by
  have hex := OSDMap.is_up_exists s.osdmap _ hup
  have hinst : s.osdmap.get_inst m.orig_source_inst.name.num ≠ m.orig_source_inst := by
    intro h
    exact haddr (by simpa [OSDMap.get_inst] using congrArg entity_inst_t.addr h)
  unfold OSDMonitor.prepare_boot
  simp [hosd, hup, hex, hinst, OSDMonitor.wait_for_commit]

theorem prepare_boot_of_down (s : OSDMonitor) (m : MOSDBoot)
    (hosd : m.orig_source_inst.name.is_osd = true)
    (hex : s.osdmap.osd_exists m.orig_source_inst.name.num = true)
    (hdown : s.osdmap.is_up m.orig_source_inst.name.num = false) :
    s.prepare_boot m = Run.done (true,
      { s with
        down_pending_out := s.down_pending_out.erase m.orig_source_inst.name.num
        osd_weight :=
          if m.sb.weight ≠ 0 then s.osd_weight.set m.orig_source_inst.name.num m.sb.weight
          else s.osd_weight
        pending_inc := { s.pending_inc with
          new_up := s.pending_inc.new_up.set m.orig_source_inst.name.num m.orig_source_inst.addr
          new_weight := s.pending_inc.new_weight.set m.orig_source_inst.name.num CEPH_OSD_IN
          new_last_clean_interval :=
            if interval_advances (m.sb.mounted, m.sb.clean_thru)
                ((s.osdmap.get_info m.orig_source_inst.name.num).last_clean_first,
                 (s.osdmap.get_info m.orig_source_inst.name.num).last_clean_last) then
              s.pending_inc.new_last_clean_interval.set m.orig_source_inst.name.num
                (clean_interval_candidate (s.osdmap.get_info m.orig_source_inst.name.num) m.sb)
            else s.pending_inc.new_last_clean_interval }
        waiting_commit := s.waiting_commit ++ [Callback.C_Booted m] }) := by
  unfold OSDMonitor.prepare_boot
  simp only [hosd, hex, hdown, Bool.not_true, Bool.false_eq_true, if_false,
    OSDMonitor.wait_for_commit, interval_advances, clean_interval_candidate]
  split_ifs <;> rfl

/-- C13. For a boot message of an OSD that is up in the committed map under
another address, `prepare_boot` returns true, sets only `new_down[id] = false`
(no `new_up`, `new_weight`, `osd_weight` or `new_last_clean_interval`) and
hands the message to `wait_for_commit` for a retry. Prepared again against a
map in which the id exists and is down, the same message sets `new_up[id]` to
the address of the sender and leaves `new_down` alone. -/
theorem C13_boot_over_live (s s2 : OSDMonitor) (m : MOSDBoot)
    (hosd : m.orig_source_inst.name.is_osd = true)
    (hup : s.osdmap.is_up m.orig_source_inst.name.num = true)
    (haddr : s.osdmap.get_addr m.orig_source_inst.name.num ≠ m.orig_source_inst.addr)
    (hex2 : s2.osdmap.osd_exists m.orig_source_inst.name.num = true)
    (hdown2 : s2.osdmap.is_up m.orig_source_inst.name.num = false) :
    s.prepare_boot m = Run.done (true,
      { s with
        pending_inc := { s.pending_inc with
          new_down := s.pending_inc.new_down.set m.orig_source_inst.name.num false }
        waiting_commit := s.waiting_commit ++ [Callback.C_RetryMessage m] })
    ∧ ∃ s3, s2.prepare_boot m = Run.done (true, s3)
        ∧ s3.pending_inc.new_up
            = s2.pending_inc.new_up.set m.orig_source_inst.name.num m.orig_source_inst.addr
        ∧ s3.pending_inc.new_up.get? m.orig_source_inst.name.num = some m.orig_source_inst.addr
        ∧ s3.pending_inc.new_down = s2.pending_inc.new_down := by
  refine ⟨prepare_boot_of_up s m hosd hup haddr, _, prepare_boot_of_down s2 m hosd hex2 hdown2,
    rfl, ?_, rfl⟩
  simp [StdMap.get_set]

theorem C13_boot_over_live_witness :
    two_osd_monitor.prepare_boot boot_of_osd0_moved = Run.done (true,
      { two_osd_monitor with
        pending_inc := { two_osd_monitor.pending_inc with
          new_down := two_osd_monitor.pending_inc.new_down.set 0 false }
        waiting_commit := [Callback.C_RetryMessage boot_of_osd0_moved] })
    ∧ ∃ s3, osd0_down_monitor.prepare_boot boot_of_osd0_moved = Run.done (true, s3)
        ∧ s3.pending_inc.new_up = osd0_down_monitor.pending_inc.new_up.set 0 101
        ∧ s3.pending_inc.new_up.get? 0 = some 101
        ∧ s3.pending_inc.new_down = osd0_down_monitor.pending_inc.new_down :=
  C13_boot_over_live two_osd_monitor osd0_down_monitor boot_of_osd0_moved (by decide) (by decide)
    (by decide) (by decide) (by decide)

/-- C14. For a boot message of an OSD that exists and is down in the committed
map, `prepare_boot` returns true, sets `new_up[id]` to the address of the
sender and `new_weight[id]` to `CEPH_OSD_IN` (0x10000), sets
`osd_weight[id] = sb.weight` exactly when `sb.weight` is not zero and erases
the id from `down_pending_out`, whose other entries stay. For an id that does
not exist it returns false and changes nothing. -/
theorem C14_boot_of_down_osd (s : OSDMonitor) (m : MOSDBoot)
    (hosd : m.orig_source_inst.name.is_osd = true) :
    (s.osdmap.osd_exists m.orig_source_inst.name.num = true →
      s.osdmap.is_up m.orig_source_inst.name.num = false →
      ∃ s2, s.prepare_boot m = Run.done (true, s2)
        ∧ s2.pending_inc.new_up
            = s.pending_inc.new_up.set m.orig_source_inst.name.num m.orig_source_inst.addr
        ∧ s2.pending_inc.new_weight
            = s.pending_inc.new_weight.set m.orig_source_inst.name.num 65536
        ∧ (m.sb.weight ≠ 0 →
            s2.osd_weight = s.osd_weight.set m.orig_source_inst.name.num m.sb.weight)
        ∧ (m.sb.weight = 0 → s2.osd_weight = s.osd_weight)
        ∧ s2.down_pending_out = s.down_pending_out.erase m.orig_source_inst.name.num
        ∧ s2.down_pending_out.contains m.orig_source_inst.name.num = false
        ∧ (∀ k, k ≠ m.orig_source_inst.name.num →
            s2.down_pending_out.get? k = s.down_pending_out.get? k))
    ∧ (s.osdmap.osd_exists m.orig_source_inst.name.num = false →
        s.prepare_boot m = Run.done (false, s)) := by
  constructor
  · intro hex hdown
    refine ⟨_, prepare_boot_of_down s m hosd hex hdown, rfl, rfl, ?_, ?_, rfl, ?_, ?_⟩
    · intro hw
      simp [hw]
    · intro hw
      simp [hw]
    · simp [StdMap.contains, StdMap.find_erase]
    · intro k hk
      simp [StdMap.get_erase, Ne.symm hk]
  · intro hex
    unfold OSDMonitor.prepare_boot
    simp [hosd, hex]

theorem C14_boot_of_down_osd_witness :
    ∃ s2, two_osd_monitor.prepare_boot boot_of_osd1_weight_7 = Run.done (true, s2)
      ∧ s2.pending_inc.new_up.entries = [(1, 101)]
      ∧ s2.pending_inc.new_weight.entries = [(1, 65536)]
      ∧ s2.osd_weight.entries = [(1, 7)] := by
  obtain ⟨s2, h1, h2, h3, h4, _⟩ :=
    (C14_boot_of_down_osd two_osd_monitor boot_of_osd1_weight_7 (by decide)).1
      (by decide) (by decide)
  refine ⟨s2, h1, ?_, ?_, ?_⟩
  · rw [h2]; decide
  · rw [h3]; decide
  · rw [h4 (by decide)]; decide

theorem clean_interval_candidate_first (info : osd_info_t) (sb : OSDSuperblock) :
    (clean_interval_candidate info sb).1 = sb.mounted := rfl

theorem clean_interval_candidate_last_ge (info : osd_info_t) (sb : OSDSuperblock) :
    sb.clean_thru ≤ (clean_interval_candidate info sb).2 := by
  unfold clean_interval_candidate
  dsimp only
  split_ifs with h
  · exact Nat.le_of_lt h.2
  · exact Nat.le_refl _

theorem pred_gt_iff_int (d c : Nat) (h : 1 ≤ d) :
    d - 1 > c ↔ (d : Int) - 1 > (c : Int) := by
  omega

theorem pred_cast_int (d : Nat) (h : 1 ≤ d) : ((d - 1 : Nat) : Int) = (d : Int) - 1 := by
  omega

theorem clean_interval_candidate_as_specified (info : osd_info_t) (sb : OSDSuperblock)
    (h1 : (1 : Nat) ≤ info.down_at) (h2 : (info.down_at : Nat) < 4294967296) :
    (((clean_interval_candidate info sb).1 : Int), ((clean_interval_candidate info sb).2 : Int))
      = clean_interval_as_specified info sb := by
  unfold clean_interval_candidate clean_interval_as_specified
  dsimp only
  rw [u32_pred info.down_at h1 h2]
  have h3 := pred_cast_int info.down_at h1
  have h4 := pred_gt_iff_int info.down_at sb.clean_thru h1
  by_cases hup : info.up_from = sb.mounted
  · by_cases hgt : info.down_at - 1 > sb.clean_thru
    · rw [if_pos ⟨hup, hgt⟩, if_pos ⟨hup, h4.mp hgt⟩, h3]
    · rw [if_neg (fun h => hgt h.2), if_neg (fun h => hgt (h4.mpr h.2))]
  · rw [if_neg (fun h => hup h.1), if_neg (fun h => hup h.1)]

/-- C15 at its failing input: osd1 exists and is down, its info record holds
zeros (`up_from = 0`, `down_at = 0`) and its superblock says mounted at 0,
clean through 5. The candidate passes the test, `info.up_from == first` holds
and `info.down_at-1` is 4294967295 as an `epoch_t`, which is greater than 5: the
pair recorded is (0, 4294967295), where the claim has (0, 5). -/
theorem C15_clean_interval_wraps_at_down_at_zero :
    (two_osd_monitor.osdmap.get_info 1).up_from = 0
    ∧ (two_osd_monitor.osdmap.get_info 1).down_at = 0
    ∧ two_osd_monitor.prepare_boot boot_clean_thru_5 = Run.done (true, booted_clean_thru_5)
    ∧ booted_clean_thru_5.pending_inc.new_last_clean_interval.entries
        = [(1, (0, 4294967295))]
    ∧ clean_interval_as_specified (two_osd_monitor.osdmap.get_info 1) boot_clean_thru_5.sb
        = (0, 5) := by
  refine ⟨by decide, by decide, by decide, by decide, by decide⟩

/-- C16 as stated fails: osd1 was clean over the epochs 3 to 5, came up at 3
and was marked down at 10; its superblock says (3, 5) again. The pair after the
stretch, (3, 9), advances the stored (3, 5), but the test is made on the pair
before the stretch and nothing is recorded. -/
theorem C16_stretched_interval_counterexample :
    ¬ (∀ (s : OSDMonitor) (m : MOSDBoot) (s2 : OSDMonitor),
        m.orig_source_inst.name.is_osd = true →
        s.osdmap.osd_exists m.orig_source_inst.name.num = true →
        s.osdmap.is_up m.orig_source_inst.name.num = false →
        s.prepare_boot m = Run.done (true, s2) →
        (s2.pending_inc.new_last_clean_interval.contains m.orig_source_inst.name.num = true ↔
          interval_advances
            (clean_interval_candidate (s.osdmap.get_info m.orig_source_inst.name.num) m.sb)
            ((s.osdmap.get_info m.orig_source_inst.name.num).last_clean_first,
             (s.osdmap.get_info m.orig_source_inst.name.num).last_clean_last))) := by
  intro h
  have h1 := (h stretch_monitor stretch_boot _ (by decide) (by decide) (by decide)
    (prepare_boot_of_down stretch_monitor stretch_boot (by decide) (by decide)
      (by decide))).mpr (by decide)
  revert h1
  decide

/-- C16, amended. For a boot of an OSD that exists and is down, `prepare_boot`
sets `new_last_clean_interval[id]` if and only if the candidate before the
stretch, `(sb.mounted, sb.clean_thru)`, advances the stored interval
`(info.last_clean_first, info.last_clean_last)`; the pair it sets is the
candidate after the stretch, which then advances the stored interval too.
Otherwise `new_last_clean_interval` is left as it was. -/
theorem C16_clean_interval_recorded (s : OSDMonitor) (m : MOSDBoot)
    (hosd : m.orig_source_inst.name.is_osd = true)
    (hex : s.osdmap.osd_exists m.orig_source_inst.name.num = true)
    (hdown : s.osdmap.is_up m.orig_source_inst.name.num = false) :
    ∃ s2, s.prepare_boot m = Run.done (true, s2)
      ∧ (interval_advances (m.sb.mounted, m.sb.clean_thru)
            ((s.osdmap.get_info m.orig_source_inst.name.num).last_clean_first,
             (s.osdmap.get_info m.orig_source_inst.name.num).last_clean_last) →
          s2.pending_inc.new_last_clean_interval
            = s.pending_inc.new_last_clean_interval.set m.orig_source_inst.name.num
                (clean_interval_candidate (s.osdmap.get_info m.orig_source_inst.name.num) m.sb)
          ∧ interval_advances
              (clean_interval_candidate (s.osdmap.get_info m.orig_source_inst.name.num) m.sb)
              ((s.osdmap.get_info m.orig_source_inst.name.num).last_clean_first,
               (s.osdmap.get_info m.orig_source_inst.name.num).last_clean_last))
      ∧ (¬ interval_advances (m.sb.mounted, m.sb.clean_thru)
            ((s.osdmap.get_info m.orig_source_inst.name.num).last_clean_first,
             (s.osdmap.get_info m.orig_source_inst.name.num).last_clean_last) →
          s2.pending_inc.new_last_clean_interval = s.pending_inc.new_last_clean_interval) := by
  refine ⟨_, prepare_boot_of_down s m hosd hex hdown, ?_, ?_⟩
  · intro hadv
    refine ⟨by simp only [if_pos hadv], ?_⟩
    have hge := clean_interval_candidate_last_ge
      (s.osdmap.get_info m.orig_source_inst.name.num) m.sb
    rcases hadv with h | ⟨h1, h2⟩
    · exact Or.inl h
    · exact Or.inr ⟨h1, Nat.lt_of_lt_of_le h2 hge⟩
  · intro hadv
    simp only [if_neg hadv]

theorem C16_clean_interval_recorded_witness :
    ∃ s2, stretch_monitor.prepare_boot boot_clean_4_to_6 = Run.done (true, s2)
      ∧ s2.pending_inc.new_last_clean_interval.entries = [(1, (4, 6))] := by
  obtain ⟨s2, h1, h2, _⟩ :=
    C16_clean_interval_recorded stretch_monitor boot_clean_4_to_6 (by decide) (by decide)
      (by decide)
  refine ⟨s2, h1, ?_⟩
  rw [(h2 (by decide)).1]
  decide

/-- C17 as stated fails: the superblock is taken as it is sent. With
`mounted = 10` and `clean_thru = 5` and an info record of zeros, the pair
written is (10, 5). -/
theorem C17_clean_interval_order_counterexample :
    ¬ (∀ (s : OSDMonitor) (m : MOSDBoot) (s2 : OSDMonitor) (first last : epoch_t),
        s.pending_inc.new_last_clean_interval = StdMap.empty →
        s.prepare_boot m = Run.done (true, s2) →
        s2.pending_inc.new_last_clean_interval.get? m.orig_source_inst.name.num
          = some (first, last) →
        first ≠ 0 → last ≠ 0 → first ≤ last) := by
  intro h
  have h1 := h two_osd_monitor boot_mounted_after_clean _ 10 5 (by decide)
    (prepare_boot_of_down two_osd_monitor boot_mounted_after_clean (by decide) (by decide)
      (by decide)) (by decide) (by decide) (by decide)
  revert h1
  decide

/-- C17, amended. Every pair `(first, last)` that `prepare_boot` writes into
`new_last_clean_interval` has `first = sb.mounted` and `last >= sb.clean_thru`;
so `first <= last` whenever the superblock has `mounted <= clean_thru`. -/
theorem C17_clean_interval_bounds (s : OSDMonitor) (m : MOSDBoot)
    (hosd : m.orig_source_inst.name.is_osd = true)
    (hex : s.osdmap.osd_exists m.orig_source_inst.name.num = true)
    (hdown : s.osdmap.is_up m.orig_source_inst.name.num = false)
    (hadv : interval_advances (m.sb.mounted, m.sb.clean_thru)
      ((s.osdmap.get_info m.orig_source_inst.name.num).last_clean_first,
       (s.osdmap.get_info m.orig_source_inst.name.num).last_clean_last)) :
    ∃ s2 first last, s.prepare_boot m = Run.done (true, s2)
      ∧ s2.pending_inc.new_last_clean_interval.get? m.orig_source_inst.name.num
          = some (first, last)
      ∧ first = m.sb.mounted
      ∧ m.sb.clean_thru ≤ last
      ∧ (m.sb.mounted ≤ m.sb.clean_thru → first ≤ last) := by
  have hge := clean_interval_candidate_last_ge
    (s.osdmap.get_info m.orig_source_inst.name.num) m.sb
  refine ⟨_, m.sb.mounted,
    (clean_interval_candidate (s.osdmap.get_info m.orig_source_inst.name.num) m.sb).2,
    prepare_boot_of_down s m hosd hex hdown, ?_, rfl, hge, fun h => Nat.le_trans h hge⟩
  simp only [if_pos hadv, StdMap.get_set, if_true]
  rfl

theorem C17_clean_interval_bounds_witness :
    ∃ s2 first last, stretch_monitor.prepare_boot boot_clean_4_to_6 = Run.done (true, s2)
      ∧ s2.pending_inc.new_last_clean_interval.get? 1 = some (first, last)
      ∧ first = 4 ∧ 6 ≤ last ∧ first ≤ last := by
  obtain ⟨s2, first, last, h1, h2, h3, h4, h5⟩ :=
    C17_clean_interval_bounds stretch_monitor boot_clean_4_to_6 (by decide) (by decide)
      (by decide) (by decide)
  exact ⟨s2, first, last, h1, h2, h3, h4, h5 (by decide)⟩

theorem snaps_all_removed_iff (pi : pg_pool_t) (snaps : List Nat) :
    snaps_all_removed pi snaps = true ↔
      ∀ p ∈ snaps, p ≤ pi.snap_seq ∧ p ∈ pi.removed_snaps := by
  induction snaps with
  | nil => simp [snaps_all_removed]
  | cons p rest ih =>
    unfold snaps_all_removed
    by_cases h : p ≤ pi.snap_seq ∧ p ∈ pi.removed_snaps
    · have hc : ¬ ((decide (p > pi.get_snap_seq) || !interval_set_contains pi.removed_snaps p)
          = true) := by
        simp [pg_pool_t.get_snap_seq, interval_set_contains, h.1, h.2]
      rw [if_neg hc, ih]
      simp [h.1, h.2]
    · have hc : (decide (p > pi.get_snap_seq) || !interval_set_contains pi.removed_snaps p)
          = true := by
        simp only [pg_pool_t.get_snap_seq, interval_set_contains, Bool.or_eq_true,
          decide_eq_true_eq, Bool.not_eq_true', decide_eq_false_iff_not]
        by_cases h1 : p ≤ pi.snap_seq
        · exact Or.inr (fun h2 => h ⟨h1, h2⟩)
        · exact Or.inl (Nat.lt_of_not_le h1)
      rw [if_pos hc]
      simp only [Bool.false_eq_true, false_iff]
      intro hall
      exact h (hall p (List.mem_cons_self _ _))

theorem preprocess_remove_snaps_loop_iff (osdmap : OSDMap) (entries : List (Int × List Nat)) :
    preprocess_remove_snaps_loop osdmap entries = true ↔
      ∀ q ∈ entries, osdmap.have_pg_pool q.1 = true →
        ∀ p ∈ q.2, p ≤ (osdmap.get_pg_pool q.1).snap_seq
          ∧ p ∈ (osdmap.get_pg_pool q.1).removed_snaps := by
  induction entries with
  | nil => simp [preprocess_remove_snaps_loop]
  | cons q rest ih =>
    unfold preprocess_remove_snaps_loop
    cases hp : osdmap.have_pg_pool q.1
    · simp only [Bool.not_false, if_true, ih, List.mem_cons, forall_eq_or_imp, hp,
        Bool.false_eq_true, false_implies, true_and]
    · simp only [Bool.not_true, Bool.false_eq_true, if_false, List.mem_cons, forall_eq_or_imp,
        hp, true_implies]
      cases hs : snaps_all_removed (osdmap.get_pg_pool q.1) q.2
      · simp only [Bool.not_false, if_true, Bool.false_eq_true, false_iff, not_and]
        intro hall
        rw [(snaps_all_removed_iff _ _).mpr hall] at hs
        exact Bool.noConfusion hs
      · simp only [Bool.not_true, Bool.false_eq_true, if_false, ih]
        exact ⟨fun h => ⟨(snaps_all_removed_iff _ _).mp hs, h⟩, fun h => h.2⟩

/-- C18. The function `preprocess_remove_snaps` consumes the message (returns
true) if and only if, for every pool of the message that the committed map
has, every snap named for it is at most the `snap_seq` of the pool and already
in its `removed_snaps`; a pool the map does not have is passed over. The
monitor, the pending increment included, is left as it was. -/
theorem C18_preprocess_remove_snaps (s : OSDMonitor) (m : MRemoveSnaps) :
    ((s.preprocess_remove_snaps m).1 = true ↔
      ∀ q ∈ m.snaps.entries, s.osdmap.have_pg_pool q.1 = true →
        ∀ p ∈ q.2, p ≤ (s.osdmap.get_pg_pool q.1).snap_seq
          ∧ p ∈ (s.osdmap.get_pg_pool q.1).removed_snaps)
    ∧ (s.preprocess_remove_snaps m).2 = s :=
  ⟨preprocess_remove_snaps_loop_iff s.osdmap m.snaps.entries, rfl⟩

theorem StdMap.count_eq_zero {K V : Type} [LinearOrder K] [DecidableEq K] (m : StdMap K V)
    (k : K) : m.count k = 0 ↔ m.get? k = none := by
  unfold StdMap.count StdMap.get?
  cases m.find k <;> simp

theorem StdMap.get_mem {K V : Type} [LinearOrder K] [DecidableEq K] (m : StdMap K V)
    (k : K) (v : V) (h : m.get? k = some v) : (k, v) ∈ m.entries := by
  unfold StdMap.get? at h
  cases hf : m.find k with
  | none => simp [hf] at h
  | some kv =>
    simp only [hf, Option.map_some', Option.some.injEq] at h
    have hk := StdMap.find_key m k kv hf
    unfold StdMap.find at hf
    have hmem := List.mem_of_find?_eq_some hf
    cases kv with
    | mk a b =>
      simp only at h hk
      rw [← h, ← hk]
      exact hmem

theorem pool_bump_eq (base : pg_pool_t) (q : Nat) (e : epoch_t) :
    (if q > ({ base with removed_snaps := interval_set_insert base.removed_snaps q }
          : pg_pool_t).get_snap_seq
      then ({ base with removed_snaps := interval_set_insert base.removed_snaps q }
          : pg_pool_t).set_snap_seq q
      else { base with removed_snaps := interval_set_insert base.removed_snaps q }).set_snap_epoch e
      = pool_with_snap_removed base q e := by
  unfold pool_with_snap_removed pg_pool_t.get_snap_seq pg_pool_t.set_snap_seq
    pg_pool_t.set_snap_epoch interval_set_insert
  by_cases h : q > base.snap_seq
  · rw [if_pos h]
    have hm : max base.snap_seq q = q := max_eq_right (Nat.le_of_lt h)
    rw [hm]
  · rw [if_neg h]
    have hm : max base.snap_seq q = base.snap_seq := max_eq_left (Nat.le_of_not_lt h)
    rw [hm]

theorem remove_snap_step_removed (pool : Int) (pi : pg_pool_t) (inc : Incremental) (q : Nat)
    (h : snap_removed pool pi inc q) : remove_snap_step pool pi inc q = inc := by
  unfold remove_snap_step
  have hc : ¬ ((!interval_set_contains pi.removed_snaps q &&
      (inc.new_pools.count pool == 0 ||
        !interval_set_contains
          (inc.new_pools.subscript pool pg_pool_t.init).removed_snaps q)) = true) := by
    rcases h with h | ⟨np, hnp, hq⟩
    · simp [interval_set_contains, h]
    · have hcount : ¬ inc.new_pools.count pool = 0 := by
        rw [StdMap.count_eq_zero, hnp]
        exact Option.noConfusion
      simp [interval_set_contains, StdMap.subscript, hnp, hq, hcount]
  rw [if_neg hc]

theorem remove_snap_step_new (pool : Int) (pi : pg_pool_t) (inc : Incremental) (q : Nat)
    (h : ¬ snap_removed pool pi inc q) :
    (∀ k, (remove_snap_step pool pi inc q).new_pools.get? k
      = if pool = k then
          some (pool_with_snap_removed (pool_to_change pool pi inc) q inc.epoch)
        else inc.new_pools.get? k)
    ∧ { remove_snap_step pool pi inc q with new_pools := inc.new_pools } = inc
    ∧ q ∉ (pool_to_change pool pi inc).removed_snaps := by
  have h1 : q ∉ pi.removed_snaps := fun hq => h (Or.inl hq)
  unfold remove_snap_step pool_to_change
  cases hg : inc.new_pools.get? pool with
  | none =>
    have hcount : inc.new_pools.count pool = 0 := (StdMap.count_eq_zero _ _).mpr hg
    have hc : (!interval_set_contains pi.removed_snaps q &&
      (inc.new_pools.count pool == 0 ||
        !interval_set_contains
          (inc.new_pools.subscript pool pg_pool_t.init).removed_snaps q)) = true := by
      simp [interval_set_contains, h1, hcount]
    rw [if_pos hc]
    simp only [hcount, if_true, Option.getD_none]
    have hsub : (inc.new_pools.set pool pi).subscript pool pg_pool_t.init = pi := by
      simp [StdMap.subscript, StdMap.get_set]
    rw [hsub, pool_bump_eq]
    refine ⟨?_, trivial, h1⟩
    intro k
    rw [StdMap.get_set, StdMap.get_set]
    by_cases hk : pool = k <;> simp [hk]
  | some np =>
    have h2 : q ∉ np.removed_snaps := fun hq => h (Or.inr ⟨np, hg, hq⟩)
    have hcount : ¬ inc.new_pools.count pool = 0 := by
      rw [StdMap.count_eq_zero, hg]
      exact Option.noConfusion
    have hsub : inc.new_pools.subscript pool pg_pool_t.init = np := by
      simp [StdMap.subscript, hg]
    have hc : (!interval_set_contains pi.removed_snaps q &&
      (inc.new_pools.count pool == 0 ||
        !interval_set_contains
          (inc.new_pools.subscript pool pg_pool_t.init).removed_snaps q)) = true := by
      simp [interval_set_contains, h1, hsub, h2]
    rw [if_pos hc]
    simp only [hcount, if_false, Option.getD_some]
    rw [hsub, pool_bump_eq]
    refine ⟨?_, trivial, h2⟩
    intro k
    rw [StdMap.get_set]

theorem pools_grow_refl (m : StdMap Int pg_pool_t) : pools_grow m m :=
  fun _ np h => ⟨np, h, fun _ hx => hx, Nat.le_refl _⟩

theorem pools_grow_trans (a b c : StdMap Int pg_pool_t) (h1 : pools_grow a b)
    (h2 : pools_grow b c) : pools_grow a c := by
  intro k np h
  obtain ⟨np2, hb, hsub, hseq⟩ := h1 k np h
  obtain ⟨np3, hc, hsub2, hseq2⟩ := h2 k np2 hb
  exact ⟨np3, hc, fun x hx => hsub2 x (hsub x hx), Nat.le_trans hseq hseq2⟩

theorem pool_to_change_cases (pool : Int) (pi : pg_pool_t) (inc : Incremental) :
    (inc.new_pools.get? pool = none ∧ pool_to_change pool pi inc = pi)
    ∨ (∃ np, inc.new_pools.get? pool = some np ∧ pool_to_change pool pi inc = np) := by
  unfold pool_to_change
  cases h : inc.new_pools.get? pool with
  | none => exact Or.inl ⟨rfl, rfl⟩
  | some np => exact Or.inr ⟨np, rfl, rfl⟩

theorem remove_snap_step_grows (pool : Int) (pi : pg_pool_t) (inc : Incremental) (q : Nat) :
    pools_grow inc.new_pools (remove_snap_step pool pi inc q).new_pools := by
  by_cases h : snap_removed pool pi inc q
  · rw [remove_snap_step_removed pool pi inc q h]
    exact pools_grow_refl _
  · obtain ⟨hget, _, _⟩ := remove_snap_step_new pool pi inc q h
    intro k np hk
    rw [hget k]
    by_cases hp : pool = k
    · subst hp
      rw [if_pos rfl]
      refine ⟨_, rfl, ?_, ?_⟩
      · intro x hx
        simp [pool_with_snap_removed, pool_to_change, hk, hx]
      · simp [pool_with_snap_removed, pool_to_change, hk]
    · rw [if_neg hp]
      exact ⟨np, hk, fun _ hx => hx, Nat.le_refl _⟩

theorem remove_snap_step_removes (pool : Int) (pi : pg_pool_t) (inc : Incremental) (q : Nat) :
    snap_removed pool pi (remove_snap_step pool pi inc q) q := by
  by_cases h : snap_removed pool pi inc q
  · rw [remove_snap_step_removed _ _ _ _ h]
    exact h
  · obtain ⟨hget, _, _⟩ := remove_snap_step_new pool pi inc q h
    refine Or.inr ⟨_, by rw [hget pool, if_pos rfl], ?_⟩
    simp [pool_with_snap_removed]

theorem snap_removed_of_grow (pool : Int) (pi : pg_pool_t) (inc inc2 : Incremental) (q : Nat)
    (h : snap_removed pool pi inc q) (hg : pools_grow inc.new_pools inc2.new_pools) :
    snap_removed pool pi inc2 q := by
  rcases h with h | ⟨np, hnp, hq⟩
  · exact Or.inl h
  · obtain ⟨np2, h2, hsub, _⟩ := hg pool np hnp
    exact Or.inr ⟨np2, h2, hsub q hq⟩

theorem remove_snaps_inner (pool : Int) (pi : pg_pool_t) :
    ∀ (qs : List Nat) (inc : Incremental),
      pools_grow inc.new_pools (qs.foldl (remove_snap_step pool pi) inc).new_pools
      ∧ ∀ q ∈ qs, snap_removed pool pi (qs.foldl (remove_snap_step pool pi) inc) q := by
  intro qs
  induction qs with
  | nil =>
    intro inc
    exact ⟨pools_grow_refl _, fun q hq => absurd hq (List.not_mem_nil q)⟩
  | cons q rest ih =>
    intro inc
    rw [List.foldl_cons]
    obtain ⟨hg, hall⟩ := ih (remove_snap_step pool pi inc q)
    refine ⟨pools_grow_trans _ _ _ (remove_snap_step_grows pool pi inc q) hg, ?_⟩
    intro x hx
    rcases List.mem_cons.mp hx with rfl | hx
    · exact snap_removed_of_grow pool pi _ _ x (remove_snap_step_removes pool pi inc x) hg
    · exact hall x hx

theorem pending_remove_snaps_removes (c : Int → pg_pool_t) :
    ∀ (entries : List (Int × List Nat)) (inc : Incremental),
      pools_grow inc.new_pools (pending_remove_snaps c inc entries).new_pools
      ∧ ∀ p ∈ entries, ∀ q ∈ p.2,
          snap_removed p.1 (c p.1) (pending_remove_snaps c inc entries) q := by
  intro entries
  induction entries with
  | nil =>
    intro inc
    exact ⟨pools_grow_refl _, fun p hp => absurd hp (List.not_mem_nil p)⟩
  | cons p rest ih =>
    intro inc
    unfold pending_remove_snaps
    rw [List.foldl_cons]
    obtain ⟨hg1, hall1⟩ := remove_snaps_inner p.1 (c p.1) p.2 inc
    obtain ⟨hg, hall⟩ := ih (p.2.foldl (remove_snap_step p.1 (c p.1)) inc)
    unfold pending_remove_snaps at hg hall
    refine ⟨pools_grow_trans _ _ _ hg1 hg, ?_⟩
    intro x hx q hq
    rcases List.mem_cons.mp hx with rfl | hx
    · exact snap_removed_of_grow _ _ _ _ q (hall1 q hq) hg
    · exact hall x hx q hq

theorem remove_snap_step_pools_pred (P : Int → pg_pool_t → Prop) (pool : Int) (pi : pg_pool_t)
    (inc : Incremental) (q : Nat)
    (h : ∀ k np, inc.new_pools.get? k = some np → P k np)
    (hnew : ¬ snap_removed pool pi inc q →
      P pool (pool_with_snap_removed (pool_to_change pool pi inc) q inc.epoch)) :
    ∀ k np, (remove_snap_step pool pi inc q).new_pools.get? k = some np → P k np := by
  by_cases hr : snap_removed pool pi inc q
  · rw [remove_snap_step_removed pool pi inc q hr]
    exact h
  · obtain ⟨hget, _, _⟩ := remove_snap_step_new pool pi inc q hr
    intro k np hk
    rw [hget k] at hk
    by_cases hp : pool = k
    · rw [if_pos hp, Option.some.injEq] at hk
      rw [← hk, ← hp]
      exact hnew hr
    · rw [if_neg hp] at hk
      exact h k np hk

theorem pending_remove_snaps_pred (P : Int → pg_pool_t → Prop) (c : Int → pg_pool_t)
    (hstep : ∀ (pool : Int) (inc : Incremental) (q : Nat),
      (∀ k np, inc.new_pools.get? k = some np → P k np) →
      ¬ snap_removed pool (c pool) inc q →
      P pool (pool_with_snap_removed (pool_to_change pool (c pool) inc) q inc.epoch)) :
    ∀ (entries : List (Int × List Nat)) (inc : Incremental),
      (∀ k np, inc.new_pools.get? k = some np → P k np) →
      ∀ k np, (pending_remove_snaps c inc entries).new_pools.get? k = some np → P k np := by
  have hinner : ∀ (pool : Int) (qs : List Nat) (inc : Incremental),
      (∀ k np, inc.new_pools.get? k = some np → P k np) →
      ∀ k np, (qs.foldl (remove_snap_step pool (c pool)) inc).new_pools.get? k = some np →
        P k np := by
    intro pool qs
    induction qs with
    | nil => intro inc h; exact h
    | cons q rest ih =>
      intro inc h
      rw [List.foldl_cons]
      exact ih _ (remove_snap_step_pools_pred P pool (c pool) inc q h (hstep pool inc q h))
  intro entries
  induction entries with
  | nil => intro inc h; exact h
  | cons p rest ih =>
    intro inc h
    unfold pending_remove_snaps
    rw [List.foldl_cons]
    exact ih _ (hinner p.1 p.2 inc h)

theorem remove_snaps_step_committed (s : OSDMonitor) (p : Int × List Nat) (k : Int) :
    (remove_snaps_step s p).osdmap.get_pg_pool k = s.osdmap.get_pg_pool k := by
  unfold remove_snaps_step OSDMap.get_pg_pool StdMap.subscript
  by_cases hcount : s.osdmap.pools.count p.1 = 0
  · have hnone := (StdMap.count_eq_zero _ _).mp hcount
    simp only [hcount, if_true, StdMap.get_set]
    by_cases hk : p.1 = k
    · rw [if_pos hk, ← hk, hnone]
      rfl
    · rw [if_neg hk]
  · simp only [hcount, if_false]

theorem remove_snaps_step_pending (s : OSDMonitor) (p : Int × List Nat) :
    (remove_snaps_step s p).pending_inc
      = p.2.foldl (remove_snap_step p.1 (s.osdmap.get_pg_pool p.1)) s.pending_inc := by
  have h := remove_snaps_step_committed s p p.1
  unfold remove_snaps_step OSDMap.get_pg_pool at h
  unfold remove_snaps_step
  simp only at h ⊢
  rw [h]
  rfl

theorem prepare_remove_snaps_fold :
    ∀ (entries : List (Int × List Nat)) (s : OSDMonitor),
      (entries.foldl remove_snaps_step s).pending_inc
        = pending_remove_snaps s.osdmap.get_pg_pool s.pending_inc entries
      ∧ ∀ k, (entries.foldl remove_snaps_step s).osdmap.get_pg_pool k
          = s.osdmap.get_pg_pool k := by
  intro entries
  induction entries with
  | nil => intro s; exact ⟨rfl, fun _ => rfl⟩
  | cons p rest ih =>
    intro s
    rw [List.foldl_cons]
    obtain ⟨h1, h2⟩ := ih (remove_snaps_step s p)
    have hc : (remove_snaps_step s p).osdmap.get_pg_pool = s.osdmap.get_pg_pool :=
      funext (remove_snaps_step_committed s p)
    refine ⟨?_, fun k => (h2 k).trans (remove_snaps_step_committed s p k)⟩
    rw [h1, hc, remove_snaps_step_pending]
    rfl

theorem StdMap.single_pred {K V : Type} [LinearOrder K] [DecidableEq K] (P : V → Prop)
    (k0 : K) (v : V) (h : P v) :
    ∀ k p, (StdMap.single k0 v).get? k = some p → P p := by
  intro k p hk
  have hmem : (k, p) ∈ [(k0, v)] := StdMap.get_mem _ k p hk
  rw [(Prod.mk.inj (List.mem_singleton.mp hmem)).2]
  exact h

theorem committed_pool_pred (P : pg_pool_t → Prop) (osdmap : OSDMap) (hinit : P pg_pool_t.init)
    (h : ∀ k p, osdmap.pools.get? k = some p → P p) (k : Int) : P (osdmap.get_pg_pool k) := by
  unfold OSDMap.get_pg_pool StdMap.subscript
  cases hg : osdmap.pools.get? k with
  | none => exact hinit
  | some p => exact h k p hg

/-- C19. The function `prepare_remove_snaps` returns true; the pending
increment it leaves is the one the two loops build with `remove_snap_step`
against the pools of the committed map, and in it every snap of the message is
in `removed_snaps` of the committed pool or of the pending copy of the pool. A
turn for a snap that was in neither puts the pool into the pending increment
(the pending copy if there is one, else a copy of the committed pool) with the
snap added to `removed_snaps`, `snap_seq` raised to `max(snap_seq, snap)` and
`snap_epoch = pending.epoch`, touches nothing else, and the snap was not in
the set it is put into; a turn for a snap that is already removed changes
nothing. If no committed or pending pool holds a snap twice, no pending pool
does afterwards. -/
theorem C19_prepare_remove_snaps (s : OSDMonitor) (m : MRemoveSnaps) :
    (s.prepare_remove_snaps m).1 = true
    ∧ (s.prepare_remove_snaps m).2.pending_inc
        = pending_remove_snaps s.osdmap.get_pg_pool s.pending_inc m.snaps.entries
    ∧ (∀ p ∈ m.snaps.entries, ∀ q ∈ p.2,
        snap_removed p.1 (s.osdmap.get_pg_pool p.1) (s.prepare_remove_snaps m).2.pending_inc q)
    ∧ (∀ (pool : Int) (pi : pg_pool_t) (inc : Incremental) (q : Nat),
        ¬ snap_removed pool pi inc q →
        (∀ k, (remove_snap_step pool pi inc q).new_pools.get? k
          = if pool = k then
              some (pool_with_snap_removed (pool_to_change pool pi inc) q inc.epoch)
            else inc.new_pools.get? k)
        ∧ { remove_snap_step pool pi inc q with new_pools := inc.new_pools } = inc
        ∧ q ∉ (pool_to_change pool pi inc).removed_snaps)
    ∧ (∀ (pool : Int) (pi : pg_pool_t) (inc : Incremental) (q : Nat),
        snap_removed pool pi inc q → remove_snap_step pool pi inc q = inc)
    ∧ ((∀ k p, s.osdmap.pools.get? k = some p → p.removed_snaps.Nodup) →
        (∀ k p, s.pending_inc.new_pools.get? k = some p → p.removed_snaps.Nodup) →
        ∀ k p, (s.prepare_remove_snaps m).2.pending_inc.new_pools.get? k = some p →
          p.removed_snaps.Nodup) := by
  have hfold := (prepare_remove_snaps_fold m.snaps.entries s).1
  have hpend : (s.prepare_remove_snaps m).2.pending_inc
      = pending_remove_snaps s.osdmap.get_pg_pool s.pending_inc m.snaps.entries := hfold
  refine ⟨rfl, hpend, ?_, remove_snap_step_new, remove_snap_step_removed, ?_⟩
  · rw [hpend]
    exact (pending_remove_snaps_removes s.osdmap.get_pg_pool m.snaps.entries s.pending_inc).2
  · intro hc hp
    rw [hpend]
    refine pending_remove_snaps_pred (fun _ np => np.removed_snaps.Nodup) s.osdmap.get_pg_pool
      ?_ m.snaps.entries s.pending_inc hp
    intro pool inc q hinc hnot
    have hq : q ∉ (pool_to_change pool (s.osdmap.get_pg_pool pool) inc).removed_snaps :=
      (remove_snap_step_new pool _ inc q hnot).2.2
    have hbase : (pool_to_change pool (s.osdmap.get_pg_pool pool) inc).removed_snaps.Nodup := by
      rcases pool_to_change_cases pool (s.osdmap.get_pg_pool pool) inc with ⟨_, h2⟩ | ⟨np, h1, h2⟩
      · rw [h2]
        exact committed_pool_pred (fun p => p.removed_snaps.Nodup) s.osdmap List.nodup_nil hc pool
      · rw [h2]
        exact hinc pool np h1
    show (pool_with_snap_removed _ q inc.epoch).removed_snaps.Nodup
    unfold pool_with_snap_removed
    simp only [List.nodup_append, hbase, List.nodup_singleton, true_and]
    intro x hx hy
    rw [List.mem_singleton.mp hy] at hx
    exact hq hx

/-- C20 as stated fails: the committed pool 1 has `snap_seq` 5, its copy in the
pending increment has `snap_seq` 0 and no removed snap; both satisfy
`removed_snaps ⊆ [0, snap_seq]`. After the removal of snap 3 of pool 1 the
pending copy has `snap_seq` 3, below the 5 of the committed pool. -/
theorem C20_snap_seq_counterexample :
    ¬ (∀ (s : OSDMonitor) (m : MRemoveSnaps),
        (∀ k p, s.osdmap.pools.get? k = some p → snaps_within p) →
        (∀ k p, s.pending_inc.new_pools.get? k = some p → snaps_within p) →
        (∀ k p, (s.prepare_remove_snaps m).2.pending_inc.new_pools.get? k = some p →
          snaps_within p)
        ∧ (∀ k p c, (s.prepare_remove_snaps m).2.pending_inc.new_pools.get? k = some p →
            (s.prepare_remove_snaps m).2.osdmap.pools.get? k = some c →
            c.snap_seq ≤ p.snap_seq)) := by
  intro h
  have h1 := h pool_monitor_low_pending (remove_of_pool1 [3])
    (StdMap.single_pred snaps_within 1 (pool_seq 5 [2, 4]) (by decide))
    (StdMap.single_pred snaps_within 1 (pool_seq 0 []) (by decide))
  have h3 := h1.2 1 { pool_seq 3 [3] with snap_epoch := 3 } (pool_seq 5 [2, 4]) (by decide)
    (by decide)
  revert h3
  decide

/-- C20, amended. If every pool of the committed map and of the pending
increment satisfies `removed_snaps ⊆ [0, snap_seq]`, then after
`prepare_remove_snaps` on any message every pool of the pending increment
still satisfies it. The pools of the pending increment only grow: a pool that
was pending is pending afterwards with at least the `snap_seq` it had. If
moreover every pending pool had a `snap_seq` at least that of the committed
pool with the same id, this holds afterwards too; the pools the committed map
had are the same afterwards. -/
theorem C20_snaps_within_preserved (s : OSDMonitor) (m : MRemoveSnaps)
    (hc : ∀ k p, s.osdmap.pools.get? k = some p → snaps_within p)
    (hp : ∀ k p, s.pending_inc.new_pools.get? k = some p → snaps_within p) :
    (∀ k p, (s.prepare_remove_snaps m).2.pending_inc.new_pools.get? k = some p →
      snaps_within p)
    ∧ pools_grow s.pending_inc.new_pools (s.prepare_remove_snaps m).2.pending_inc.new_pools
    ∧ (∀ k, (s.prepare_remove_snaps m).2.osdmap.get_pg_pool k = s.osdmap.get_pg_pool k)
    ∧ ((∀ k p, s.pending_inc.new_pools.get? k = some p →
          (s.osdmap.get_pg_pool k).snap_seq ≤ p.snap_seq) →
        ∀ k p, (s.prepare_remove_snaps m).2.pending_inc.new_pools.get? k = some p →
          ((s.prepare_remove_snaps m).2.osdmap.get_pg_pool k).snap_seq ≤ p.snap_seq) := by
  obtain ⟨hfold, hmap⟩ := prepare_remove_snaps_fold m.snaps.entries s
  have hpend : (s.prepare_remove_snaps m).2.pending_inc
      = pending_remove_snaps s.osdmap.get_pg_pool s.pending_inc m.snaps.entries := hfold
  have hmap2 : ∀ k, (s.prepare_remove_snaps m).2.osdmap.get_pg_pool k
      = s.osdmap.get_pg_pool k := hmap
  refine ⟨?_, ?_, hmap2, ?_⟩
  · rw [hpend]
    refine pending_remove_snaps_pred (fun _ np => snaps_within np) s.osdmap.get_pg_pool
      ?_ m.snaps.entries s.pending_inc hp
    intro pool inc q hinc _
    have hbase : snaps_within (pool_to_change pool (s.osdmap.get_pg_pool pool) inc) := by
      rcases pool_to_change_cases pool (s.osdmap.get_pg_pool pool) inc with ⟨_, h2⟩ | ⟨np, h1, h2⟩
      · rw [h2]
        exact committed_pool_pred snaps_within s.osdmap
          (fun x hx => absurd hx (List.not_mem_nil x)) hc pool
      · rw [h2]
        exact hinc pool np h1
    intro x hx
    unfold pool_with_snap_removed at hx ⊢
    simp only [List.mem_append, List.mem_singleton] at hx
    rcases hx with hx | hx
    · exact Nat.le_trans (hbase x hx) (le_max_left _ _)
    · rw [hx]
      exact le_max_right _ _
  · rw [hpend]
    exact (pending_remove_snaps_removes s.osdmap.get_pg_pool m.snaps.entries s.pending_inc).1
  · intro hseq k p hk
    rw [hmap2 k]
    rw [hpend] at hk
    refine pending_remove_snaps_pred
      (fun k np => (s.osdmap.get_pg_pool k).snap_seq ≤ np.snap_seq) s.osdmap.get_pg_pool
      ?_ m.snaps.entries s.pending_inc hseq k p hk
    intro pool inc q hinc _
    have hbase : (s.osdmap.get_pg_pool pool).snap_seq
        ≤ (pool_to_change pool (s.osdmap.get_pg_pool pool) inc).snap_seq := by
      rcases pool_to_change_cases pool (s.osdmap.get_pg_pool pool) inc with ⟨_, h2⟩ | ⟨np, h1, h2⟩
      · rw [h2]
      · rw [h2]
        exact hinc pool np h1
    exact Nat.le_trans hbase (le_max_left _ _)

theorem C20_snaps_within_preserved_witness :
    ∃ p, (pool_monitor.prepare_remove_snaps
        (remove_of_pool1 [2, 7, 3])).2.pending_inc.new_pools.get? 1 = some p
      ∧ p.removed_snaps = [2, 4, 7, 3] ∧ p.snap_seq = 7 ∧ snaps_within p :=
  ⟨{ pool_seq 7 [2, 4, 7, 3] with snap_epoch := 3 }, by decide, rfl, rfl,
    (C20_snaps_within_preserved pool_monitor (remove_of_pool1 [2, 7, 3])
      (StdMap.single_pred snaps_within 1 (pool_seq 5 [2, 4]) (by decide))
      (fun k p hk => absurd (StdMap.get_mem _ k p hk) (List.not_mem_nil _))).1 1 _
      (by decide)⟩

theorem snap_exists_ne_zero_iff (p : pg_pool_t) (name : String)
    (hid : ∀ e ∈ p.snaps.entries, e.2.snapid ≠ 0) :
    p.snap_exists name ≠ 0 ↔ ∃ e ∈ p.snaps.entries, e.2.name = name := by
  unfold pg_pool_t.snap_exists
  cases hf : p.snaps.entries.find? (fun e => decide (e.2.name = name)) with
  | none =>
    simp only [ne_eq, not_true_eq_false, false_iff, not_exists, not_and]
    intro e he hname
    have := List.find?_eq_none.mp hf e he
    simp [hname] at this
  | some e =>
    have hmem := List.mem_of_find?_eq_some hf
    have hname := List.find?_some hf
    simp only [ne_eq, hid e hmem, not_false_eq_true, true_iff]
    exact ⟨e, hmem, of_decide_eq_true hname⟩

theorem preprocess_pool_snap_known (s : OSDMonitor) (m : MPoolSnap) :
    (decide ((s.osdmap.get_pg_pool m.pool).snap_exists (c_str m.name) ≠ 0) ||
        (match (if s.pending_inc.new_pools.count m.pool ≠ 0 then
            some (s.pending_inc.new_pools.subscript m.pool pg_pool_t.init)
          else none : Option pg_pool_t) with
         | some pp => decide (pp.snap_exists (c_str m.name) ≠ 0)
         | none => false)) = true ↔ snap_name_known s m := by
  unfold snap_name_known
  cases hg : s.pending_inc.new_pools.get? m.pool with
  | none =>
    have hcount : s.pending_inc.new_pools.count m.pool = 0 := (StdMap.count_eq_zero _ _).mpr hg
    simp [hcount]
  | some pp =>
    have hcount : ¬ s.pending_inc.new_pools.count m.pool = 0 := by
      rw [StdMap.count_eq_zero, hg]
      exact Option.noConfusion
    simp [hcount, StdMap.subscript, hg]

/-- C21. The function `preprocess_pool_snap` replies -ENOENT and consumes the
message when the pool id is negative. Otherwise it replies -EEXIST and
consumes a create whose name is that of a snapshot of the committed pool or of
the pending copy of the pool, replies -ENOENT and consumes a delete whose name
is in neither, and hands every other message on (returns false and sends
nothing). The pending increment is never changed. The name is read as a C
string. -/
theorem C21_preprocess_pool_snap (s : OSDMonitor) (m : MPoolSnap) :
    (m.pool < 0 →
      s.preprocess_pool_snap m
        = (true, s.send (Sent.pool_snap_reply m.fsid m.tid (-2) s.pending_inc.epoch
            m.orig_source_inst)))
    ∧ (0 ≤ m.pool → m.create = true → snap_name_known s m →
        s.preprocess_pool_snap m
          = (true, s.send (Sent.pool_snap_reply m.fsid m.tid (-17) s.pending_inc.epoch
              m.orig_source_inst)))
    ∧ (0 ≤ m.pool → m.create = true → ¬ snap_name_known s m →
        s.preprocess_pool_snap m = (false, s))
    ∧ (0 ≤ m.pool → m.create = false → ¬ snap_name_known s m →
        s.preprocess_pool_snap m
          = (true, s.send (Sent.pool_snap_reply m.fsid m.tid (-2) s.pending_inc.epoch
              m.orig_source_inst)))
    ∧ (0 ≤ m.pool → m.create = false → snap_name_known s m →
        s.preprocess_pool_snap m = (false, s))
    ∧ (s.preprocess_pool_snap m).2.pending_inc = s.pending_inc := by
  have hk := preprocess_pool_snap_known s m
  unfold OSDMonitor.preprocess_pool_snap OSDMonitor._pool_snap
  dsimp only
  refine ⟨?_, ?_, ?_, ?_, ?_, ?_⟩
  · intro hneg
    rw [if_pos hneg]
    rfl
  · intro hpos hc hknown
    rw [if_neg (not_lt.mpr hpos), if_pos hc, if_pos (hk.mpr hknown)]
    rfl
  · intro hpos hc hknown
    rw [if_neg (not_lt.mpr hpos), if_pos hc, if_neg (fun h => hknown (hk.mp h))]
  · intro hpos hc hknown
    have hb : ¬ (m.create = true) := by simp [hc]
    rw [if_neg (not_lt.mpr hpos), if_neg hb]
    have hne : ¬ ((decide ((s.osdmap.get_pg_pool m.pool).snap_exists (c_str m.name) ≠ 0) ||
        (match (if s.pending_inc.new_pools.count m.pool ≠ 0 then
            some (s.pending_inc.new_pools.subscript m.pool pg_pool_t.init)
          else none : Option pg_pool_t) with
         | some pp => decide (pp.snap_exists (c_str m.name) ≠ 0)
         | none => false)) = true) := fun h => hknown (hk.mp h)
    rw [Bool.not_eq_true] at hne
    rw [hne]
    rfl
  · intro hpos hc hknown
    have hb : ¬ (m.create = true) := by simp [hc]
    rw [if_neg (not_lt.mpr hpos), if_neg hb, hk.mpr hknown]
    rfl
  · split_ifs <;> rfl

theorem prepare_pool_snap_create (s : OSDMonitor) (now : utime_t) (m : MPoolSnap)
    (hc : m.create = true) :
    (s.prepare_pool_snap now m).1 = true
    ∧ (s.prepare_pool_snap now m).2.pending_inc.new_pools.get? m.pool
        = some (((pool_to_change m.pool (s.osdmap.get_pg_pool m.pool) s.pending_inc).add_snap
            (c_str m.name) now).set_snap_epoch s.pending_inc.epoch) := by
  unfold OSDMonitor.prepare_pool_snap pool_to_change
  simp only [hc, if_true, OSDMonitor.wait_for_commit, StdMap.get_set, true_and]
  cases hg : s.pending_inc.new_pools.get? m.pool with
  | none =>
    have hcount : s.pending_inc.new_pools.count m.pool = 0 := (StdMap.count_eq_zero _ _).mpr hg
    simp [hcount, StdMap.subscript, StdMap.get_set]
  | some pp =>
    have hcount : ¬ s.pending_inc.new_pools.count m.pool = 0 := by
      rw [StdMap.count_eq_zero, hg]
      exact Option.noConfusion
    simp [hcount, StdMap.subscript, hg]

/-- C22 at its failing input: the committed pool 1 has the snapshot x and
`snap_epoch` 0, the pending increment has epoch 3 and no copy of the pool.
The delete of x is handed on by `preprocess_pool_snap`; `prepare_pool_snap`
copies the pool and removes the snapshot, but the `snap_epoch` of the pending
copy stays 0: only the create branch calls `set_snap_epoch` (a create of y
gives `snap_epoch` 3). The same delete sent once more in this epoch is handed
on again, since the committed pool still has x, and then `snap_exists` finds
no x in the pending copy: `remove_snap` is given 0, the id of no snapshot. -/
theorem C22_delete_leaves_snap_epoch :
    snap_monitor.preprocess_pool_snap delete_snap_x = (false, snap_monitor)
    ∧ snap_monitor.pending_inc.epoch = 3
    ∧ (snap_monitor.prepare_pool_snap ⟨9, 0⟩ delete_snap_x).2.pending_inc.new_pools.entries
        = [(1, { pool_with_snap_x with snaps := StdMap.empty })]
    ∧ Option.map pg_pool_t.snap_epoch
        ((snap_monitor.prepare_pool_snap ⟨9, 0⟩ delete_snap_x).2.pending_inc.new_pools.get? 1)
        = some 0
    ∧ Option.map pg_pool_t.snap_epoch
        ((snap_monitor.prepare_pool_snap ⟨9, 0⟩ create_snap_y).2.pending_inc.new_pools.get? 1)
        = some 3
    ∧ snap_monitor_deleted.preprocess_pool_snap delete_snap_x = (false, snap_monitor_deleted)
    ∧ (snap_monitor_deleted.pending_inc.new_pools.subscript 1 pg_pool_t.init).snap_exists "x" = 0
    ∧ (snap_monitor_deleted.pending_inc.new_pools.subscript 1 pg_pool_t.init).snaps.entries
        = [] := by
  refine ⟨by decide, by decide, by decide, by decide, by decide, by decide, by decide,
    by decide⟩

theorem MonitorStore.holds_of_not_inc_held (store : MonitorStore) (e : epoch_t)
    (h : store.holds e = true) (hn : store.inc_held e = false) :
    ∃ f bl, store.osdmap_full.get? e = some (f :: bl) := by
  unfold MonitorStore.holds at h
  unfold MonitorStore.inc_held at hn
  split at h
  · rename_i i bl h3
    rw [h3] at hn
    simp at hn
  · split at h
    · rename_i f bl h3
      exact ⟨f, bl, h3⟩
    · exact absurd h (by decide)

theorem MonitorStore.inc_held_get (store : MonitorStore) (e : epoch_t)
    (h : store.inc_held e = true) : ∃ i bl, store.osdmap.get? e = some (i :: bl) := by
  unfold MonitorStore.inc_held at h
  split at h
  · rename_i i bl h3
    exact ⟨i, bl, h3⟩
  · exact absurd h (by decide)

theorem send_incremental_loop_content (store : MonitorStore) (from_epoch : Nat)
    (hfrom : 1 ≤ from_epoch) :
    ∀ (turns : Nat) (e : Nat) (msg : MOSDMap), e < turns → e < 4294967296 →
      (∀ k, from_epoch ≤ k → k ≤ e → store.holds k = true) →
      ∃ msg2, OSDMonitor.send_incremental_loop store from_epoch turns e msg = Run.done msg2
        ∧ msg2.fsid = msg.fsid
        ∧ ∀ k : Nat,
            msg2.incremental_maps.get? k
              = (if from_epoch ≤ k ∧ k ≤ e ∧ store.inc_held k = true then store.osdmap.get? k
                 else msg.incremental_maps.get? k)
            ∧ msg2.maps.get? k
              = (if from_epoch ≤ k ∧ k ≤ e ∧ store.inc_held k = false then
                   store.osdmap_full.get? k
                 else msg.maps.get? k) := by
  intro turns
  induction turns with
  | zero => intro e msg h; omega
  | succ n ih =>
    intro e msg hlt hbound hstore
    unfold OSDMonitor.send_incremental_loop
    by_cases he : e ≥ from_epoch
    · rw [if_pos he]
      have hu : u32 ((e : Int) - 1) = e - 1 := u32_pred e (by omega) hbound
      have hh := hstore e he le_rfl
      rw [hu]
      cases hinc : store.inc_held e
      · obtain ⟨f, bl, hfull⟩ := MonitorStore.holds_of_not_inc_held store e hh hinc
        have hnot : ∀ i bl2, store.osdmap.get? e ≠ some (i :: bl2) := by
          intro i bl2 h3
          unfold MonitorStore.inc_held at hinc
          rw [h3] at hinc
          simp at hinc
        obtain ⟨msg2, hrun, hfsid, hcontent⟩ := ih (e - 1)
          { msg with maps := msg.maps.set e (f :: bl) } (by omega) (by omega)
          (fun k hk1 hk2 => hstore k hk1 (by omega))
        refine ⟨msg2, ?_, hfsid, ?_⟩
        · split
          · rename_i i bl2 h3
            exact absurd h3 (hnot i bl2)
          · rw [hfull]
            exact hrun
        · intro k
          obtain ⟨h1, h2⟩ := hcontent k
          rw [h1, h2]
          by_cases hk : k = e
          · subst hk
            have hgt : ¬ k ≤ k - 1 := by omega
            simp [hgt, hinc, he, StdMap.get_set, hfull]
          · have hle : k ≤ e - 1 ↔ k ≤ e := by omega
            have hne : ¬ e = k := fun h => hk h.symm
            simp [hle, StdMap.get_set, hne]
      · obtain ⟨i, bl, hget⟩ := MonitorStore.inc_held_get store e hinc
        obtain ⟨msg2, hrun, hfsid, hcontent⟩ := ih (e - 1)
          { msg with incremental_maps := msg.incremental_maps.set e (i :: bl) } (by omega)
          (by omega) (fun k hk1 hk2 => hstore k hk1 (by omega))
        refine ⟨msg2, ?_, hfsid, ?_⟩
        · rw [hget]
          exact hrun
        · intro k
          obtain ⟨h1, h2⟩ := hcontent k
          rw [h1, h2]
          by_cases hk : k = e
          · subst hk
            have hgt : ¬ k ≤ k - 1 := by omega
            simp [hgt, hinc, he, StdMap.get_set, hget]
          · have hle : k ≤ e - 1 ↔ k ≤ e := by omega
            have hne : ¬ e = k := fun h => hk h.symm
            simp [hle, StdMap.get_set, hne]
    · rw [if_neg he]
      refine ⟨msg, rfl, rfl, ?_⟩
      intro k
      have h1 : ¬ (from_epoch ≤ k ∧ k ≤ e ∧ store.inc_held k = true) := by
        intro h
        omega
      have h2 : ¬ (from_epoch ≤ k ∧ k ≤ e ∧ store.inc_held k = false) := by
        intro h
        omega
      rw [if_neg h1, if_neg h2]
      exact ⟨rfl, rfl⟩

theorem StdMap.get_empty {K V : Type} [LinearOrder K] [DecidableEq K] (k : K) :
    (StdMap.empty : StdMap K V).get? k = none := rfl

theorem incremental_message_spec (s : OSDMonitor) (dest : entity_inst_t) (from_epoch : Nat)
    (hfrom : 1 ≤ from_epoch) (hepoch : (s.osdmap.get_epoch : Nat) < 4294967296)
    (hstore : ∀ k : Nat, from_epoch ≤ k → k ≤ s.osdmap.get_epoch → s.store.holds k = true) :
    s.send_incremental dest from_epoch
      = Run.done (s.send (Sent.osd_map (s.incremental_message from_epoch) dest))
    ∧ (s.incremental_message from_epoch).fsid = s.fsid
    ∧ ∀ k : Nat,
        (s.incremental_message from_epoch).incremental_maps.get? k
          = (if from_epoch ≤ k ∧ k ≤ s.osdmap.get_epoch ∧ s.store.inc_held k = true then
               s.store.osdmap.get? k
             else none)
        ∧ (s.incremental_message from_epoch).maps.get? k
          = (if from_epoch ≤ k ∧ k ≤ s.osdmap.get_epoch ∧ s.store.inc_held k = false then
               s.store.osdmap_full.get? k
             else none) := by
  obtain ⟨msg, hrun, hfsid, hcontent⟩ := send_incremental_loop_content s.store from_epoch hfrom
    4294967297 s.osdmap.get_epoch ⟨s.fsid, StdMap.empty, StdMap.empty⟩
    (Nat.lt_trans hepoch (by decide)) hepoch hstore
  have hmsg : s.incremental_message from_epoch = msg := by
    unfold OSDMonitor.incremental_message
    rw [hrun]
  rw [hmsg]
  refine ⟨?_, hfsid, hcontent⟩
  unfold OSDMonitor.send_incremental
  simp only [hrun, Run.andThen]

/-- C23 as stated fails at `from = 0`: with the maps of the epochs 1 and 2 in
the store and the current epoch 2, the loop of `send_incremental` runs on to
epoch 0, for which the store need not hold anything, and stops at `assert(0)`.
With epoch 0 stored too, `e--` wraps to 2^32 - 1 and the run stops there. -/
theorem C23_send_incremental_from_zero_counterexample :
    ¬ (∀ (s : OSDMonitor) (dest : entity_inst_t) (from_epoch : epoch_t),
        from_epoch ≤ s.osdmap.get_epoch →
        (s.osdmap.get_epoch : Nat) < 4294967296 →
        (∀ k : Nat, 1 ≤ k → k ≤ s.osdmap.get_epoch → s.store.holds k = true) →
        ∃ s2, s.send_incremental dest from_epoch = Run.done s2)
    ∧ two_osd_monitor_stored.send_incremental ⟨entity_name_t.OSD 0, 100⟩ 0 = Run.aborted
    ∧ ({ two_osd_monitor with store := three_epoch_store } : OSDMonitor).send_incremental
        ⟨entity_name_t.OSD 0, 100⟩ 0 = Run.aborted := by
  have h0 : two_osd_monitor_stored.send_incremental ⟨entity_name_t.OSD 0, 100⟩ 0
      = Run.aborted := by decide
  refine ⟨?_, h0, by decide⟩
  intro h
  obtain ⟨s2, h2⟩ := h two_osd_monitor_stored ⟨entity_name_t.OSD 0, 100⟩ 0 (Nat.zero_le _)
    (by decide) (by
      intro k h1 h2
      have h4 : k ≤ 2 := h2
      interval_cases k <;> decide)
  rw [h0] at h2
  exact Run.noConfusion h2

/-- C23, amended. For every destination and every epoch `from >= 1`, if the
store holds an increment or a full map at every epoch from 1 to the current
epoch, `send_incremental(dest, from)` ends without reaching its `assert(0)` and
sends one message to the destination. -/
theorem C23_send_incremental_terminates (s : OSDMonitor) (dest : entity_inst_t)
    (from_epoch : Nat) (hfrom : 1 ≤ from_epoch)
    (hepoch : (s.osdmap.get_epoch : Nat) < 4294967296)
    (hstore : ∀ k : Nat, 1 ≤ k → k ≤ s.osdmap.get_epoch → s.store.holds k = true) :
    ∃ msg, s.send_incremental dest from_epoch = Run.done (s.send (Sent.osd_map msg dest)) :=
  send_incremental_done s dest from_epoch hfrom hepoch
    (fun k hk1 hk2 => hstore k (Nat.le_trans hfrom hk1) hk2)

theorem C23_send_incremental_terminates_witness :
    ∃ msg, two_osd_monitor_stored.send_incremental ⟨entity_name_t.OSD 0, 100⟩ 1
      = Run.done (two_osd_monitor_stored.send (Sent.osd_map msg ⟨entity_name_t.OSD 0, 100⟩)) :=
  C23_send_incremental_terminates two_osd_monitor_stored ⟨entity_name_t.OSD 0, 100⟩ 1
    (Nat.le_refl 1) (by decide) (by
      intro k h1 h2
      have h4 : k ≤ 2 := h2
      interval_cases k <;> decide)

/-- C24. For `from >= 1` and a store that holds an increment or a full map at
every epoch from `from` to the current epoch, `send_incremental` sends one
message; for every epoch of that range the message has exactly one entry, the
stored increment when the store holds one (also when it holds a full map of
the epoch as well), else the stored full map; it has no entry for any other
epoch. For `from` above the current epoch the message has no map at all. -/
theorem C24_send_incremental_message (s : OSDMonitor) (dest : entity_inst_t)
    (from_epoch : Nat) (hfrom : 1 ≤ from_epoch)
    (hepoch : (s.osdmap.get_epoch : Nat) < 4294967296)
    (hstore : ∀ k : Nat, from_epoch ≤ k → k ≤ s.osdmap.get_epoch → s.store.holds k = true) :
    s.send_incremental dest from_epoch
      = Run.done (s.send (Sent.osd_map (s.incremental_message from_epoch) dest))
    ∧ (s.incremental_message from_epoch).fsid = s.fsid
    ∧ (∀ e : Nat, from_epoch ≤ e → e ≤ s.osdmap.get_epoch → s.store.inc_held e = true →
        (s.incremental_message from_epoch).incremental_maps.get? e = s.store.osdmap.get? e
        ∧ (∃ i bl, s.store.osdmap.get? e = some (i :: bl))
        ∧ (s.incremental_message from_epoch).maps.get? e = none)
    ∧ (∀ e : Nat, from_epoch ≤ e → e ≤ s.osdmap.get_epoch → s.store.inc_held e = false →
        (s.incremental_message from_epoch).maps.get? e = s.store.osdmap_full.get? e
        ∧ (∃ f bl, s.store.osdmap_full.get? e = some (f :: bl))
        ∧ (s.incremental_message from_epoch).incremental_maps.get? e = none)
    ∧ (∀ e : Nat, ¬ (from_epoch ≤ e ∧ e ≤ s.osdmap.get_epoch) →
        (s.incremental_message from_epoch).incremental_maps.get? e = none
        ∧ (s.incremental_message from_epoch).maps.get? e = none)
    ∧ (s.osdmap.get_epoch < from_epoch → ∀ e : Nat,
        (s.incremental_message from_epoch).incremental_maps.get? e = none
        ∧ (s.incremental_message from_epoch).maps.get? e = none) := by
  obtain ⟨hsend, hfsid, hcontent⟩ := incremental_message_spec s dest from_epoch hfrom hepoch hstore
  refine ⟨hsend, hfsid, ?_, ?_, ?_, ?_⟩
  · intro e h1 h2 h3
    obtain ⟨ha, hb⟩ := hcontent e
    rw [ha, hb, if_pos ⟨h1, h2, h3⟩]
    refine ⟨rfl, MonitorStore.inc_held_get s.store e h3, ?_⟩
    rw [if_neg]
    intro h
    rw [h3] at h
    exact Bool.noConfusion h.2.2
  · intro e h1 h2 h3
    obtain ⟨ha, hb⟩ := hcontent e
    rw [ha, hb, if_pos ⟨h1, h2, h3⟩]
    refine ⟨rfl, MonitorStore.holds_of_not_inc_held s.store e (hstore e h1 h2) h3, ?_⟩
    rw [if_neg]
    intro h
    rw [h3] at h
    exact Bool.noConfusion h.2.2
  · intro e hne
    obtain ⟨ha, hb⟩ := hcontent e
    rw [ha, hb, if_neg (fun h => hne ⟨h.1, h.2.1⟩), if_neg (fun h => hne ⟨h.1, h.2.1⟩)]
    exact ⟨rfl, rfl⟩
  · intro hgt e
    obtain ⟨ha, hb⟩ := hcontent e
    have hne : ¬ (from_epoch ≤ e ∧ e ≤ s.osdmap.get_epoch) := by
      intro h
      have h1 : from_epoch ≤ s.osdmap.get_epoch := Nat.le_trans h.1 h.2
      exact absurd hgt (Nat.not_lt.mpr h1)
    rw [ha, hb, if_neg (fun h => hne ⟨h.1, h.2.1⟩), if_neg (fun h => hne ⟨h.1, h.2.1⟩)]
    exact ⟨rfl, rfl⟩

theorem C24_send_incremental_message_witness :
    ({ two_osd_monitor with store := mixed_store } : OSDMonitor).send_incremental
        ⟨entity_name_t.OSD 0, 100⟩ 1
      = Run.done (({ two_osd_monitor with store := mixed_store } : OSDMonitor).send
          (Sent.osd_map
            ⟨0, StdMap.empty,
              (StdMap.single 1 [Incremental.init 1]).set 2 [Incremental.init 2]⟩
            ⟨entity_name_t.OSD 0, 100⟩)) :=
  (C24_send_incremental_message { two_osd_monitor with store := mixed_store }
    ⟨entity_name_t.OSD 0, 100⟩ 1 (Nat.le_refl 1) (by decide) (by
      intro k h1 h2
      have h4 : k ≤ 2 := h2
      interval_cases k <;> decide)).1.trans (by decide)

theorem StdMap.mem_get {K V : Type} [LinearOrder K] [DecidableEq K] (m : StdMap K V)
    (k : K) (v : V) (h : (k, v) ∈ m.entries) : m.get? k = some v := by
  unfold StdMap.get? StdMap.find
  have hsorted := m.sorted
  revert h hsorted
  induction m.entries with
  | nil => intro h; exact absurd h (List.not_mem_nil _)
  | cons kv rest ih =>
    intro h hsorted
    have hhead := (List.pairwise_cons.mp hsorted).1
    have hrest := (List.pairwise_cons.mp hsorted).2
    by_cases hk : kv.1 = k
    · rcases List.mem_cons.mp h with h1 | h1
      · simp [List.find?_cons, hk, ← h1]
      · have hlt := hhead (k, v) h1
        rw [hk] at hlt
        exact absurd hlt (lt_irrefl _)
    · rcases List.mem_cons.mp h with h1 | h1
      · exact absurd (congrArg Prod.fst h1).symm hk
      · simp only [List.find?_cons, hk, decide_False]
        exact ih h1 hrest

theorem StdMap.erase_fold_entries {K V : Type} [LinearOrder K] [DecidableEq K] :
    ∀ (l : List (K × V)) (w : StdMap K V),
      (l.foldl (fun w i => w.erase i.1) w).entries
        = w.entries.filter (fun kv => !(l.any (fun i => decide (i.1 = kv.1)))) := by
  intro l
  induction l with
  | nil => intro w; simp
  | cons i rest ih =>
    intro w
    rw [List.foldl_cons, ih]
    unfold StdMap.erase
    simp only [List.filter_filter]
    apply List.filter_congr
    intro kv _
    simp only [List.any_cons, Bool.not_or]
    rw [Bool.and_comm]
    congr 2
    exact decide_eq_decide.mpr ⟨fun h => h.symm, fun h => h.symm⟩

theorem StdMap.erase_served_entries {K V : Type} [LinearOrder K] [DecidableEq K]
    (w : StdMap K V) (p : K × V → Bool) :
    ((w.entries.filter p).foldl (fun w i => w.erase i.1) w).entries
      = w.entries.filter (fun kv => !p kv) := by
  rw [StdMap.erase_fold_entries]
  apply List.filter_congr
  intro kv hkv
  congr 1
  cases hp : p kv
  · rw [List.any_eq_false]
    intro i hi
    have hmem := (List.mem_filter.mp hi).1
    have hpi := (List.mem_filter.mp hi).2
    simp only [decide_eq_true_eq]
    intro hkey
    have h1 := StdMap.mem_get w i.1 i.2 hmem
    have h2 := StdMap.mem_get w kv.1 kv.2 hkv
    rw [hkey, h2] at h1
    have hv : kv.2 = i.2 := Option.some.inj h1
    have heq : i = kv := Prod.ext hkey hv.symm
    rw [heq, hp] at hpi
    exact Bool.noConfusion hpi
  · rw [List.any_eq_true]
    exact ⟨kv, List.mem_filter.mpr ⟨hkv, hp⟩, by simp⟩

theorem incremental_message_congr (s s0 : OSDMonitor) (h1 : s.osdmap = s0.osdmap)
    (h2 : s.store = s0.store) (h3 : s.fsid = s0.fsid) (from_epoch : epoch_t) :
    s.incremental_message from_epoch = s0.incremental_message from_epoch := by
  unfold OSDMonitor.incremental_message
  rw [h1, h2, h3]

theorem send_to_waiting_step_done (s0 s : OSDMonitor) (i : entity_inst_t × epoch_t)
    (hepoch : (s0.osdmap.get_epoch : Nat) < 4294967296)
    (hstore : ∀ k : Nat, 1 ≤ k → k ≤ s0.osdmap.get_epoch → s0.store.holds k = true)
    (h1 : s.osdmap = s0.osdmap) (h2 : s.store = s0.store) (h3 : s.fsid = s0.fsid) :
    OSDMonitor.send_to_waiting_step (Run.done s) i
      = Run.done (if i.2 ≤ s0.osdmap.get_epoch then
          { s with sent := s.sent ++ [s0.served i],
                   waiting_for_map := s.waiting_for_map.erase i.1 }
        else s) := by
  unfold OSDMonitor.send_to_waiting_step
  simp only [Run.andThen]
  by_cases h0 : i.2 = 0
  · have hle : i.2 ≤ s0.osdmap.get_epoch := by
      rw [h0]
      exact Nat.zero_le _
    have hn : ¬ (i.2 ≠ 0) := fun h => h h0
    rw [if_neg hn, if_pos hle]
    unfold OSDMonitor.served OSDMonitor.send_full OSDMonitor.send
    rw [if_pos h0, h1, h3]
  · have hn : i.2 ≠ 0 := h0
    rw [if_pos hn]
    by_cases hle : i.2 ≤ s0.osdmap.get_epoch
    · have hle2 : i.2 ≤ s.osdmap.get_epoch := by
        rw [h1]
        exact hle
      rw [if_pos hle, if_pos hle2]
      have hpos : 1 ≤ (i.2 : Nat) := Nat.pos_of_ne_zero h0
      obtain ⟨hsend, _, _⟩ := incremental_message_spec s i.1 i.2 hpos
        (by rw [h1]; exact hepoch)
        (fun k hk1 hk2 => by
          rw [h2]
          exact hstore k (Nat.le_trans hpos hk1) (by rw [← h1]; exact hk2))
      rw [hsend]
      simp only [Run.andThen]
      unfold OSDMonitor.served OSDMonitor.send
      rw [if_neg h0, incremental_message_congr s s0 h1 h2 h3]
    · have hle2 : ¬ i.2 ≤ s.osdmap.get_epoch := by
        rw [h1]
        exact hle
      rw [if_neg hle, if_neg hle2]

theorem send_to_waiting_fold (s0 : OSDMonitor)
    (hepoch : (s0.osdmap.get_epoch : Nat) < 4294967296)
    (hstore : ∀ k : Nat, 1 ≤ k → k ≤ s0.osdmap.get_epoch → s0.store.holds k = true) :
    ∀ (l : List (entity_inst_t × epoch_t)) (s : OSDMonitor),
      s.osdmap = s0.osdmap → s.store = s0.store → s.fsid = s0.fsid →
      l.foldl OSDMonitor.send_to_waiting_step (Run.done s)
        = Run.done { s with
            sent := s.sent
              ++ (l.filter (fun i => decide (i.2 ≤ s0.osdmap.get_epoch))).map s0.served,
            waiting_for_map :=
              (l.filter (fun i => decide (i.2 ≤ s0.osdmap.get_epoch))).foldl
                (fun w i => w.erase i.1) s.waiting_for_map } := by
  intro l
  induction l with
  | nil =>
    intro s _ _ _
    simp
  | cons i rest ih =>
    intro s h1 h2 h3
    rw [List.foldl_cons, send_to_waiting_step_done s0 s i hepoch hstore h1 h2 h3]
    by_cases hle : i.2 ≤ s0.osdmap.get_epoch
    · rw [if_pos hle, ih { s with sent := s.sent ++ [s0.served i],
                                  waiting_for_map := s.waiting_for_map.erase i.1 } h1 h2 h3]
      simp [List.filter_cons, hle, List.append_assoc]
    · rw [if_neg hle, ih s h1 h2 h3]
      simp [List.filter_cons, hle]

theorem send_to_waiting_done (s : OSDMonitor)
    (hepoch : (s.osdmap.get_epoch : Nat) < 4294967296)
    (hstore : ∀ k : Nat, 1 ≤ k → k ≤ s.osdmap.get_epoch → s.store.holds k = true) :
    s.send_to_waiting
      = Run.done { s with
          sent := s.sent
            ++ (s.waiting_for_map.entries.filter
                (fun i => decide (i.2 ≤ s.osdmap.get_epoch))).map s.served,
          waiting_for_map :=
            (s.waiting_for_map.entries.filter
                (fun i => decide (i.2 ≤ s.osdmap.get_epoch))).foldl
              (fun w i => w.erase i.1) s.waiting_for_map } :=
  send_to_waiting_fold s hepoch hstore s.waiting_for_map.entries s rfl rfl rfl

/-- C25. With a store that holds an increment or a full map at every epoch from
1 to the current one: `send_latest(who, start)` sends at once when the log is
readable, the full map for `start == 0` and else the incremental from `start`,
and otherwise only sets `waiting_for_map[who] = start`. After
`send_to_waiting` the entries of `waiting_for_map` are the entries it had whose
epoch is above the current one, as they were; for every other entry one
message was sent, in the order of the entries: the full map when the epoch
asked for is 0, else the incremental from that epoch. Nothing else changes. -/
theorem C25_send_latest_and_waiting (s : OSDMonitor)
    (hepoch : (s.osdmap.get_epoch : Nat) < 4294967296)
    (hstore : ∀ k : Nat, 1 ≤ k → k ≤ s.osdmap.get_epoch → s.store.holds k = true) :
    (∀ who, s.paxos.readable = true → s.send_latest who 0 = Run.done (s.send_full who))
    ∧ (∀ who (start : Nat), s.paxos.readable = true → 1 ≤ start →
        s.send_latest who start
          = Run.done (s.send (Sent.osd_map (s.incremental_message start) who)))
    ∧ (∀ who start, s.paxos.readable = false →
        s.send_latest who start
          = Run.done { s with waiting_for_map := s.waiting_for_map.set who start })
    ∧ ∃ s2, s.send_to_waiting = Run.done s2
        ∧ s2.waiting_for_map.entries
            = s.waiting_for_map.entries.filter (fun i => decide (i.2 > s.osdmap.get_epoch))
        ∧ s2.sent = s.sent
            ++ (s.waiting_for_map.entries.filter
                (fun i => !decide (i.2 > s.osdmap.get_epoch))).map s.served
        ∧ s2 = { s with sent := s2.sent, waiting_for_map := s2.waiting_for_map } := by
  refine ⟨?_, ?_, ?_, ?_⟩
  · intro who hr
    unfold OSDMonitor.send_latest
    simp [hr]
  · intro who start hr hstart
    unfold OSDMonitor.send_latest
    have hne : ¬ start = 0 := Nat.pos_iff_ne_zero.mp hstart
    rw [if_pos hr, if_neg hne]
    exact (incremental_message_spec s who start hstart hepoch
      (fun k hk1 hk2 => hstore k (Nat.le_trans hstart hk1) hk2)).1
  · intro who start hr
    unfold OSDMonitor.send_latest
    simp [hr]
  · have hfilter : (fun i : entity_inst_t × epoch_t => decide (i.2 ≤ s.osdmap.get_epoch))
        = (fun i => !decide (i.2 > s.osdmap.get_epoch)) := by
      funext i
      by_cases h : i.2 ≤ s.osdmap.get_epoch
      · simp [h, Nat.not_lt.mpr h]
      · simp [h, Nat.lt_of_not_le h]
    refine ⟨_, send_to_waiting_done s hepoch hstore, ?_, ?_, rfl⟩
    · simp only
      rw [hfilter, StdMap.erase_served_entries]
      apply List.filter_congr
      intro i _
      simp
    · simp only
      rw [hfilter]

theorem C25_send_latest_and_waiting_witness :
    ∃ s2, waiting_monitor.send_to_waiting = Run.done s2
      ∧ s2.waiting_for_map.entries = [(⟨⟨8, 0⟩, 7⟩, 5)]
      ∧ s2.sent
          = [waiting_monitor.served (⟨entity_name_t.OSD 0, 100⟩, 0),
             waiting_monitor.served (⟨entity_name_t.OSD 1, 101⟩, 2)] := by
  obtain ⟨s2, h1, h2, h3, _⟩ :=
    (C25_send_latest_and_waiting waiting_monitor (by decide) (by
      intro k h1 h2
      have h4 : k ≤ 2 := h2
      interval_cases k <;> decide)).2.2.2
  refine ⟨s2, h1, ?_, ?_⟩
  · rw [h2]
    decide
  · rw [h3]
    decide

theorem StdMap.any_key {K V : Type} [LinearOrder K] [DecidableEq K] (m : StdMap K V)
    (k : K) (v : V) (p : K × V → Bool) (h : m.get? k = some v) :
    m.entries.any (fun i => decide (i.1 = k) && p i) = p (k, v) := by
  have hmem := StdMap.get_mem m k v h
  cases hp : p (k, v) with
  | true =>
    rw [List.any_eq_true]
    exact ⟨(k, v), hmem, by simp [hp]⟩
  | false =>
    rw [List.any_eq_false]
    intro i hi
    by_cases hk : i.1 = k
    · have hget : m.get? i.1 = some i.2 := StdMap.mem_get m i.1 i.2 hi
      rw [hk, h] at hget
      have hiv : i = (k, v) := Prod.ext hk (Option.some.inj hget).symm
      rw [hiv, hp]
      simp
    · simp [hk]

theorem tick_down_fold_weight (osdmap : OSDMap) (now : utime_t) (interval : Int) (o : Int)
    (entries : List (Int × utime_t)) :
    ∀ st : Incremental × StdMap Int utime_t × Bool,
      (entries.foldl (OSDMonitor.tick_down_step osdmap now interval) st).1.new_weight.get? o
        = if entries.any (fun i => decide (i.1 = o)
              && ((osdmap.is_down i.1 && osdmap.is_in i.1)
                && decide ((now.sub i.2).sec ≥ interval))) = true
          then some CEPH_OSD_OUT else st.1.new_weight.get? o := by
  induction entries with
  | nil => intro st; simp
  | cons e rest ih =>
    intro st
    rw [List.foldl_cons, ih, List.any_cons]
    unfold OSDMonitor.tick_down_step
    dsimp only
    cases hA : (osdmap.is_down e.1 && osdmap.is_in e.1) <;>
    by_cases h2 : (now.sub e.2).sec ≥ interval <;>
    by_cases h3 : e.1 = o <;>
    simp only [h2, h3, decide_True, decide_False, Bool.true_and, Bool.and_true, Bool.false_and,
      Bool.and_false, Bool.true_or, Bool.false_or, if_true, if_false, ite_self, StdMap.get_set,
      StdMap.get_erase, Bool.false_eq_true, Bool.not_true, Bool.not_false, Bool.or_false,
      Bool.or_true]

theorem tick_down_fold_watch (osdmap : OSDMap) (now : utime_t) (interval : Int) (o : Int)
    (entries : List (Int × utime_t)) :
    ∀ st : Incremental × StdMap Int utime_t × Bool,
      (entries.foldl (OSDMonitor.tick_down_step osdmap now interval) st).2.1.get? o
        = if entries.any (fun i => decide (i.1 = o)
              && !((osdmap.is_down i.1 && osdmap.is_in i.1)
                && !decide ((now.sub i.2).sec ≥ interval))) = true
          then none else st.2.1.get? o := by
  induction entries with
  | nil => intro st; simp
  | cons e rest ih =>
    intro st
    rw [List.foldl_cons, ih, List.any_cons]
    unfold OSDMonitor.tick_down_step
    dsimp only
    cases hA : (osdmap.is_down e.1 && osdmap.is_in e.1) <;>
    by_cases h2 : (now.sub e.2).sec ≥ interval <;>
    by_cases h3 : e.1 = o <;>
    simp only [h2, h3, decide_True, decide_False, Bool.true_and, Bool.and_true, Bool.false_and,
      Bool.and_false, Bool.true_or, Bool.false_or, if_true, if_false, ite_self, StdMap.get_set,
      StdMap.get_erase, Bool.false_eq_true, Bool.not_true, Bool.not_false, Bool.or_false,
      Bool.or_true]

theorem tick_down_fold_propose (osdmap : OSDMap) (now : utime_t) (interval : Int)
    (entries : List (Int × utime_t)) :
    ∀ st : Incremental × StdMap Int utime_t × Bool,
      (entries.foldl (OSDMonitor.tick_down_step osdmap now interval) st).2.2
        = (st.2.2 || entries.any (fun i => (osdmap.is_down i.1 && osdmap.is_in i.1)
                && decide ((now.sub i.2).sec ≥ interval))) := by
  induction entries with
  | nil => intro st; simp
  | cons e rest ih =>
    intro st
    rw [List.foldl_cons, ih, List.any_cons]
    unfold OSDMonitor.tick_down_step
    dsimp only
    cases hA : (osdmap.is_down e.1 && osdmap.is_in e.1) <;>
    by_cases h2 : (now.sub e.2).sec ≥ interval <;>
    simp only [h2, decide_True, decide_False, Bool.true_and, Bool.and_true, Bool.false_and,
      Bool.and_false, Bool.true_or, Bool.false_or, if_true, if_false, ite_self, StdMap.get_set,
      StdMap.get_erase, Bool.false_eq_true, Bool.not_true, Bool.not_false, Bool.or_false,
      Bool.or_true]

theorem tick_blacklist_fold_weight (now : utime_t) (entries : List (entity_addr_t × utime_t)) :
    ∀ st : Incremental × Bool,
      (entries.foldl (OSDMonitor.tick_blacklist_step now) st).1.new_weight = st.1.new_weight
      ∧ (st.2 = true → (entries.foldl (OSDMonitor.tick_blacklist_step now) st).2 = true) := by
  induction entries with
  | nil => intro st; exact ⟨rfl, fun h => h⟩
  | cons e rest ih =>
    intro st
    rw [List.foldl_cons]
    obtain ⟨h1, h2⟩ := ih (OSDMonitor.tick_blacklist_step now st e)
    rw [h1]
    refine ⟨?_, fun h => h2 ?_⟩
    · unfold OSDMonitor.tick_blacklist_step
      split_ifs <;> rfl
    · unfold OSDMonitor.tick_blacklist_step
      split_ifs
      · rfl
      · exact h

theorem should_propose_full_map
    (adjust_osd_weights : OSDMap → StdMap Int Nat → Incremental → Incremental)
    (paxos_should_propose : OSDMonitor → ℚ → Bool × ℚ) (s : OSDMonitor) (delay : ℚ)
    (h : s.pending_inc.fullmap ≠ []) :
    s.should_propose adjust_osd_weights paxos_should_propose delay = (true, delay, s) := by
  unfold OSDMonitor.should_propose
  have hlen : s.pending_inc.fullmap.length ≠ 0 := fun h0 => h (List.length_eq_zero.mp h0)
  rw [if_pos hlen]

theorem should_propose_without_full_map
    (adjust_osd_weights : OSDMap → StdMap Int Nat → Incremental → Incremental)
    (paxos_should_propose : OSDMonitor → ℚ → Bool × ℚ) (s : OSDMonitor) (delay : ℚ)
    (h : s.pending_inc.fullmap = []) :
    (s.osd_weight.entries.length = u32 s.osdmap.get_max_osd →
      s.should_propose adjust_osd_weights paxos_should_propose delay
        = (true, 0, { s with
            pending_inc := adjust_osd_weights s.osdmap s.osd_weight s.pending_inc,
            osd_weight := StdMap.empty }))
    ∧ (s.osd_weight.entries.length ≠ u32 s.osdmap.get_max_osd →
        s.should_propose adjust_osd_weights paxos_should_propose delay
          = ((paxos_should_propose s delay).1, (paxos_should_propose s delay).2, s)) := by
  unfold OSDMonitor.should_propose
  have hlen : ¬ s.pending_inc.fullmap.length ≠ 0 := by
    rw [h]
    simp
  rw [if_neg hlen]
  constructor
  · intro hw
    rw [if_pos hw]
  · intro hw
    rw [if_neg hw]

/-- C27 at its failing input: the pending increment holds a full map and
`delay` is 3/2 on entry. The first branch of `should_propose` returns true
without writing `delay`, which is still 3/2 afterwards, not 0; the branch for
the weights sets `delay = 0.0` before it returns. -/
theorem C27_full_map_leaves_delay :
    fullmap_monitor.pending_inc.fullmap = [two_osd_map]
    ∧ fullmap_monitor.should_propose adjust_nothing policy_wait (3 / 2)
        = (true, 3 / 2, fullmap_monitor)
    ∧ (3 / 2 : ℚ) ≠ 0
    ∧ (two_osd_monitor.should_propose adjust_nothing policy_wait (3 / 2)).1 = false
    ∧ ({ two_osd_monitor with
          osd_weight := (StdMap.single 0 65536).set 1 65536 } : OSDMonitor).should_propose
        adjust_nothing policy_wait (3 / 2)
        = (true, 0, two_osd_monitor) := by
  refine ⟨rfl, ?_, by norm_num, ?_, ?_⟩
  · exact should_propose_full_map _ _ _ _ (by decide)
  · rw [(should_propose_without_full_map adjust_nothing policy_wait two_osd_monitor (3 / 2)
      rfl).2 (by decide)]
    rfl
  · rw [(should_propose_without_full_map adjust_nothing policy_wait _ (3 / 2) rfl).1
      (by decide)]
    rfl

theorem sent_only_refl (s : OSDMonitor) : sent_only s s := rfl

theorem sent_only_trans (a b c : OSDMonitor) (h1 : sent_only a b) (h2 : sent_only b c) :
    sent_only a c := by
  unfold sent_only at *
  cases a; cases b; cases c
  simp only [OSDMonitor.mk.injEq] at *
  obtain ⟨a1, a2, a3, a4, _, a6, a7, a8, a9, a10, a11, a12, a13, _⟩ := h1
  obtain ⟨b1, b2, b3, b4, _, b6, b7, b8, b9, b10, b11, b12, b13, _⟩ := h2
  exact ⟨b1.trans a1, b2.trans a2, b3.trans a3, b4.trans a4, trivial, b6.trans a6, b7.trans a7,
    b8.trans a8, b9.trans a9, b10.trans a10, b11.trans a11, b12.trans a12, b13.trans a13,
    trivial⟩

theorem sent_only_fields (a b : OSDMonitor) (h : sent_only a b) :
    b.osdmap = a.osdmap ∧ b.pending_inc = a.pending_inc
    ∧ b.down_pending_out = a.down_pending_out ∧ b.osd_weight = a.osd_weight
    ∧ b.is_leader = a.is_leader ∧ b.store = a.store ∧ b.paxos = a.paxos
    ∧ b.proposed = a.proposed ∧ b.waiting_commit = a.waiting_commit := by
  unfold sent_only at h
  cases a; cases b
  simp only [OSDMonitor.mk.injEq] at h
  obtain ⟨a1, a2, a3, a4, _, a6, a7, a8, a9, a10, a11, a12, a13, _⟩ := h
  exact ⟨a1, a2, a3, a4, a7, a9, a8, a13, a12⟩

theorem send_incremental_sent_only (s s2 : OSDMonitor) (dest : entity_inst_t)
    (from_epoch : epoch_t) (h : s.send_incremental dest from_epoch = Run.done s2) :
    sent_only s s2 := by
  obtain ⟨msg, rfl⟩ := send_incremental_state s s2 dest from_epoch h
  rfl

theorem run_foldl_done {α : Type} (step : Run OSDMonitor → α → Run OSDMonitor)
    (hstep : ∀ (r : Run OSDMonitor) (a : α) (s2 : OSDMonitor), step r a = Run.done s2 →
      ∃ s1, r = Run.done s1 ∧ sent_only s1 s2) :
    ∀ (l : List α) (r : Run OSDMonitor) (s2 : OSDMonitor), l.foldl step r = Run.done s2 →
      ∃ s1, r = Run.done s1 ∧ sent_only s1 s2 := by
  intro l
  induction l with
  | nil =>
    intro r s2 h
    exact ⟨s2, h, sent_only_refl s2⟩
  | cons a rest ih =>
    intro r s2 h
    rw [List.foldl_cons] at h
    obtain ⟨s1, h1, h2⟩ := ih (step r a) s2 h
    obtain ⟨s0, h3, h4⟩ := hstep r a s1 h1
    exact ⟨s0, h3, sent_only_trans _ _ _ h4 h2⟩

theorem send_to_waiting_sent_only (s s2 : OSDMonitor) (h : s.send_to_waiting = Run.done s2) :
    sent_only s s2 := by
  unfold OSDMonitor.send_to_waiting at h
  obtain ⟨s1, h1, h2⟩ := run_foldl_done OSDMonitor.send_to_waiting_step (by
    intro r a s3 hs
    unfold OSDMonitor.send_to_waiting_step at hs
    cases r with
    | aborted => simp [Run.andThen] at hs
    | unfinished => simp [Run.andThen] at hs
    | done s1 =>
      refine ⟨s1, rfl, ?_⟩
      simp only [Run.andThen] at hs
      split_ifs at hs with ha hb
      · cases hsend : s1.send_incremental a.1 a.2 with
        | aborted => simp [hsend, Run.andThen] at hs
        | unfinished => simp [hsend, Run.andThen] at hs
        | done s4 =>
          simp only [hsend, Run.andThen, Run.done.injEq] at hs
          have h4 := send_incremental_sent_only s1 s4 a.1 a.2 hsend
          rw [← hs]
          unfold sent_only at *
          rw [← h4]
      · simp only [Run.done.injEq] at hs
        rw [← hs]
        exact sent_only_refl _
      · simp only [Run.done.injEq] at hs
        rw [← hs]
        rfl) s.waiting_for_map.entries (Run.done s) s2 h
  simp only [Run.done.injEq] at h1
  rw [h1]
  exact h2

theorem bcast_latest_mds_sent_only (s s2 : OSDMonitor) (h : s.bcast_latest_mds = Run.done s2) :
    sent_only s s2 := by
  unfold OSDMonitor.bcast_latest_mds at h
  obtain ⟨s1, h1, h2⟩ := run_foldl_done
    (fun r inst => r.andThen (fun s => s.send_incremental inst s.osdmap.get_epoch)) (by
    intro r a s3 hs
    cases r with
    | aborted => simp [Run.andThen] at hs
    | unfinished => simp [Run.andThen] at hs
    | done s1 =>
      simp only [Run.andThen] at hs
      exact ⟨s1, rfl, send_incremental_sent_only s1 s3 a _ hs⟩) s.mds_up (Run.done s) s2 h
  simp only [Run.done.injEq] at h1
  rw [h1]
  exact h2

theorem StdMap.contains_eq_get {K V : Type} [LinearOrder K] [DecidableEq K] (m : StdMap K V)
    (k : K) : m.contains k = (m.get? k).isSome := by
  unfold StdMap.contains StdMap.get?
  cases m.find k <;> rfl

theorem populate_fold_keeps (osdmap : OSDMap) (now : utime_t) :
    ∀ (l : List Int) (dpo : StdMap Int utime_t) (o : Int) (t : utime_t),
      dpo.get? o = some t →
      (l.foldl (fun dpo o =>
          if osdmap.is_down o && osdmap.is_in o && dpo.count o == 0 then dpo.set o now else dpo)
        dpo).get? o = some t := by
  intro l
  induction l with
  | nil => intro dpo o t h; exact h
  | cons x rest ih =>
    intro dpo o t h
    rw [List.foldl_cons]
    apply ih
    split_ifs with hc
    · rw [StdMap.get_set]
      by_cases hx : x = o
      · subst hx
        simp only [Bool.and_eq_true, beq_iff_eq] at hc
        rw [(StdMap.count_eq_zero _ _).mp hc.2] at h
        exact Option.noConfusion h
      · rw [if_neg hx]
        exact h
    · exact h

theorem populate_fold_covers (osdmap : OSDMap) (now : utime_t) :
    ∀ (l : List Int) (dpo : StdMap Int utime_t) (o : Int),
      o ∈ l → osdmap.is_down o = true → osdmap.is_in o = true →
      ∃ t, (l.foldl (fun dpo o =>
          if osdmap.is_down o && osdmap.is_in o && dpo.count o == 0 then dpo.set o now else dpo)
        dpo).get? o = some t := by
  intro l
  induction l with
  | nil => intro dpo o h; exact absurd h (List.not_mem_nil _)
  | cons x rest ih =>
    intro dpo o hmem hdown hin
    rw [List.foldl_cons]
    rcases List.mem_cons.mp hmem with rfl | hmem
    · cases hg : dpo.get? o with
      | none =>
        have hcount := (StdMap.count_eq_zero _ _).mpr hg
        refine ⟨now, populate_fold_keeps osdmap now rest _ o now ?_⟩
        simp [hdown, hin, hcount, StdMap.get_set]
      | some t =>
        refine ⟨t, populate_fold_keeps osdmap now rest _ o t ?_⟩
        have hcount : ¬ dpo.count o = 0 := by
          rw [StdMap.count_eq_zero, hg]
          exact Option.noConfusion
        simp [hcount, hg]
    · exact ih _ o hmem hdown hin

theorem populate_keeps (osdmap : OSDMap) (now : utime_t) (dpo : StdMap Int utime_t)
    (o : Int) (t : utime_t) (h : dpo.get? o = some t) :
    (OSDMonitor.populate_down_pending_out osdmap now dpo).get? o = some t :=
  populate_fold_keeps osdmap now _ dpo o t h

theorem populate_covers (osdmap : OSDMap) (now : utime_t) (dpo : StdMap Int utime_t)
    (o : Int) (hdown : osdmap.is_down o = true) (hin : osdmap.is_in o = true) :
    ∃ t, (OSDMonitor.populate_down_pending_out osdmap now dpo).get? o = some t := by
  apply populate_fold_covers osdmap now _ dpo o ?_ hdown hin
  have hex : osdmap.osd_exists o = true := by
    unfold OSDMap.is_in at hin
    simp only [Bool.and_eq_true] at hin
    exact hin.1
  unfold OSDMap.osd_exists OSDMap.slot at hex
  by_cases h0 : 0 ≤ o
  · rw [if_pos h0] at hex
    have hlt : o.toNat < osdmap.osds.length := by
      by_contra hnot
      have hnone : osdmap.osds.get? o.toNat = none :=
        List.get?_eq_none.mpr (Nat.le_of_not_lt hnot)
      rw [hnone] at hex
      exact Bool.noConfusion hex
    simp only [List.mem_map]
    refine ⟨o, ?_, rfl⟩
    simp
    exact ⟨o.toNat, hlt, (Int.toNat_of_nonneg h0).symm⟩
  · rw [if_neg h0] at hex
    exact Bool.noConfusion hex

theorem Run.andThen_done {α β : Type} (r : Run α) (f : α → Run β) (b : β)
    (h : r.andThen f = Run.done b) : ∃ a, r = Run.done a ∧ f a = Run.done b := by
  cases r with
  | done a => exact ⟨a, rfl, h⟩
  | aborted => exact Run.noConfusion h
  | unfinished => exact Run.noConfusion h

theorem update_from_paxos_keeps (apply_incremental : OSDMap → Incremental → Option OSDMap)
    (now : utime_t) (turns : Nat) (s s2 : OSDMonitor) (r : Bool)
    (h : OSDMonitor.update_from_paxos apply_incremental now turns s = Run.done (r, s2)) :
    r = true ∧ s.paxos.active = true
    ∧ s2.pending_inc = s.pending_inc ∧ s2.is_leader = s.is_leader
    ∧ s2.proposed = s.proposed
    ∧ (s.paxos.version = s.osdmap.epoch → s2 = s)
    ∧ (s.paxos.version ≠ s.osdmap.epoch →
        s2.down_pending_out
          = OSDMonitor.populate_down_pending_out s2.osdmap now s.down_pending_out)
    ∧ (∀ o t, s.down_pending_out.get? o = some t → s2.down_pending_out.get? o = some t) := by
  unfold OSDMonitor.update_from_paxos at h
  cases ha : s.paxos.active
  · simp [ha] at h
  · simp only [ha, Bool.not_true, Bool.false_eq_true, if_false] at h
    by_cases hv : s.paxos.version = s.osdmap.epoch
    · rw [if_pos hv] at h
      simp only [Run.done.injEq, Prod.mk.injEq] at h
      obtain ⟨h1, h2⟩ := h
      subst h2
      exact ⟨h1.symm, rfl, rfl, rfl, rfl, fun _ => rfl, fun hne => absurd hv hne,
        fun _ _ ht => ht⟩
    · rw [if_neg hv] at h
      by_cases hge : (!decide (s.paxos.version ≥ s.osdmap.epoch)) = true
      · rw [if_pos hge] at h
        exact Run.noConfusion h
      · rw [if_neg hge] at h
        obtain ⟨osdmap, _, h⟩ := Run.andThen_done _ _ _ h
        obtain ⟨res, _, h⟩ := Run.andThen_done _ _ _ h
        obtain ⟨osdmap2, store2, bl2⟩ := res
        obtain ⟨s4, h4, h⟩ := Run.andThen_done _ _ _ h
        obtain ⟨s3, htold, hw⟩ := Run.andThen_done _ _ _ h4
        simp only [Run.done.injEq, Prod.mk.injEq] at h
        obtain ⟨h1, h2⟩ := h
        subst h2
        have hsw := sent_only_fields _ _ (send_to_waiting_sent_only s3 s4 hw)
        have hmid : ∃ x : OSDMonitor, sent_only x s3 ∧ x.pending_inc = s.pending_inc
            ∧ x.is_leader = s.is_leader ∧ x.proposed = s.proposed
            ∧ x.down_pending_out
                = OSDMonitor.populate_down_pending_out osdmap2 now s.down_pending_out
            ∧ x.osdmap = osdmap2 := by
          split_ifs at htold with hl
          · exact ⟨_, bcast_latest_mds_sent_only _ _ htold, rfl, rfl, rfl, rfl, rfl⟩
          · simp only [Run.done.injEq] at htold
            subst htold
            exact ⟨_, sent_only_refl _, rfl, rfl, rfl, rfl, rfl⟩
        obtain ⟨x, hx, hx1, hx2, hx3, hx4, hx5⟩ := hmid
        have hm := sent_only_fields _ _ hx
        refine ⟨h1.symm, rfl, (hsw.2.1.trans hm.2.1).trans hx1,
          (hsw.2.2.2.2.1.trans hm.2.2.2.2.1).trans hx2,
          (hsw.2.2.2.2.2.2.2.1.trans hm.2.2.2.2.2.2.2.1).trans hx3, fun h0 => absurd h0 hv, ?_, ?_⟩
        · intro _
          rw [hsw.2.2.1, hm.2.2.1, hsw.1, hm.1, hx4, hx5]
        · intro o t ht
          rw [hsw.2.2.1, hm.2.2.1, hx4]
          exact populate_keeps _ _ _ o t ht

theorem apply_increments_succ (apply_incremental : OSDMap → Incremental → Option OSDMap)
    (log : StdMap Nat (List Incremental)) (n : Nat) (osdmap next : OSDMap) (inc : Incremental)
    (rest : List Incremental) (hlog : log.get? (osdmap.epoch + 1) = some (inc :: rest))
    (happ : apply_incremental osdmap inc = some next) :
    apply_increments apply_incremental log (n + 1) osdmap
      = apply_increments apply_incremental log n next := by
  rw [apply_increments]
  simp only [hlog, happ]

theorem apply_increments_step (apply_incremental : OSDMap → Incremental → Option OSDMap)
    (log : StdMap Nat (List Incremental)) (n : Nat) (osdmap mk : OSDMap)
    (h : apply_increments apply_incremental log (n + 1) osdmap = some mk) :
    ∃ inc rest next, log.get? (osdmap.epoch + 1) = some (inc :: rest)
      ∧ apply_incremental osdmap inc = some next
      ∧ apply_increments apply_incremental log n next = some mk := by
  rw [apply_increments] at h
  cases hget : log.get? (osdmap.epoch + 1) with
  | none =>
    rw [hget] at h
    exact absurd h (by simp)
  | some l =>
    cases l with
    | nil =>
      rw [hget] at h
      exact absurd h (by simp)
    | cons inc rest =>
      rw [hget] at h
      dsimp only at h
      cases happ : apply_incremental osdmap inc with
      | none =>
        rw [happ] at h
        exact absurd h (by simp)
      | some next =>
        rw [happ] at h
        exact ⟨inc, rest, next, rfl, happ, h⟩

theorem update_from_paxos_loop_done
    (apply_incremental : OSDMap → Incremental → Option OSDMap) (paxos : Paxos) (v : Nat)
    (hv32 : v < 4294967296) :
    ∀ (n turns c : Nat) (osdmap : OSDMap) (store : MonitorStore) (bl : List OSDMap),
      osdmap.epoch = c → c + n = v → n < turns →
      (∀ k : Nat, k ≤ n →
        ∃ mk, apply_increments apply_incremental paxos.log k osdmap = some mk
          ∧ mk.epoch = c + k) →
      ∃ m store2 bl2,
        OSDMonitor.update_from_paxos_loop apply_incremental paxos v turns osdmap store bl
          = Run.done (m, store2, bl2)
        ∧ apply_increments apply_incremental paxos.log n osdmap = some m
        ∧ m.epoch = v
        ∧ store2.osdmap = store.osdmap
        ∧ (∀ e : Nat, c < e → e ≤ v →
            ∃ me, apply_increments apply_incremental paxos.log (e - c) osdmap = some me
              ∧ store2.osdmap_full.get? e = some [me])
        ∧ (∀ e : Nat, ¬ (c < e ∧ e ≤ v) →
            store2.osdmap_full.get? e = store.osdmap_full.get? e) := by
  intro n
  induction n with
  | zero =>
    intro turns c osdmap store bl hc hcv hturns hpath
    obtain ⟨t, rfl⟩ : ∃ t, turns = t + 1 := ⟨turns - 1, by omega⟩
    have hcv2 : c = v := by omega
    refine ⟨osdmap, store, bl, ?_, rfl, hc.trans hcv2, rfl, ?_, fun _ _ => rfl⟩
    · unfold OSDMonitor.update_from_paxos_loop
      have hnot : ¬ v > osdmap.epoch := by
        rw [hc]
        omega
      rw [if_neg hnot]
    · intro e h1 h2
      omega
  | succ n ih =>
    intro turns c osdmap store bl hc hcv hturns hpath
    obtain ⟨t, rfl⟩ : ∃ t, turns = t + 1 := ⟨turns - 1, by omega⟩
    obtain ⟨m1, hone, hm1c⟩ := hpath 1 (by omega)
    obtain ⟨inc, rest, next, hget2, happ, hnext⟩ :=
      apply_increments_step apply_incremental paxos.log 0 osdmap m1 hone
    have hnm : next = m1 := by
      rw [apply_increments] at hnext
      exact Option.some.inj hnext
    subst hnm
    have hget : paxos.log.get? (c + 1) = some (inc :: rest) := by
      rw [← hc]
      exact hget2
    obtain ⟨m, store2, bl2, hrun, happs, hmv, hst1, hst2, hst3⟩ := ih t (c + 1) next
      { store with osdmap_full := store.osdmap_full.set next.epoch [next] } [next] hm1c (by omega)
      (by omega) (fun k hk => by
        obtain ⟨mk, hmk, hmke⟩ := hpath (k + 1) (by omega)
        rw [apply_increments_succ apply_incremental paxos.log k osdmap next inc rest hget2
          happ] at hmk
        have harith : c + (k + 1) = c + 1 + k := by omega
        exact ⟨mk, hmk, hmke.trans harith⟩)
    refine ⟨m, store2, bl2, ?_, ?_, hmv, hst1, ?_, ?_⟩
    · unfold OSDMonitor.update_from_paxos_loop
      have hgt : v > osdmap.epoch := by
        rw [hc]
        omega
      have hu : u32 ((osdmap.epoch : Int) + 1) = c + 1 := by
        rw [hc]
        exact u32_succ c (by omega)
      rw [if_pos hgt, hu, hget]
      simp only [happ]
      exact hrun
    · rw [apply_increments_succ apply_incremental paxos.log n osdmap next inc rest hget2 happ]
      exact happs
    · intro e h1 h2
      by_cases he : e = c + 1
      · subst he
        refine ⟨next, ?_, ?_⟩
        · have h1' : c + 1 - c = 0 + 1 := by omega
          rw [h1', apply_increments_succ apply_incremental paxos.log 0 osdmap next inc rest hget2
            happ]
          rfl
        · rw [hst3 (c + 1) (by omega)]
          simp only
          rw [hm1c, StdMap.get_set, if_pos rfl]
      · obtain ⟨me, hme1, hme2⟩ := hst2 e (by omega) h2
        refine ⟨me, ?_, hme2⟩
        have h1' : e - c = (e - (c + 1)) + 1 := by omega
        rw [h1', apply_increments_succ apply_incremental paxos.log _ osdmap next inc rest hget2
          happ]
        exact hme1
    · intro e hne
      rw [hst3 e (by omega)]
      simp only
      rw [hm1c, StdMap.get_set, if_neg (by omega)]

theorem MonitorStore.holds_of_full (store : MonitorStore) (e : epoch_t) (f : OSDMap)
    (bl : List OSDMap) (h : store.osdmap_full.get? e = some (f :: bl)) :
    store.holds e = true := by
  unfold MonitorStore.holds
  split
  · rfl
  · rw [h]

theorem MonitorStore.holds_congr (store store2 : MonitorStore) (e : epoch_t)
    (h1 : store2.osdmap = store.osdmap)
    (h2 : store2.osdmap_full.get? e = store.osdmap_full.get? e) :
    store2.holds e = store.holds e := by
  unfold MonitorStore.holds
  rw [h1, h2]

theorem bcast_latest_mds_done (s : OSDMonitor) (h1 : 1 ≤ (s.osdmap.get_epoch : Nat))
    (h32 : (s.osdmap.get_epoch : Nat) < 4294967296)
    (hholds : s.store.holds s.osdmap.get_epoch = true) :
    ∃ s2, s.bcast_latest_mds = Run.done s2 := by
  unfold OSDMonitor.bcast_latest_mds
  have hfold : ∀ (l : List entity_inst_t) (s1 : OSDMonitor), s1.osdmap = s.osdmap →
      s1.store = s.store →
      ∃ s2, l.foldl (fun r inst => r.andThen
          (fun s => s.send_incremental inst s.osdmap.get_epoch)) (Run.done s1) = Run.done s2 := by
    intro l
    induction l with
    | nil => intro s1 _ _; exact ⟨s1, rfl⟩
    | cons inst rest ih =>
      intro s1 hmap hstore
      rw [List.foldl_cons]
      simp only [Run.andThen]
      obtain ⟨msg, hsend⟩ := send_incremental_done s1 inst s1.osdmap.get_epoch
        (by rw [hmap]; exact h1) (by rw [hmap]; exact h32)
        (fun k hk1 hk2 => by
          have hk : k = s1.osdmap.get_epoch := Nat.le_antisymm hk2 hk1
          rw [hk, hstore, hmap]
          exact hholds)
      rw [hsend]
      exact ih _ hmap hstore
  exact hfold s.mds_up s rfl rfl

theorem update_from_paxos_done (apply_incremental : OSDMap → Incremental → Option OSDMap)
    (now : utime_t) (turns : Nat) (s : OSDMonitor) (c v : Nat)
    (hactive : s.paxos.active = true)
    (hc : s.osdmap.epoch = c) (hv : s.paxos.version = v) (h1 : 1 ≤ c) (hcv : c < v)
    (hv32 : v < 4294967296) (hturns : v - c < turns)
    (hpath : ∀ k : Nat, k ≤ v - c →
      ∃ mk, apply_increments apply_incremental s.paxos.log k s.osdmap = some mk
        ∧ mk.epoch = c + k)
    (hstore : ∀ k : Nat, 1 ≤ k → k ≤ c → s.store.holds k = true) :
    ∃ s2, OSDMonitor.update_from_paxos apply_incremental now turns s = Run.done (true, s2)
      ∧ apply_increments apply_incremental s.paxos.log (v - c) s.osdmap = some s2.osdmap
      ∧ s2.osdmap.epoch = v
      ∧ (∀ e : Nat, c < e → e ≤ v →
          ∃ me, apply_increments apply_incremental s.paxos.log (e - c) s.osdmap = some me
            ∧ s2.store.osdmap_full.get? e = some [me]) := by
  subst hv
  obtain ⟨m, store2, bl2, hrun, happs, hmv, hst1, hst2, hst3⟩ :=
    update_from_paxos_loop_done apply_incremental s.paxos s.paxos.version hv32
      (s.paxos.version - c) turns c s.osdmap
      s.store [] hc (by omega) hturns hpath
  have hholds2 : ∀ k : Nat, 1 ≤ k → k ≤ s.paxos.version → store2.holds k = true := by
    intro k hk1 hk2
    by_cases hk : k ≤ c
    · rw [MonitorStore.holds_congr s.store store2 k hst1 (hst3 k (by omega))]
      exact hstore k hk1 hk
    · obtain ⟨me, _, hme⟩ := hst2 k (by omega) hk2
      exact MonitorStore.holds_of_full store2 k me [] hme
  have hmid : ∀ x : OSDMonitor, x.osdmap = m → x.store = store2 →
      ∀ told : Run OSDMonitor, (told = Run.done x ∨ told = x.bcast_latest_mds) →
      ∃ s4, told.andThen OSDMonitor.send_to_waiting = Run.done s4
        ∧ s4.osdmap = m ∧ s4.store = store2 := by
    intro x hxm hxs told htold
    have hx32 : (x.osdmap.get_epoch : Nat) < 4294967296 := by
      rw [hxm]
      show m.epoch < 4294967296
      rw [hmv]
      exact hv32
    have hx1 : 1 ≤ (x.osdmap.get_epoch : Nat) := by
      rw [hxm]
      show 1 ≤ m.epoch
      rw [hmv]
      exact Nat.le_trans h1 (Nat.le_of_lt hcv)
    have hxst : ∀ k : Nat, 1 ≤ k → k ≤ x.osdmap.get_epoch → x.store.holds k = true := by
      intro k hk1 hk2
      rw [hxs]
      rw [hxm] at hk2
      have hk3 : k ≤ m.epoch := hk2
      rw [hmv] at hk3
      exact hholds2 k hk1 hk3
    rcases htold with htold | htold
    · rw [htold]
      simp only [Run.andThen]
      refine ⟨_, send_to_waiting_done x hx32 hxst, hxm, hxs⟩
    · obtain ⟨s3, hb⟩ := bcast_latest_mds_done x hx1 hx32 (hxst _ hx1 (Nat.le_refl _))
      have hf := sent_only_fields _ _ (bcast_latest_mds_sent_only x s3 hb)
      rw [htold, hb]
      simp only [Run.andThen]
      refine ⟨_, send_to_waiting_done s3 (by rw [hf.1]; exact hx32)
        (fun k hk1 hk2 => by
          rw [hf.2.2.2.2.2.1]
          rw [hf.1] at hk2
          exact hxst k hk1 hk2), ?_, ?_⟩
      · exact hf.1.trans hxm
      · exact hf.2.2.2.2.2.1.trans hxs
  have hna : ¬ (!s.paxos.active) = true := by
    rw [hactive]
    decide
  have hne : ¬ s.paxos.version = s.osdmap.epoch := by
    rw [hc]
    exact Nat.ne_of_gt hcv
  have hle : s.osdmap.epoch ≤ s.paxos.version := by
    rw [hc]
    exact Nat.le_of_lt hcv
  have hge : ¬ (!decide (s.paxos.version ≥ s.osdmap.epoch)) = true := by
    simp [hle]
  have hstart : ¬ (s.osdmap.epoch = 0 ∧ s.paxos.version > 1) := by
    intro h
    have h0 : c = 0 := hc.symm.trans h.1
    omega
  unfold OSDMonitor.update_from_paxos
  rw [if_neg hna]
  dsimp only
  rw [if_neg hne, if_neg hge, if_neg hstart]
  simp only [Run.andThen]
  rw [hrun]
  dsimp only
  by_cases hl : s.is_leader = true
  · rw [if_pos hl]
    obtain ⟨s4, h4, h4m, h4s⟩ := hmid
      (({ s with
          osdmap := m
          store := store2
          paxos := { s.paxos with latest := some (s.paxos.version, bl2) }
          down_pending_out := OSDMonitor.populate_down_pending_out m now s.down_pending_out }
        : OSDMonitor).send (Sent.check_osd_map m.epoch)) rfl rfl _ (Or.inr rfl)
    simp only [Run.andThen] at h4
    rw [h4]
    refine ⟨s4, rfl, ?_, ?_, ?_⟩
    · rw [h4m]
      exact happs
    · rw [h4m]
      exact hmv
    · rw [h4s]
      exact hst2
  · rw [if_neg hl]
    obtain ⟨s4, h4, h4m, h4s⟩ := hmid
      ({ s with
          osdmap := m
          store := store2
          paxos := { s.paxos with latest := some (s.paxos.version, bl2) }
          down_pending_out := OSDMonitor.populate_down_pending_out m now s.down_pending_out }
        : OSDMonitor) rfl rfl _ (Or.inl rfl)
    simp only [Run.andThen] at h4
    dsimp only
    rw [h4]
    refine ⟨s4, rfl, ?_, ?_, ?_⟩
    · rw [h4m]
      exact happs
    · rw [h4m]
      exact hmv
    · rw [h4s]
      exact hst2

/-- C28. On an active monitor whose committed map is at epoch `c` and whose log
is at version `v`: when `v = c`, `update_from_paxos` returns the monitor as it
is (map, store and watchlist included), so two calls in a row give what one call
gives. When `1 ≤ c < v < 2^32`, with the loop bound `turns` above `v - c`, a
log whose increments `c+1, ..., v` the map function applies in turn, each
raising the epoch by one (the map after `k` of them is at epoch `c + k`), and a
store that holds every epoch of `[1, c]` (what the sends to the peers at the
end of the call read), the call returns with the map that the
increments `c+1, ..., v` give when applied in ascending order, at epoch `v`; the
store holds at every epoch `e` of `(c, v]` the full map reached at `e`; every
OSD that is down and in has an entry on the watchlist, and the entries that were
there keep their time. -/
theorem C28_update_from_paxos (apply_incremental : OSDMap → Incremental → Option OSDMap)
    (now : utime_t) (turns : Nat) (s : OSDMonitor) (c v : Nat)
    (hactive : s.paxos.active = true)
    (hc : s.osdmap.epoch = c) (hv : s.paxos.version = v) :
    (v = c →
        OSDMonitor.update_from_paxos apply_incremental now turns s = Run.done (true, s)
        ∧ (OSDMonitor.update_from_paxos apply_incremental now turns s).andThen
            (fun r => OSDMonitor.update_from_paxos apply_incremental now turns r.2)
          = OSDMonitor.update_from_paxos apply_incremental now turns s)
    ∧ (1 ≤ c → c < v → v < 4294967296 → v - c < turns →
        (∀ k : Nat, k ≤ v - c →
          ∃ mk, apply_increments apply_incremental s.paxos.log k s.osdmap = some mk
            ∧ mk.epoch = c + k) →
        (∀ k : Nat, 1 ≤ k → k ≤ c → s.store.holds k = true) →
        ∃ s2, OSDMonitor.update_from_paxos apply_incremental now turns s = Run.done (true, s2)
          ∧ apply_increments apply_incremental s.paxos.log (v - c) s.osdmap = some s2.osdmap
          ∧ s2.osdmap.epoch = v
          ∧ (∀ e : Nat, c < e → e ≤ v →
              ∃ me, apply_increments apply_incremental s.paxos.log (e - c) s.osdmap = some me
                ∧ s2.store.osdmap_full.get? e = some [me])
          ∧ (∀ o : Int, s2.osdmap.is_down o = true → s2.osdmap.is_in o = true →
              ∃ t, s2.down_pending_out.get? o = some t)
          ∧ (∀ (o : Int) (t : utime_t), s.down_pending_out.get? o = some t →
              s2.down_pending_out.get? o = some t)) := by
  constructor
  · intro hvc
    have hsame : OSDMonitor.update_from_paxos apply_incremental now turns s
        = Run.done (true, s) := by
      have hna : ¬ (!s.paxos.active) = true := by
        rw [hactive]
        decide
      have heq : s.paxos.version = s.osdmap.epoch := by
        rw [hc, hv]
        exact hvc
      unfold OSDMonitor.update_from_paxos
      rw [if_neg hna]
      dsimp only
      rw [if_pos heq]
    refine ⟨hsame, ?_⟩
    rw [hsame]
    simp only [Run.andThen]
    exact hsame
  · intro h1 hcv hv32 hturns hpath hstore
    obtain ⟨s2, hrun, happs, hepoch, hfull⟩ :=
      update_from_paxos_done apply_incremental now turns s c v hactive hc hv h1 hcv hv32 hturns
        hpath hstore
    obtain ⟨_, _, _, _, _, _, hpop, hkeep⟩ :=
      update_from_paxos_keeps apply_incremental now turns s s2 true hrun
    have hne : s.paxos.version ≠ s.osdmap.epoch := by
      rw [hc, hv]
      exact Nat.ne_of_gt hcv
    refine ⟨s2, hrun, happs, hepoch, hfull, ?_, hkeep⟩
    intro o hdown hin
    rw [hpop hne]
    exact populate_covers s2.osdmap now s.down_pending_out o hdown hin

theorem C28_update_from_paxos_witness :
    (OSDMonitor.update_from_paxos apply_next_epoch ⟨50, 0⟩ 3 two_osd_monitor_stored
        = Run.done (true, two_osd_monitor_stored)
      ∧ (OSDMonitor.update_from_paxos apply_next_epoch ⟨50, 0⟩ 3 two_osd_monitor_stored).andThen
          (fun r => OSDMonitor.update_from_paxos apply_next_epoch ⟨50, 0⟩ 3 r.2)
        = OSDMonitor.update_from_paxos apply_next_epoch ⟨50, 0⟩ 3 two_osd_monitor_stored)
    ∧ apply_next_epoch behind_monitor.osdmap (Incremental.init 4) = none
    ∧ ∃ s2, OSDMonitor.update_from_paxos apply_next_epoch ⟨50, 0⟩ 3 behind_monitor
          = Run.done (true, s2)
        ∧ s2.osdmap = { behind_monitor.osdmap with epoch := 4 }
        ∧ (∀ e : Nat, 2 < e → e ≤ 4 →
            s2.store.osdmap_full.get? e = some [{ behind_monitor.osdmap with epoch := e }])
        ∧ (∃ t, s2.down_pending_out.get? 1 = some t) := by
  refine ⟨(C28_update_from_paxos apply_next_epoch ⟨50, 0⟩ 3 two_osd_monitor_stored 2 2
    rfl rfl rfl).1 rfl, by decide, ?_⟩
  obtain ⟨s2, h1, h2, _, h4, h5, _⟩ :=
    (C28_update_from_paxos apply_next_epoch ⟨50, 0⟩ 3 behind_monitor 2 4 rfl rfl rfl).2
      (by decide) (by decide) (by decide) (by decide)
      (fun k hk => by
        have hk3 : k = 0 ∨ k = 1 ∨ k = 2 := by omega
        rcases hk3 with rfl | rfl | rfl
        · exact ⟨_, rfl, rfl⟩
        · exact ⟨_, rfl, rfl⟩
        · exact ⟨_, rfl, rfl⟩)
      (fun k hk1 hk2 => by
        have hk : k = 1 ∨ k = 2 := by omega
        rcases hk with rfl | rfl
        · rfl
        · rfl)
  have hmap : s2.osdmap = { behind_monitor.osdmap with epoch := 4 } := by
    have h3 : apply_increments apply_next_epoch behind_monitor.paxos.log (4 - 2)
        behind_monitor.osdmap = some { behind_monitor.osdmap with epoch := 4 } := rfl
    rw [h3] at h2
    exact (Option.some.inj h2).symm
  refine ⟨s2, h1, hmap, ?_, ?_⟩
  · intro e he1 he2
    obtain ⟨me, hme1, hme2⟩ := h4 e he1 he2
    rw [hme2]
    have he : e = 3 ∨ e = 4 := by omega
    rcases he with rfl | rfl
    · have h3 : apply_increments apply_next_epoch behind_monitor.paxos.log (3 - 2)
          behind_monitor.osdmap = some { behind_monitor.osdmap with epoch := 3 } := rfl
      rw [h3] at hme1
      rw [← Option.some.inj hme1]
    · have h3 : apply_increments apply_next_epoch behind_monitor.paxos.log (4 - 2)
          behind_monitor.osdmap = some { behind_monitor.osdmap with epoch := 4 } := rfl
      rw [h3] at hme1
      rw [← Option.some.inj hme1]
  · apply h5 1
    · rw [hmap]
      rfl
    · rw [hmap]
      rfl

theorem tick_of_leader (apply_incremental : OSDMap → Incremental → Option OSDMap)
    (interval : Int) (now_update now : utime_t) (turns : Nat) (s s1 : OSDMonitor) (r : Bool)
    (hupd : OSDMonitor.update_from_paxos apply_incremental now_update turns s = Run.done (r, s1))
    (hl : s1.is_leader = true) :
    ∃ s2, s.tick apply_incremental interval now_update now turns = Run.done s2
      ∧ s2.osdmap = s1.osdmap
      ∧ s2.down_pending_out
          = (s1.down_pending_out.entries.foldl
              (OSDMonitor.tick_down_step s1.osdmap now interval)
              (s1.pending_inc, s1.down_pending_out, false)).2.1
      ∧ s2.pending_inc.new_weight
          = (s1.down_pending_out.entries.foldl
              (OSDMonitor.tick_down_step s1.osdmap now interval)
              (s1.pending_inc, s1.down_pending_out, false)).1.new_weight
      ∧ ((s1.down_pending_out.entries.foldl
              (OSDMonitor.tick_down_step s1.osdmap now interval)
              (s1.pending_inc, s1.down_pending_out, false)).2.2 = true →
          s2.proposed = s1.proposed ++ [s2.pending_inc]) := by
  have hact : s.paxos.active = true :=
    (update_from_paxos_keeps apply_incremental now_update turns s s1 r hupd).2.1
  have hna : ¬ (!s.paxos.active) = true := by
    rw [hact]
    decide
  have hnl : ¬ (!s1.is_leader) = true := by
    rw [hl]
    decide
  obtain ⟨hw, hp⟩ := tick_blacklist_fold_weight now s1.osdmap.blacklist.entries
    ((s1.down_pending_out.entries.foldl
        (OSDMonitor.tick_down_step s1.osdmap now interval)
        (s1.pending_inc, s1.down_pending_out, false)).1,
      (s1.down_pending_out.entries.foldl
        (OSDMonitor.tick_down_step s1.osdmap now interval)
        (s1.pending_inc, s1.down_pending_out, false)).2.2)
  unfold OSDMonitor.tick
  rw [if_neg hna, hupd]
  simp only [Run.andThen]
  rw [if_neg hnl]
  split_ifs with hdo
  · exact ⟨_, rfl, rfl, rfl, hw, fun _ => rfl⟩
  · refine ⟨_, rfl, rfl, rfl, hw, fun h => ?_⟩
    exact absurd (hp h) hdo

/-- C26. A tick while consensus is not active returns the monitor as it is.
A tick on an active monitor first runs `update_from_paxos` (which returns the
monitor as it is when the log is at the epoch of the map); with `s1` the state
it returns, the tick returns a state `s2` such that: on a non-leader the
pending increment is the one before the tick and every entry of the watchlist
before the tick is still there with its time; on the leader, for every OSD `o`
on the watchlist of `s1` with entry time `t`: if `o` is down and in and the
seconds of `now - t` reach the interval, `new_weight[o] = OUT` is in the pending
increment and that increment is proposed; if `o` is down and in and the seconds
are below the interval, the entry is kept and `new_weight[o]` is as before the
tick; if `o` is not down and in, the entry is removed and `new_weight[o]` is as
before the tick. -/
theorem C26_tick (apply_incremental : OSDMap → Incremental → Option OSDMap)
    (interval : Int) (now_update now : utime_t) (turns : Nat) (s : OSDMonitor) :
    (s.paxos.active = false →
        s.tick apply_incremental interval now_update now turns = Run.done s)
    ∧ (s.paxos.active = true → s.paxos.version = s.osdmap.epoch →
        OSDMonitor.update_from_paxos apply_incremental now_update turns s = Run.done (true, s))
    ∧ (∀ (r : Bool) (s1 : OSDMonitor),
        OSDMonitor.update_from_paxos apply_incremental now_update turns s = Run.done (r, s1) →
        ∃ s2, s.tick apply_incremental interval now_update now turns = Run.done s2
          ∧ (s.is_leader = false →
              s2.pending_inc = s.pending_inc
              ∧ ∀ (o : Int) (t : utime_t), s.down_pending_out.get? o = some t →
                  s2.down_pending_out.get? o = some t)
          ∧ (s.is_leader = true →
              ∀ (o : Int) (t : utime_t), s1.down_pending_out.get? o = some t →
                (s1.osdmap.is_down o = true → s1.osdmap.is_in o = true →
                  (now.sub t).sec ≥ interval →
                    s2.pending_inc.new_weight.get? o = some CEPH_OSD_OUT
                    ∧ s2.proposed = s.proposed ++ [s2.pending_inc])
                ∧ (s1.osdmap.is_down o = true → s1.osdmap.is_in o = true →
                  (now.sub t).sec < interval →
                    s2.down_pending_out.get? o = some t
                    ∧ s2.pending_inc.new_weight.get? o = s.pending_inc.new_weight.get? o)
                ∧ (¬ (s1.osdmap.is_down o = true ∧ s1.osdmap.is_in o = true) →
                    s2.down_pending_out.get? o = none
                    ∧ s2.pending_inc.new_weight.get? o
                        = s.pending_inc.new_weight.get? o))) := by
  refine ⟨?_, ?_, ?_⟩
  · intro ha
    unfold OSDMonitor.tick
    rw [if_pos (by rw [ha]; rfl)]
  · intro ha hv
    unfold OSDMonitor.update_from_paxos
    rw [if_neg (by rw [ha]; decide)]
    dsimp only
    rw [if_pos hv]
  · intro r s1 hupd
    obtain ⟨_, hact, hpend, hlead, hprop, _, _, hkeep⟩ :=
      update_from_paxos_keeps apply_incremental now_update turns s s1 r hupd
    cases hl : s.is_leader
    · refine ⟨s1, ?_, fun _ => ⟨hpend, hkeep⟩, fun h => absurd h (by decide)⟩
      unfold OSDMonitor.tick
      rw [if_neg (by rw [hact]; decide), hupd]
      simp only [Run.andThen]
      rw [if_pos (by rw [hlead, hl]; rfl)]
    · obtain ⟨s2, hrun, _, hwatch, hweight, hdo⟩ :=
        tick_of_leader apply_incremental interval now_update now turns s s1 r hupd
          (hlead.trans hl)
      refine ⟨s2, hrun, fun h => absurd h (by decide), fun _ o t ht => ?_⟩
      have hw := tick_down_fold_weight s1.osdmap now interval o s1.down_pending_out.entries
        (s1.pending_inc, s1.down_pending_out, false)
      have hd := tick_down_fold_watch s1.osdmap now interval o s1.down_pending_out.entries
        (s1.pending_inc, s1.down_pending_out, false)
      rw [StdMap.any_key s1.down_pending_out o t _ ht] at hw hd
      dsimp only at hw hd
      rw [← hweight] at hw
      rw [← hwatch] at hd
      rw [hpend] at hw
      refine ⟨fun h1 h2 h3 => ?_, fun h1 h2 h3 => ?_, fun h1 => ?_⟩
      · constructor
        · rw [hw, if_pos]
          rw [h1, h2, decide_eq_true h3]
          rfl
        · rw [← hprop]
          apply hdo
          rw [tick_down_fold_propose]
          dsimp only
          rw [Bool.false_or, List.any_eq_true]
          refine ⟨(o, t), StdMap.get_mem _ o t ht, ?_⟩
          dsimp only
          rw [h1, h2, decide_eq_true h3]
          rfl
      · have h4 : ¬ (now.sub t).sec ≥ interval := not_le.mpr h3
        constructor
        · rw [hd, if_neg, ht]
          rw [h1, h2, decide_eq_false h4]
          decide
        · rw [hw, if_neg]
          rw [h1, h2, decide_eq_false h4]
          decide
      · have h5 : (s1.osdmap.is_down o && s1.osdmap.is_in o) = false := by
          cases h6 : s1.osdmap.is_down o
          · rfl
          · cases h7 : s1.osdmap.is_in o
            · rfl
            · exact absurd ⟨h6, h7⟩ h1
        constructor
        · rw [hd, if_pos]
          rw [h5]
          rfl
        · rw [hw, if_neg]
          rw [h5]
          simp

theorem C26_tick_witness :
    (∃ s2, watch_monitor.tick apply_nothing 300 ⟨0, 0⟩ ⟨350, 0⟩ 1 = Run.done s2
      ∧ s2.down_pending_out.get? 0 = none
      ∧ s2.pending_inc.new_weight.get? 0 = none
      ∧ s2.pending_inc.new_weight.get? 1 = none
      ∧ s2.down_pending_out.get? 1 = some ⟨100, 0⟩)
    ∧ (∃ s2, watch_monitor.tick apply_nothing 300 ⟨0, 0⟩ ⟨400, 0⟩ 1 = Run.done s2
      ∧ s2.pending_inc.new_weight.get? 1 = some CEPH_OSD_OUT
      ∧ s2.proposed = [s2.pending_inc]) := by
  constructor
  · obtain ⟨s2, h1, _, h3⟩ :=
      (C26_tick apply_nothing 300 ⟨0, 0⟩ ⟨350, 0⟩ 1 watch_monitor).2.2 true watch_monitor rfl
    have h0 := (h3 rfl 0 ⟨0, 0⟩ rfl).2.2 (by decide)
    have h1b := (h3 rfl 1 ⟨100, 0⟩ rfl).2.1 rfl rfl (by decide)
    exact ⟨s2, h1, h0.1, h0.2, h1b.2, h1b.1⟩
  · obtain ⟨s2, h1, _, h3⟩ :=
      (C26_tick apply_nothing 300 ⟨0, 0⟩ ⟨400, 0⟩ 1 watch_monitor).2.2 true watch_monitor rfl
    have h1b := (h3 rfl 1 ⟨100, 0⟩ rfl).1 rfl rfl (by decide)
    exact ⟨s2, h1, h1b.1, h1b.2⟩

theorem float_to_int_nonneg (x : ℚ) (h0 : 0 ≤ x) (h1 : x < 2147483648) :
    float_to_int x = some ⌊x⌋ := by
  unfold float_to_int
  have hlo : (0 : Int) ≤ ⌊x⌋ := Int.floor_nonneg.mpr h0
  have hhi : ⌊x⌋ < 2147483648 := by
    rw [Int.floor_lt]
    exact_mod_cast h1
  simp only [h0, if_true]
  rw [if_pos ⟨by omega, by omega⟩]

theorem u32_of_small (z : Int) (h0 : 0 ≤ z) (h1 : z < 4294967296) : u32 z = z.toNat := by
  unfold u32
  rw [Int.emod_eq_of_lt h0 h1]

theorem prepare_command_reweight_exists (reweight_text : Int → ℚ → Int → String)
    (s : OSDMonitor) (m : MMonCommand) (osd : Int) (w : ℚ)
    (hw : 0 ≤ w) (hrange : 65536 * w < 2147483648)
    (hex : s.osdmap.osd_exists (i32 osd) = true) :
    s.prepare_command_reweight reweight_text m osd w = some (true,
      { s with
        pending_inc := { s.pending_inc with
          new_weight := s.pending_inc.new_weight.set (i32 osd) ⌊65536 * w⌋.toNat }
        waiting_commit := s.waiting_commit
          ++ [Callback.C_Command m 0 (reweight_text osd w ⌊65536 * w⌋)] }) := by
  have hx : (0 : ℚ) ≤ 65536 * w := mul_nonneg (by norm_num) hw
  have hlo : (0 : Int) ≤ ⌊65536 * w⌋ := Int.floor_nonneg.mpr hx
  have hhi : ⌊65536 * w⌋ < 2147483648 := by
    rw [Int.floor_lt]
    exact_mod_cast hrange
  unfold OSDMonitor.prepare_command_reweight
  have hin : ((CEPH_OSD_IN : Nat) : ℚ) * w = 65536 * w := by
    simp [CEPH_OSD_IN]
  rw [hin, float_to_int_nonneg _ hx hrange]
  simp only [hex, if_true, OSDMonitor.wait_for_commit]
  rw [u32_of_small _ hlo (by omega)]

/-- C29 as stated fails: for w = 1.5/65536 the product with 0x10000 is 1.5;
the conversion to `int` drops the fraction and the weight enqueued is 1, where
rounding to the nearest integer gives 2. -/
theorem C29_reweight_rounding_counterexample :
    ¬ (∀ (reweight_text : Int → ℚ → Int → String) (s : OSDMonitor) (m : MMonCommand)
        (osd : Int) (w : ℚ) (r : Bool × OSDMonitor),
        0 ≤ w → s.osdmap.osd_exists (i32 osd) = true →
        s.prepare_command_reweight reweight_text m osd w = some r →
        r.2.pending_inc.new_weight.get? (i32 osd) = some (round (65536 * w)).toNat) := by
  intro h
  have hfloor : ⌊(65536 : ℚ) * (3 / 131072)⌋ = 1 := by
    rw [Int.floor_eq_iff]
    norm_num
  have hround : round ((65536 : ℚ) * (3 / 131072)) = 2 := by
    rw [round_eq, Int.floor_eq_iff]
    norm_num
  have hrun := prepare_command_reweight_exists plain_reweight_text two_osd_monitor
    reweight_command 0 (3 / 131072) (by norm_num) (by norm_num) (by decide)
  have h1 := h plain_reweight_text two_osd_monitor reweight_command 0 (3 / 131072) _
    (by norm_num) (by decide) hrun
  rw [hround, hfloor] at h1
  simp only [StdMap.get_set] at h1
  revert h1
  decide

/-- C29, amended. For every OSD that exists and every weight `w >= 0` whose
product with 0x10000 fits an `int`, the command `reweight i w` returns true and
sets `new_weight[i]` to the integer part of `w * 0x10000` (the fraction is
dropped, not rounded), changing nothing else of the pending increment; for an
OSD that does not exist it replies -EINVAL, returns false and leaves the
pending increment as it is. -/
theorem C29_reweight_truncates (reweight_text : Int → ℚ → Int → String)
    (s : OSDMonitor) (m : MMonCommand) (osd : Int) (w : ℚ)
    (hw : 0 ≤ w) (hrange : 65536 * w < 2147483648) :
    (s.osdmap.osd_exists (i32 osd) = true →
      s.prepare_command_reweight reweight_text m osd w = some (true,
        { s with
          pending_inc := { s.pending_inc with
            new_weight := s.pending_inc.new_weight.set (i32 osd) ⌊65536 * w⌋.toNat }
          waiting_commit := s.waiting_commit
            ++ [Callback.C_Command m 0 (reweight_text osd w ⌊65536 * w⌋)] }))
    ∧ (s.osdmap.osd_exists (i32 osd) = false →
        s.prepare_command_reweight reweight_text m osd w
          = some (false, s.send (Sent.command_reply m (-22) "" []))) := by
  refine ⟨prepare_command_reweight_exists reweight_text s m osd w hw hrange, ?_⟩
  intro hex
  have hx : (0 : ℚ) ≤ 65536 * w := mul_nonneg (by norm_num) hw
  unfold OSDMonitor.prepare_command_reweight
  have hin : ((CEPH_OSD_IN : Nat) : ℚ) * w = 65536 * w := by
    simp [CEPH_OSD_IN]
  rw [hin, float_to_int_nonneg _ hx hrange]
  simp [hex, EINVAL]

theorem C29_reweight_truncates_witness :
    (two_osd_monitor.prepare_command_reweight plain_reweight_text reweight_command 0
        (3 / 131072)).map (fun r => r.2.pending_inc.new_weight.entries)
      = some [(0, 1)] := by
  have hfloor : ⌊(65536 : ℚ) * (3 / 131072)⌋ = 1 := by
    rw [Int.floor_eq_iff]
    norm_num
  rw [(C29_reweight_truncates plain_reweight_text two_osd_monitor reweight_command 0
    (3 / 131072) (by norm_num) (by norm_num)).1 (by decide), hfloor]
  decide

theorem pool_create_id_taken (name : String) :
    ∀ (l : List (Int × String)) (pool : Int), (∃ i ∈ l, i.2 = name) →
      pool_create_id name l pool = none := by
  intro l
  induction l with
  | nil => intro pool h; obtain ⟨i, hi, _⟩ := h; exact absurd hi (List.not_mem_nil _)
  | cons i rest ih =>
    intro pool h
    unfold pool_create_id
    by_cases hn : i.2 = name
    · rw [if_pos hn]
    · rw [if_neg hn]
      obtain ⟨j, hj, hjn⟩ := h
      rcases List.mem_cons.mp hj with rfl | hj
      · exact absurd hjn hn
      · exact ih _ ⟨j, hj, hjn⟩

theorem pool_create_id_free (name : String) :
    ∀ (l : List (Int × String)) (pool : Int), (∀ i ∈ l, i.2 ≠ name) →
      pool_create_id name l pool = some ((l.map Prod.fst).foldl max (pool - 1) + 1) := by
  intro l
  induction l with
  | nil => intro pool _; simp [pool_create_id]
  | cons i rest ih =>
    intro pool h
    unfold pool_create_id
    rw [if_neg (h i (List.mem_cons_self _ _))]
    rw [ih _ (fun j hj => h j (List.mem_cons_of_mem _ hj))]
    simp only [List.map_cons, List.foldl_cons]
    congr 3
    by_cases hge : i.1 ≥ pool
    · rw [if_pos hge]
      have : max (pool - 1) i.1 = i.1 := max_eq_right (by omega)
      rw [this]
      omega
    · rw [if_neg hge]
      have : max (pool - 1) i.1 = pool - 1 := max_eq_left (by omega)
      rw [this]

theorem foldl_max_ge (l : List Int) : ∀ (a : Int), a ≤ l.foldl max a ∧ ∀ k ∈ l, k ≤ l.foldl max a := by
  induction l with
  | nil => intro a; exact ⟨le_refl _, fun k hk => absurd hk (List.not_mem_nil _)⟩
  | cons x rest ih =>
    intro a
    rw [List.foldl_cons]
    obtain ⟨h1, h2⟩ := ih (max a x)
    refine ⟨le_trans (le_max_left _ _) h1, ?_⟩
    intro k hk
    rcases List.mem_cons.mp hk with rfl | hk
    · exact le_trans (le_max_right _ _) h1
    · exact h2 k hk

theorem prepare_command_pool_create_spec (s : OSDMonitor) (m : MMonCommand) (name : String) :
    ((∀ i ∈ s.osdmap.pool_name.entries, i.2 ≠ name) →
      (s.prepare_command_pool_create m name).1 = true
      ∧ (∃ p, (s.prepare_command_pool_create m name).2.pending_inc.new_pools.get?
              (next_pool_id s.osdmap.pool_name.keys) = some p
          ∧ p.type = 1 ∧ p.size = 2 ∧ p.crush_ruleset = 0 ∧ p.pg_num = 8 ∧ p.pgp_num = 8
          ∧ p.lpg_num = 0 ∧ p.lpgp_num = 0 ∧ p.last_change = s.pending_inc.epoch)
      ∧ (s.prepare_command_pool_create m name).2.pending_inc.new_pool_names.get?
            (next_pool_id s.osdmap.pool_name.keys) = some name
      ∧ (∀ k, k ≠ next_pool_id s.osdmap.pool_name.keys →
          (s.prepare_command_pool_create m name).2.pending_inc.new_pools.get? k
              = s.pending_inc.new_pools.get? k
            ∧ (s.prepare_command_pool_create m name).2.pending_inc.new_pool_names.get? k
              = s.pending_inc.new_pool_names.get? k)
      ∧ { (s.prepare_command_pool_create m name).2.pending_inc with
            new_pools := s.pending_inc.new_pools
            new_pool_names := s.pending_inc.new_pool_names } = s.pending_inc)
    ∧ 1 ≤ next_pool_id s.osdmap.pool_name.keys
    ∧ (∀ k ∈ s.osdmap.pool_name.keys, k < next_pool_id s.osdmap.pool_name.keys)
    ∧ ((∀ k, s.osdmap.pools.contains k = true → k ∈ s.osdmap.pool_name.keys) →
        ∀ k, s.osdmap.pools.contains k = true → k < next_pool_id s.osdmap.pool_name.keys)
    ∧ ((∃ i ∈ s.osdmap.pool_name.entries, i.2 = name) →
        s.prepare_command_pool_create m name
          = (false, s.send (Sent.command_reply m (-17) (getline ("pool '" ++ name ++ "' exists"))
              []))) := by
  have hmax := foldl_max_ge s.osdmap.pool_name.keys 0
  have hlt : ∀ k ∈ s.osdmap.pool_name.keys, k < next_pool_id s.osdmap.pool_name.keys := by
    intro k hk
    have := hmax.2 k hk
    unfold next_pool_id
    omega
  refine ⟨?_, ?_, hlt, fun hsub k hk => hlt k (hsub k hk), ?_⟩
  · intro hfree
    have hid := pool_create_id_free name s.osdmap.pool_name.entries 1 hfree
    have hid2 : pool_create_id name s.osdmap.pool_name.entries 1
        = some (next_pool_id s.osdmap.pool_name.keys) := by
      rw [hid]
      rfl
    unfold OSDMonitor.prepare_command_pool_create
    rw [hid2]
    simp only [OSDMonitor.wait_for_commit, StdMap.get_set, if_true, true_and]
    refine ⟨⟨_, rfl, rfl, rfl, rfl, rfl, rfl, rfl, rfl, rfl⟩, ?_, trivial⟩
    intro k hk
    rw [if_neg (Ne.symm hk), if_neg (Ne.symm hk)]
    exact ⟨rfl, rfl⟩
  · have := hmax.1
    unfold next_pool_id
    omega
  · intro htaken
    unfold OSDMonitor.prepare_command_pool_create
    rw [pool_create_id_taken name _ 1 htaken]
    rfl

theorem prepare_command_of_pool_create (lib : CommandLib) (now : utime_t) (s : OSDMonitor)
    (w0 name : String) (rest : List String) (data : CommandData) (src : entity_inst_t) :
    s.prepare_command lib now ⟨w0 :: "pool" :: "create" :: name :: rest, data, src⟩
      = some (s.prepare_command_pool_create
          ⟨w0 :: "pool" :: "create" :: name :: rest, data, src⟩ name) := by
  unfold OSDMonitor.prepare_command
  simp

/-- C30 as stated fails. The committed map of `unnamed_pool_monitor` has the
pools 1 (data) and 2 (without a name, put there by `prepare_remove_snaps`).
The loop of `pool create` runs over `pool_name`, where 1 is the only id: the
pool x is enqueued under the id 2, which a committed pool has, and not under
max(1, 2, 0) + 1 = 3. -/
theorem C30_unnamed_pool_counterexample :
    ¬ (∀ (lib : CommandLib) (now : utime_t) (s : OSDMonitor) (name : String),
        (∀ i ∈ s.osdmap.pool_name.entries, i.2 ≠ name) →
        ∃ s2, s.prepare_command lib now (command_of ["osd", "pool", "create", name])
            = some (true, s2)
          ∧ s2.pending_inc.new_pool_names.get? (next_pool_id s.osdmap.pools.keys)
              = some name) := by
  intro h
  obtain ⟨s2, h1, h2⟩ := h (lib_reading 0) ⟨0, 0⟩ unnamed_pool_monitor "x" (by decide)
  have heval : (unnamed_pool_monitor.prepare_command (lib_reading 0) ⟨0, 0⟩
      (command_of ["osd", "pool", "create", "x"])).map
        (fun r => (r.2.pending_inc.new_pool_names.entries,
          next_pool_id unnamed_pool_monitor.osdmap.pools.keys,
          r.2.pending_inc.new_pool_names.get?
            (next_pool_id unnamed_pool_monitor.osdmap.pools.keys)))
      = some ([(2, "x")], 3, none) := by
    decide
  rw [h1] at heval
  simp only [Option.map_some', Option.some.injEq, Prod.mk.injEq] at heval
  rw [h2] at heval
  exact absurd heval.2.2 (by simp)

/-- C30, amended. A command `pool create name` (four words or more) whose name
no entry of `pool_name` of the committed map has is accepted and enqueues a
pool under the id max(ids of `pool_name`, 0) + 1, which is at least 1 and
greater than the id of every named pool (of every committed pool, when every
pool has a name): the pool under this id in the pending increment has type
replicated, size 2, rule set 0, `pg_num` 8, `pgp_num` 8, `lpg_num` 0,
`lpgp_num` 0 and `last_change = pending.epoch`, and `new_pool_names[id]` is
the name; nothing else of the pending increment changes. For a name that an
entry has the command is answered -EEXIST and only the reply is sent. -/
theorem C30_pool_create (lib : CommandLib) (now : utime_t) (s : OSDMonitor) (m : MMonCommand)
    (w0 name : String) (rest : List String)
    (hcmd : m.cmd = w0 :: "pool" :: "create" :: name :: rest) :
    ((∀ i ∈ s.osdmap.pool_name.entries, i.2 ≠ name) →
      ∃ s2, s.prepare_command lib now m = some (true, s2)
        ∧ (∃ p, s2.pending_inc.new_pools.get? (next_pool_id s.osdmap.pool_name.keys) = some p
            ∧ p.type = 1 ∧ p.size = 2 ∧ p.crush_ruleset = 0 ∧ p.pg_num = 8 ∧ p.pgp_num = 8
            ∧ p.lpg_num = 0 ∧ p.lpgp_num = 0 ∧ p.last_change = s.pending_inc.epoch)
        ∧ s2.pending_inc.new_pool_names.get? (next_pool_id s.osdmap.pool_name.keys)
            = some name
        ∧ (∀ k, k ≠ next_pool_id s.osdmap.pool_name.keys →
            s2.pending_inc.new_pools.get? k = s.pending_inc.new_pools.get? k
              ∧ s2.pending_inc.new_pool_names.get? k = s.pending_inc.new_pool_names.get? k)
        ∧ { s2.pending_inc with
              new_pools := s.pending_inc.new_pools
              new_pool_names := s.pending_inc.new_pool_names } = s.pending_inc)
    ∧ 1 ≤ next_pool_id s.osdmap.pool_name.keys
    ∧ (∀ k ∈ s.osdmap.pool_name.keys, k < next_pool_id s.osdmap.pool_name.keys)
    ∧ ((∀ k, s.osdmap.pools.contains k = true → k ∈ s.osdmap.pool_name.keys) →
        ∀ k, s.osdmap.pools.contains k = true → k < next_pool_id s.osdmap.pool_name.keys)
    ∧ ((∃ i ∈ s.osdmap.pool_name.entries, i.2 = name) →
        s.prepare_command lib now m
          = some (false, s.send (Sent.command_reply m (-EEXIST)
              (getline ("pool '" ++ name ++ "' exists")) []))) := by
  obtain ⟨cmd, data, src⟩ := m
  simp only at hcmd
  subst hcmd
  obtain ⟨hfree, hone, hlt, hall, htaken⟩ := prepare_command_pool_create_spec s
    ⟨w0 :: "pool" :: "create" :: name :: rest, data, src⟩ name
  rw [prepare_command_of_pool_create]
  refine ⟨fun hf => ?_, hone, hlt, hall, fun ht => ?_⟩
  · obtain ⟨h1, h2, h3, h4, h5⟩ := hfree hf
    refine ⟨_, ?_, h2, h3, h4, h5⟩
    rw [← h1]
  · rw [htaken ht]
    rfl

theorem C30_pool_create_witness :
    ∃ s2, named_pool_monitor.prepare_command (lib_reading 0) ⟨0, 0⟩
          (command_of ["osd", "pool", "create", "x"]) = some (true, s2)
      ∧ s2.pending_inc.new_pool_names.get? 4 = some "x"
      ∧ (∃ p, s2.pending_inc.new_pools.get? 4 = some p ∧ p.size = 2 ∧ p.pg_num = 8) := by
  obtain ⟨s2, h1, ⟨p, hp, _, hsize, _, hpg, _⟩, h3, _⟩ :=
    (C30_pool_create (lib_reading 0) ⟨0, 0⟩ named_pool_monitor
      (command_of ["osd", "pool", "create", "x"]) "osd" "x" [] rfl).1 (by decide)
  have hid : next_pool_id named_pool_monitor.osdmap.pool_name.keys = 4 := by decide
  rw [hid] at hp h3
  exact ⟨s2, h1, h3, p, hp, hsize, hpg⟩

theorem unnamed_pool_monitor_reached :
    (data_pool_monitor.preprocess_remove_snaps remove_of_pools_1_and_2).1 = false
    ∧ data_pool_monitor.osdmap.pools.keys = [1]
    ∧ unnamed_pool_monitor.osdmap.pools.keys = [1, 2]
    ∧ unnamed_pool_monitor.osdmap.pool_name.keys = [1] := by
  refine ⟨by decide, by decide, by decide, by decide⟩

theorem i32_range (z : Int) : -2147483648 ≤ i32 z ∧ i32 z < 2147483648 := by
  unfold i32
  omega

theorem touch_pool_subscript (m : OSDMap) (pool : Int) :
    (m.touch_pool pool).pools.subscript pool pg_pool_t.init = m.get_pg_pool pool := by
  unfold OSDMap.touch_pool OSDMap.get_pg_pool StdMap.subscript
  by_cases h : m.pools.count pool = 0
  · rw [if_pos h]
    dsimp only
    rw [StdMap.get_set, if_pos rfl, (StdMap.count_eq_zero m.pools pool).mp h]
    rfl
  · rw [if_neg h]

theorem touch_pool_of_known (m : OSDMap) (pool : Int) (h : m.have_pg_pool pool = true) :
    m.touch_pool pool = m := by
  unfold OSDMap.have_pg_pool at h
  unfold OSDMap.touch_pool
  rw [if_neg]
  intro h0
  rw [h0] at h
  exact absurd h (by decide)

theorem prepare_command_pool_set_unknown (lib : CommandLib) (s : OSDMonitor) (m : MMonCommand)
    (name : String) (hname : m.cmd.get? 3 = some name)
    (hpool : s.osdmap.lookup_pg_pool_name (c_str name) < 0) :
    s.prepare_command_pool_set lib m
      = some (false, s.send (Sent.command_reply m (-ENOENT)
          (getline ("unrecognized pool '" ++ name ++ "'")) [])) := by
  unfold OSDMonitor.prepare_command_pool_set
  rw [hname]
  dsimp only
  rw [if_pos hpool]
  rfl

theorem prepare_command_pool_set_pg_num (lib : CommandLib) (s : OSDMonitor) (m : MMonCommand)
    (name w : String) (hname : m.cmd.get? 3 = some name)
    (hfield : m.cmd.get? 4 = some "pg_num") (hw : m.cmd.get? 5 = some w)
    (hpool : 0 ≤ s.osdmap.lookup_pg_pool_name (c_str name)) :
    s.prepare_command_pool_set lib m
      = if i32 (lib.atoi (c_str w))
            ≤ (s.osdmap.get_pg_pool (s.osdmap.lookup_pg_pool_name (c_str name))).pg_num then
          some (false, s.send (Sent.command_reply m (-EINVAL)
            (getline (if i32 (lib.atoi (c_str w)) = 0 then ""
              else "specified pg_num " ++ toString (i32 (lib.atoi (c_str w))) ++ " <= current "
                ++ toString (s.osdmap.get_pg_pool
                    (s.osdmap.lookup_pg_pool_name (c_str name))).get_pg_num)) []))
        else if s.creating_pgs = true then
          some (false, s.send (Sent.command_reply m (-EAGAIN)
            (getline "currently creating pgs, wait") []))
        else
          some (true,
            { s with
              osdmap := s.osdmap.touch_pool (s.osdmap.lookup_pg_pool_name (c_str name))
              pending_inc := { s.pending_inc with
                new_pools := s.pending_inc.new_pools.set
                  (s.osdmap.lookup_pg_pool_name (c_str name))
                  { s.osdmap.get_pg_pool (s.osdmap.lookup_pg_pool_name (c_str name)) with
                    pg_num := (i32 (lib.atoi (c_str w))).toNat } }
              waiting_commit := s.waiting_commit ++ [Callback.C_Command m 0
                (getline ("set pool " ++ toString (s.osdmap.lookup_pg_pool_name (c_str name))
                  ++ " pg_num to " ++ toString (i32 (lib.atoi (c_str w)))))] }) := by
  have hr := i32_range (lib.atoi (c_str w))
  unfold OSDMonitor.prepare_command_pool_set
  rw [hname]
  dsimp only
  rw [if_neg (not_lt.mpr hpool), hw]
  dsimp only
  rw [hfield]
  dsimp only
  rw [if_neg (by decide : ¬ ("pg_num" = "size")), if_pos rfl]
  generalize i32 (lib.atoi (c_str w)) = n at hr ⊢
  generalize hp : s.osdmap.get_pg_pool (s.osdmap.lookup_pg_pool_name (c_str name)) = p
  by_cases h0 : n = 0
  · have hle : n ≤ (p.pg_num : Int) := by
      rw [h0]
      exact Int.natCast_nonneg _
    rw [if_neg (not_not.mpr h0), if_pos hle, if_pos h0]
    rfl
  · rw [if_pos h0]
    unfold pg_pool_t.get_pg_num
    by_cases hle : n ≤ (p.pg_num : Int)
    · rw [if_pos hle, if_pos hle, if_neg h0]
      rfl
    · rw [if_neg hle, if_neg hle]
      by_cases hc : s.creating_pgs = true
      · rw [if_pos hc, if_pos hc]
        rfl
      · rw [if_neg hc, if_neg hc, touch_pool_subscript, hp, u32_of_small n (by omega) (by omega)]
        rfl

theorem prepare_command_pool_set_pgp_num (lib : CommandLib) (s : OSDMonitor) (m : MMonCommand)
    (name w : String) (hname : m.cmd.get? 3 = some name)
    (hfield : m.cmd.get? 4 = some "pgp_num") (hw : m.cmd.get? 5 = some w)
    (hpool : 0 ≤ s.osdmap.lookup_pg_pool_name (c_str name)) :
    s.prepare_command_pool_set lib m
      = if i32 (lib.atoi (c_str w))
            ≤ (s.osdmap.get_pg_pool (s.osdmap.lookup_pg_pool_name (c_str name))).pgp_num then
          some (false, s.send (Sent.command_reply m (-EINVAL)
            (getline (if i32 (lib.atoi (c_str w)) = 0 then ""
              else "specified pgp_num " ++ toString (i32 (lib.atoi (c_str w))) ++ " <= current "
                ++ toString (s.osdmap.get_pg_pool
                    (s.osdmap.lookup_pg_pool_name (c_str name))).get_pgp_num)) []))
        else if i32 (lib.atoi (c_str w))
            > (s.osdmap.get_pg_pool (s.osdmap.lookup_pg_pool_name (c_str name))).pg_num then
          some (false, s.send (Sent.command_reply m (-EINVAL)
            (getline ("specified pgp_num " ++ toString (i32 (lib.atoi (c_str w))) ++ " > pg_num "
                ++ toString (s.osdmap.get_pg_pool
                    (s.osdmap.lookup_pg_pool_name (c_str name))).get_pg_num)) []))
        else if s.creating_pgs = true then
          some (false, s.send (Sent.command_reply m (-EAGAIN)
            (getline "still creating pgs, wait") []))
        else
          some (true,
            { s with
              osdmap := s.osdmap.touch_pool (s.osdmap.lookup_pg_pool_name (c_str name))
              pending_inc := { s.pending_inc with
                new_pools := s.pending_inc.new_pools.set
                  (s.osdmap.lookup_pg_pool_name (c_str name))
                  { s.osdmap.get_pg_pool (s.osdmap.lookup_pg_pool_name (c_str name)) with
                    pgp_num := (i32 (lib.atoi (c_str w))).toNat } }
              waiting_commit := s.waiting_commit ++ [Callback.C_Command m 0
                (getline ("set pool " ++ toString (s.osdmap.lookup_pg_pool_name (c_str name))
                  ++ " pgp_num to " ++ toString (i32 (lib.atoi (c_str w)))))] }) := by
  have hr := i32_range (lib.atoi (c_str w))
  unfold OSDMonitor.prepare_command_pool_set
  rw [hname]
  dsimp only
  rw [if_neg (not_lt.mpr hpool), hw]
  dsimp only
  rw [hfield]
  dsimp only
  rw [if_neg (by decide : ¬ ("pgp_num" = "size")), if_neg (by decide : ¬ ("pgp_num" = "pg_num")),
    if_pos rfl]
  generalize i32 (lib.atoi (c_str w)) = n at hr ⊢
  generalize hp : s.osdmap.get_pg_pool (s.osdmap.lookup_pg_pool_name (c_str name)) = p
  by_cases h0 : n = 0
  · have hle : n ≤ (p.pgp_num : Int) := by
      rw [h0]
      exact Int.natCast_nonneg _
    rw [if_neg (not_not.mpr h0), if_pos hle, if_pos h0]
    rfl
  · rw [if_pos h0]
    unfold pg_pool_t.get_pgp_num pg_pool_t.get_pg_num
    by_cases hle : n ≤ (p.pgp_num : Int)
    · rw [if_pos hle, if_pos hle, if_neg h0]
      rfl
    · rw [if_neg hle, if_neg hle]
      by_cases hgt : n > (p.pg_num : Int)
      · rw [if_pos hgt, if_pos hgt]
        rfl
      · rw [if_neg hgt, if_neg hgt]
        by_cases hc : s.creating_pgs = true
        · rw [if_pos hc, if_pos hc]
          rfl
        · rw [if_neg hc, if_neg hc, touch_pool_subscript, hp,
            u32_of_small n (by omega) (by omega)]
          rfl

theorem prepare_command_pool_set_size (lib : CommandLib) (s : OSDMonitor) (m : MMonCommand)
    (name w : String) (hname : m.cmd.get? 3 = some name)
    (hfield : m.cmd.get? 4 = some "size") (hw : m.cmd.get? 5 = some w)
    (hpool : 0 ≤ s.osdmap.lookup_pg_pool_name (c_str name))
    (hn : i32 (lib.atoi (c_str w)) ≠ 0) :
    s.prepare_command_pool_set lib m
      = some (true,
          { s with
            pending_inc := { s.pending_inc with
              new_pools := s.pending_inc.new_pools.set
                (s.osdmap.lookup_pg_pool_name (c_str name))
                { s.osdmap.get_pg_pool (s.osdmap.lookup_pg_pool_name (c_str name)) with
                  size := u32 (i32 (lib.atoi (c_str w))) } }
            waiting_commit := s.waiting_commit ++ [Callback.C_Command m 0
              (getline ("set pool " ++ toString (s.osdmap.lookup_pg_pool_name (c_str name))
                ++ " size to " ++ toString (i32 (lib.atoi (c_str w)))))] }) := by
  unfold OSDMonitor.prepare_command_pool_set
  rw [hname]
  dsimp only
  rw [if_neg (not_lt.mpr hpool), hw]
  dsimp only
  rw [if_pos hn, hfield]
  dsimp only
  rw [if_pos rfl]
  rfl

theorem prepare_command_of_pool_set (lib : CommandLib) (now : utime_t) (s : OSDMonitor)
    (w0 : String) (rest : List String) (data : CommandData) (src : entity_inst_t) :
    s.prepare_command lib now ⟨w0 :: "pool" :: "set" :: rest, data, src⟩
      = s.prepare_command_pool_set lib ⟨w0 :: "pool" :: "set" :: rest, data, src⟩ := by
  unfold OSDMonitor.prepare_command
  simp

/-- C31. For a command `pool set name field n` (six words) with
`field` one of `pg_num` and `pgp_num`, `pool` the id that the name has in the
committed map and `p` the committed pool: an unknown name is answered -ENOENT;
`n` not above the committed value (for `pgp_num` also `n` above the committed
`pg_num`) is answered -EINVAL, whether or not placement groups are being
created; `n` above the committed value (and at most `pg_num` for `pgp_num`)
while placement groups are being created is answered -EAGAIN; otherwise the
command is accepted and the pending pool is the committed pool with that field
set to `n`, which is above the committed value, the rest of the pending
increment being as before. A rejected request only sends its reply. When
`pgp_num <= pg_num` holds for the committed pool it holds for the pending
pool. -/
theorem C31_pool_set_counts (lib : CommandLib) (now : utime_t) (s : OSDMonitor)
    (m : MMonCommand) (w0 name field w : String) (pool n : Int) (p : pg_pool_t)
    (hcmd : m.cmd = [w0, "pool", "set", name, field, w])
    (hn : i32 (lib.atoi (c_str w)) = n)
    (hpool : s.osdmap.lookup_pg_pool_name (c_str name) = pool)
    (hp : s.osdmap.get_pg_pool pool = p) :
    (pool < 0 →
      ∃ rs, s.prepare_command lib now m
        = some (false, s.send (Sent.command_reply m (-ENOENT) rs [])))
    ∧ (0 ≤ pool → field = "pg_num" →
        (n ≤ p.pg_num →
          ∃ rs, s.prepare_command lib now m
            = some (false, s.send (Sent.command_reply m (-EINVAL) rs [])))
        ∧ ((p.pg_num : Int) < n → s.creating_pgs = true →
          ∃ rs, s.prepare_command lib now m
            = some (false, s.send (Sent.command_reply m (-EAGAIN) rs [])))
        ∧ ((p.pg_num : Int) < n → s.creating_pgs = false →
          ∃ s2, s.prepare_command lib now m = some (true, s2)
            ∧ s2.pending_inc.new_pools.get? pool = some { p with pg_num := n.toNat }
            ∧ p.pg_num < n.toNat
            ∧ (p.pgp_num ≤ p.pg_num → p.pgp_num ≤ n.toNat)
            ∧ (∀ k, k ≠ pool →
                s2.pending_inc.new_pools.get? k = s.pending_inc.new_pools.get? k)
            ∧ { s2.pending_inc with new_pools := s.pending_inc.new_pools } = s.pending_inc))
    ∧ (0 ≤ pool → field = "pgp_num" →
        (n ≤ p.pgp_num ∨ (p.pg_num : Int) < n →
          ∃ rs, s.prepare_command lib now m
            = some (false, s.send (Sent.command_reply m (-EINVAL) rs [])))
        ∧ ((p.pgp_num : Int) < n → n ≤ p.pg_num → s.creating_pgs = true →
          ∃ rs, s.prepare_command lib now m
            = some (false, s.send (Sent.command_reply m (-EAGAIN) rs [])))
        ∧ ((p.pgp_num : Int) < n → n ≤ p.pg_num → s.creating_pgs = false →
          ∃ s2, s.prepare_command lib now m = some (true, s2)
            ∧ s2.pending_inc.new_pools.get? pool = some { p with pgp_num := n.toNat }
            ∧ p.pgp_num < n.toNat ∧ n.toNat ≤ p.pg_num
            ∧ (∀ k, k ≠ pool →
                s2.pending_inc.new_pools.get? k = s.pending_inc.new_pools.get? k)
            ∧ { s2.pending_inc with new_pools := s.pending_inc.new_pools }
                = s.pending_inc)) := by
  obtain ⟨cmd, data, src⟩ := m
  simp only at hcmd
  subst hcmd
  subst hn
  subst hpool
  subst hp
  rw [prepare_command_of_pool_set]
  refine ⟨fun hneg => ⟨_, prepare_command_pool_set_unknown lib s
    ⟨[w0, "pool", "set", name, field, w], data, src⟩ name rfl hneg⟩, ?_, ?_⟩
  · intro h0 hf
    subst hf
    rw [prepare_command_pool_set_pg_num lib s ⟨[w0, "pool", "set", name, "pg_num", w], data, src⟩
      name w rfl rfl rfl h0]
    refine ⟨fun hle => ?_, fun hlt hc => ?_, fun hlt hc => ?_⟩
    · rw [if_pos hle]
      exact ⟨_, rfl⟩
    · rw [if_neg (not_le.mpr hlt), if_pos hc]
      exact ⟨_, rfl⟩
    · rw [if_neg (not_le.mpr hlt), if_neg (by rw [hc]; decide)]
      refine ⟨_, rfl, ?_, ?_, ?_, ?_, rfl⟩
      · dsimp only
        rw [StdMap.get_set, if_pos rfl]
      · omega
      · intro hpg
        omega
      · intro k hk
        dsimp only
        rw [StdMap.get_set, if_neg (Ne.symm hk)]
  · intro h0 hf
    subst hf
    rw [prepare_command_pool_set_pgp_num lib s
      ⟨[w0, "pool", "set", name, "pgp_num", w], data, src⟩ name w rfl rfl rfl h0]
    refine ⟨fun hle => ?_, fun hlt hle hc => ?_, fun hlt hle hc => ?_⟩
    · rcases hle with hle | hgt
      · rw [if_pos hle]
        exact ⟨_, rfl⟩
      · by_cases hle : i32 (lib.atoi (c_str w))
            ≤ ((s.osdmap.get_pg_pool (s.osdmap.lookup_pg_pool_name (c_str name))).pgp_num : Int)
        · rw [if_pos hle]
          exact ⟨_, rfl⟩
        · rw [if_neg hle, if_pos hgt]
          exact ⟨_, rfl⟩
    · rw [if_neg (not_le.mpr hlt), if_neg (not_lt.mpr hle), if_pos hc]
      exact ⟨_, rfl⟩
    · rw [if_neg (not_le.mpr hlt), if_neg (not_lt.mpr hle), if_neg (by rw [hc]; decide)]
      refine ⟨_, rfl, ?_, ?_, ?_, ?_, rfl⟩
      · dsimp only
        rw [StdMap.get_set, if_pos rfl]
      · omega
      · omega
      · intro k hk
        dsimp only
        rw [StdMap.get_set, if_neg (Ne.symm hk)]

theorem C31_pool_set_counts_witness :
    (∃ s2, data_pool_monitor.prepare_command (lib_reading 16) ⟨0, 0⟩
          (pool_set_command "pg_num" "16") = some (true, s2)
        ∧ s2.pending_inc.new_pools.get? 1 = some { data_pool with pg_num := 16 })
    ∧ (∃ rs, creating_monitor.prepare_command (lib_reading 16) ⟨0, 0⟩
          (pool_set_command "pg_num" "16")
        = some (false, creating_monitor.send
            (Sent.command_reply (pool_set_command "pg_num" "16") (-EAGAIN) rs []))) := by
  constructor
  · obtain ⟨s2, h1, h2, _⟩ :=
      ((C31_pool_set_counts (lib_reading 16) ⟨0, 0⟩ data_pool_monitor
        (pool_set_command "pg_num" "16") "osd" "data" "pg_num" "16" 1 16 data_pool
        rfl (by decide) (by decide) (by decide)).2.1 (by decide) rfl).2.2 (by decide) rfl
    exact ⟨s2, h1, h2⟩
  · exact ((C31_pool_set_counts (lib_reading 16) ⟨0, 0⟩ creating_monitor
        (pool_set_command "pg_num" "16") "osd" "data" "pg_num" "16" 1 16 data_pool
        rfl (by decide) (by decide) (by decide)).2.1 (by decide) rfl).2.1 (by decide) rfl

theorem OSDMap.osd_exists_range (m : OSDMap) (osd : Int) (h : m.osd_exists osd = true) :
    0 ≤ osd ∧ osd < m.get_max_osd := by
  unfold OSDMap.osd_exists OSDMap.slot at h
  unfold OSDMap.get_max_osd
  by_cases h0 : 0 ≤ osd
  · rw [if_pos h0] at h
    refine ⟨h0, ?_⟩
    by_contra hge
    have hlen : m.osds.length ≤ osd.toNat := by omega
    rw [List.get?_eq_none.mpr hlen] at h
    exact absurd h (by decide)
  · rw [if_neg h0] at h
    exact absurd h (by decide)

theorem prepare_command_pool_create_keeps_map (s : OSDMonitor) (m : MMonCommand) (name : String) :
    (s.prepare_command_pool_create m name).2.osdmap = s.osdmap := by
  unfold OSDMonitor.prepare_command_pool_create
  split <;> rfl

theorem prepare_alive_writes (s : OSDMonitor) (m : MOSDAlive) :
    (s.prepare_alive m).2.pending_inc.new_up_thru.get? m.orig_source_inst.name.num
      = some m.map_epoch := by
  unfold OSDMonitor.prepare_alive OSDMonitor.wait_for_commit
  dsimp only
  rw [StdMap.get_set, if_pos rfl]

theorem preprocess_alive_forwards (s : OSDMonitor) (m : MOSDAlive)
    (h : s.osdmap.is_up m.orig_source_inst.name.num = false) :
    s.preprocess_alive m = Run.done (false, s) := by
  unfold OSDMonitor.preprocess_alive
  dsimp only
  rw [h]
  rfl

theorem prepare_command_out_rejected (s : OSDMonitor) (m : MMonCommand) (err : Int)
    (ss : String) : command_rejected s m (s.prepare_command_out m err ss) :=
  ⟨err, getline ss, rfl⟩

theorem prepare_command_down_shape (s : OSDMonitor) (m : MMonCommand) (osd : Int) :
    (s.prepare_command_down m osd).1 = true
      ∨ command_rejected s m (s.prepare_command_down m osd) := by
  unfold OSDMonitor.prepare_command_down
  split_ifs
  · exact Or.inr ⟨_, _, rfl⟩
  · exact Or.inr ⟨_, _, rfl⟩
  · exact Or.inl rfl

theorem prepare_command_mark_out_shape (s : OSDMonitor) (m : MMonCommand) (osd : Int) :
    (s.prepare_command_mark_out m osd).1 = true
      ∨ command_rejected s m (s.prepare_command_mark_out m osd) := by
  unfold OSDMonitor.prepare_command_mark_out
  split_ifs
  · exact Or.inr (prepare_command_out_rejected _ _ _ _)
  · exact Or.inr (prepare_command_out_rejected _ _ _ _)
  · exact Or.inl rfl

theorem prepare_command_mark_in_shape (s : OSDMonitor) (m : MMonCommand) (osd : Int) :
    (s.prepare_command_mark_in m osd).1 = true
      ∨ command_rejected s m (s.prepare_command_mark_in m osd) := by
  unfold OSDMonitor.prepare_command_mark_in
  split_ifs
  · exact Or.inr (prepare_command_out_rejected _ _ _ _)
  · exact Or.inr (prepare_command_out_rejected _ _ _ _)
  · exact Or.inl rfl

theorem prepare_command_lost_shape (s : OSDMonitor) (m : MMonCommand) (osd : Int) :
    (s.prepare_command_lost m osd).1 = true
      ∨ command_rejected s m (s.prepare_command_lost m osd) := by
  unfold OSDMonitor.prepare_command_lost
  split_ifs
  · exact Or.inr (prepare_command_out_rejected _ _ _ _)
  · exact Or.inr (prepare_command_out_rejected _ _ _ _)
  · exact Or.inl rfl

theorem prepare_command_reweight_shape (reweight_text : Int → ℚ → Int → String)
    (s : OSDMonitor) (m : MMonCommand) (osd : Int) (w : ℚ) (r : Bool × OSDMonitor)
    (h : s.prepare_command_reweight reweight_text m osd w = some r) :
    r.1 = true ∨ command_rejected s m r := by
  unfold OSDMonitor.prepare_command_reweight at h
  split at h
  · exact absurd h (by simp)
  · split_ifs at h
    · rw [← Option.some.inj h]
      exact Or.inl rfl
    · rw [← Option.some.inj h]
      exact Or.inr ⟨_, _, rfl⟩

theorem prepare_command_setmap_shape (lib : CommandLib) (s : OSDMonitor) (m : MMonCommand)
    (w2 : String) (r : Bool × OSDMonitor) (h : s.prepare_command_setmap lib m w2 = some r) :
    r.1 = true ∨ command_rejected s m r := by
  unfold OSDMonitor.prepare_command_setmap at h
  split at h
  · dsimp only at h
    split_ifs at h
    · rw [← Option.some.inj h]
      exact Or.inl rfl
    · rw [← Option.some.inj h]
      exact Or.inr (prepare_command_out_rejected _ _ _ _)
    · rw [← Option.some.inj h]
      exact Or.inr (prepare_command_out_rejected _ _ _ _)
  · exact absurd h (by simp)

theorem prepare_command_pool_mksnap_shape (now : utime_t) (s : OSDMonitor) (m : MMonCommand)
    (name snapname : String) :
    (s.prepare_command_pool_mksnap now m name snapname).1 = true
      ∨ command_rejected s m (s.prepare_command_pool_mksnap now m name snapname) := by
  unfold OSDMonitor.prepare_command_pool_mksnap
  dsimp only
  split_ifs
  all_goals
    first
      | exact Or.inl rfl
      | exact Or.inr (prepare_command_out_rejected _ _ _ _)

theorem prepare_command_pool_rmsnap_shape (s : OSDMonitor) (m : MMonCommand)
    (name snapname : String) :
    (s.prepare_command_pool_rmsnap m name snapname).1 = true
      ∨ command_rejected s m (s.prepare_command_pool_rmsnap m name snapname) := by
  unfold OSDMonitor.prepare_command_pool_rmsnap
  dsimp only
  split_ifs
  all_goals
    first
      | exact Or.inl rfl
      | exact Or.inr (prepare_command_out_rejected _ _ _ _)

theorem prepare_command_pool_create_shape (s : OSDMonitor) (m : MMonCommand) (name : String) :
    (s.prepare_command_pool_create m name).1 = true
      ∨ command_rejected s m (s.prepare_command_pool_create m name) := by
  unfold OSDMonitor.prepare_command_pool_create
  split
  · exact Or.inr ⟨_, _, rfl⟩
  · exact Or.inl rfl

theorem prepare_command_pool_set_shape (lib : CommandLib) (s : OSDMonitor) (m : MMonCommand)
    (r : Bool × OSDMonitor) (h : s.prepare_command_pool_set lib m = some r) :
    r.1 = true ∨ command_rejected s m r := by
  unfold OSDMonitor.prepare_command_pool_set at h
  cases h3 : m.cmd.get? 3 with
  | none =>
    rw [h3] at h
    exact absurd h (by simp)
  | some name =>
    rw [h3] at h
    dsimp only at h
    by_cases hp : s.osdmap.lookup_pg_pool_name (c_str name) < 0
    · rw [if_pos hp] at h
      rw [← Option.some.inj h]
      exact Or.inr (prepare_command_out_rejected _ _ _ _)
    · rw [if_neg hp] at h
      cases h5 : m.cmd.get? 5 with
      | none =>
        rw [h5] at h
        exact absurd h (by simp)
      | some w5 =>
        rw [h5] at h
        dsimp only at h
        by_cases hn : i32 (lib.atoi (c_str w5)) ≠ 0
        · rw [if_pos hn] at h
          cases h4 : m.cmd.get? 4 with
          | none =>
            rw [h4] at h
            exact absurd h (by simp)
          | some field =>
            rw [h4] at h
            dsimp only at h
            split_ifs at h
            all_goals
              rw [← Option.some.inj h]
              first
                | exact Or.inl rfl
                | exact Or.inr (prepare_command_out_rejected _ _ _ _)
        · rw [if_neg hn] at h
          rw [← Option.some.inj h]
          exact Or.inr (prepare_command_out_rejected _ _ _ _)

theorem prepare_command_shape (lib : CommandLib) (now : utime_t) (s : OSDMonitor)
    (m : MMonCommand) (r : Bool × OSDMonitor) (h : s.prepare_command lib now m = some r) :
    r.1 = true ∨ command_rejected s m r := by
  unfold OSDMonitor.prepare_command at h
  by_cases hlen : m.cmd.length > 1
  · rw [if_pos hlen] at h
    cases h1 : m.cmd.get? 1 with
    | none =>
      rw [h1] at h
      exact absurd h (by simp)
    | some w1 =>
      rw [h1] at h
      dsimp only at h
      by_cases c1 : w1 = "setcrushmap"
      · rw [if_pos c1] at h
        rw [← Option.some.inj h]
        exact Or.inl rfl
      rw [if_neg c1] at h
      by_cases c2 : w1 = "setmap" ∧ m.cmd.length = 3
      · rw [if_pos c2] at h
        split at h
        · exact absurd h (by simp)
        · exact prepare_command_setmap_shape lib s m _ r h
      rw [if_neg c2] at h
      by_cases c3 : w1 = "setmaxosd" ∧ m.cmd.length > 2
      · rw [if_pos c3] at h
        split at h
        · exact absurd h (by simp)
        · rw [← Option.some.inj h]
          exact Or.inl rfl
      rw [if_neg c3] at h
      by_cases c4 : w1 = "down" ∧ m.cmd.length = 3
      · rw [if_pos c4] at h
        split at h
        · exact absurd h (by simp)
        · rw [← Option.some.inj h]
          exact prepare_command_down_shape s m _
      rw [if_neg c4] at h
      by_cases c5 : w1 = "out" ∧ m.cmd.length = 3
      · rw [if_pos c5] at h
        split at h
        · exact absurd h (by simp)
        · rw [← Option.some.inj h]
          exact prepare_command_mark_out_shape s m _
      rw [if_neg c5] at h
      by_cases c6 : w1 = "in" ∧ m.cmd.length = 3
      · rw [if_pos c6] at h
        split at h
        · exact absurd h (by simp)
        · rw [← Option.some.inj h]
          exact prepare_command_mark_in_shape s m _
      rw [if_neg c6] at h
      by_cases c7 : w1 = "reweight" ∧ m.cmd.length = 4
      · rw [if_pos c7] at h
        split at h
        · exact prepare_command_reweight_shape _ s m _ _ r h
        · exact absurd h (by simp)
      rw [if_neg c7] at h
      by_cases c8 : w1 = "lost" ∧ m.cmd.length ≥ 3
      · rw [if_pos c8] at h
        split at h
        · exact absurd h (by simp)
        · rw [← Option.some.inj h]
          exact prepare_command_lost_shape s m _
      rw [if_neg c8] at h
      by_cases c9 : w1 = "pool" ∧ m.cmd.length ≥ 3
      · rw [if_pos c9] at h
        cases h2 : m.cmd.get? 2 with
        | none =>
          rw [h2] at h
          exact absurd h (by simp)
        | some w2 =>
          rw [h2] at h
          dsimp only at h
          by_cases d1 : m.cmd.length ≥ 5 ∧ w2 = "mksnap"
          · rw [if_pos d1] at h
            split at h
            · rw [← Option.some.inj h]
              exact prepare_command_pool_mksnap_shape now s m _ _
            · exact absurd h (by simp)
          rw [if_neg d1] at h
          by_cases d2 : m.cmd.length ≥ 5 ∧ w2 = "rmsnap"
          · rw [if_pos d2] at h
            split at h
            · rw [← Option.some.inj h]
              exact prepare_command_pool_rmsnap_shape s m _ _
            · exact absurd h (by simp)
          rw [if_neg d2] at h
          by_cases d3 : w2 = "create" ∧ m.cmd.length ≥ 4
          · rw [if_pos d3] at h
            split at h
            · exact absurd h (by simp)
            · rw [← Option.some.inj h]
              exact prepare_command_pool_create_shape s m _
          rw [if_neg d3] at h
          by_cases d4 : w2 = "set"
          · rw [if_pos d4] at h
            exact prepare_command_pool_set_shape lib s m r h
          rw [if_neg d4] at h
          rw [← Option.some.inj h]
          exact Or.inr (prepare_command_out_rejected _ _ _ _)
      rw [if_neg c9] at h
      rw [← Option.some.inj h]
      exact Or.inr (prepare_command_out_rejected _ _ _ _)
  · rw [if_neg hlen] at h
    rw [← Option.some.inj h]
    exact Or.inr (prepare_command_out_rejected _ _ _ _)

/-- C32 at its failing inputs. For every monitor, `osd pool set` without a
further word makes `prepare_command` read `m->cmd[3]` beyond the three words
there are: the run leaves the defined behaviour of the code (`none`) where the
claim has a reply of -EINVAL. With the name of a pool as the only further
word, or with a field after it, `m->cmd[5]` is read beyond the end. The
sibling branch `pool create` does test the number of words: `osd pool create`
alone is answered -EINVAL. -/
theorem C32_pool_set_reads_beyond_the_words (lib : CommandLib) (now : utime_t) (s : OSDMonitor)
    (w0 : String) (data : CommandData) (src : entity_inst_t) :
    s.prepare_command lib now ⟨[w0, "pool", "set"], data, src⟩ = none
    ∧ data_pool_monitor.prepare_command lib now (command_of ["osd", "pool", "set", "data"])
        = none
    ∧ data_pool_monitor.prepare_command lib now
        (command_of ["osd", "pool", "set", "data", "size"]) = none
    ∧ s.prepare_command lib now ⟨[w0, "pool", "create"], data, src⟩
        = some (false, s.send (Sent.command_reply ⟨[w0, "pool", "create"], data, src⟩
            (-EINVAL) "" [])) := by
  refine ⟨rfl, rfl, rfl, rfl⟩

/-- C33 at its failing input. The committed map of `pool_monitor` has the pool
1 only. The message names the snap 3 of the pools 1 and 7; `preprocess_remove_snaps`
passes pool 7 over, finds that snap 3 of pool 1 is not removed yet and forwards
the message. `prepare_remove_snaps` then evaluates `osdmap.pools[7]`, and the
committed map has the pools 1 and 7 afterwards. -/
theorem C33_remove_snaps_adds_committed_pool :
    (pool_monitor.preprocess_remove_snaps remove_of_pools_1_and_7).1 = false
    ∧ pool_monitor.osdmap.pools.keys = [1]
    ∧ (pool_monitor.prepare_remove_snaps remove_of_pools_1_and_7).2.osdmap.pools.keys = [1, 7]
    ∧ (pool_monitor.prepare_remove_snaps remove_of_pools_1_and_7).2.osdmap
        ≠ pool_monitor.osdmap := by
  refine ⟨by decide, by decide, by decide, by decide⟩

/-- C34 at its failing input. The committed map has `max_osd = 2`. The ping of
osd7 is not a duplicate for `preprocess_alive` (osd7 is not up), so it is
forwarded, and `prepare_alive` writes `new_up_thru[7]` without asking whether
the id exists. -/
theorem C34_alive_of_unknown_osd :
    two_osd_monitor.preprocess_alive alive_of_osd7 = Run.done (false, two_osd_monitor)
    ∧ two_osd_monitor.osdmap.get_max_osd = 2
    ∧ (two_osd_monitor.prepare_alive alive_of_osd7).1 = true
    ∧ (two_osd_monitor.prepare_alive alive_of_osd7).2.pending_inc.new_up_thru.entries
        = [(7, 2)] := by
  refine ⟨by decide, by decide, by decide, by decide⟩

/-- C35 at its failing input. The committed map has the pools 1 and 3. The
command `pool create x` enqueues the pool 4 under the name x; `pool create y`
in the same epoch computes its id from the committed map again, which is 4, and
overwrites both entries: the pending increment holds one pool, named y, while
both commands wait for the commit with the reply that the pool was created. -/
theorem C35_second_create_overwrites :
    (named_pool_monitor.prepare_command (lib_reading 0) ⟨0, 0⟩
        (command_of ["osd", "pool", "create", "x"])).map
      (fun r => (r.1, r.2.pending_inc.new_pool_names.entries)) = some (true, [(4, "x")])
    ∧ ((named_pool_monitor.prepare_command (lib_reading 0) ⟨0, 0⟩
          (command_of ["osd", "pool", "create", "x"])).bind
        (fun r => r.2.prepare_command (lib_reading 0) ⟨0, 0⟩
          (command_of ["osd", "pool", "create", "y"]))).map
      (fun r => (r.1, r.2.pending_inc.new_pool_names.entries, r.2.pending_inc.new_pools.keys,
        r.2.waiting_commit))
      = some (true, [(4, "y")], [4],
          [Callback.C_Command (command_of ["osd", "pool", "create", "x"]) 0 "pool 'x' created",
           Callback.C_Command (command_of ["osd", "pool", "create", "y"]) 0
             "pool 'y' created"]) := by
  refine ⟨by decide, by decide⟩

/-- C36 at its failing input. The committed pool 1 (data) has the snapshot x.
A pool-snap message adds the snapshot y to the copy of the pool in the pending
increment, which then has the snapshots 1 and 2. The command `pool set data
size 3` in the same epoch assigns the committed pool to
`pending_inc.new_pools[1]` before it sets the field: the pending pool is the
committed pool with size 3 and the snapshot y is gone. The same happens to a
snapshot made by `pool mksnap` when `pool set data pg_num 16` follows. -/
theorem C36_pool_set_drops_pending_changes :
    ((data_pool_monitor.prepare_pool_snap ⟨9, 0⟩ create_snap_y).2.pending_inc.new_pools.get? 1).map
        (fun p => p.snaps.keys) = some [1, 2]
    ∧ ((data_pool_monitor.prepare_pool_snap ⟨9, 0⟩ create_snap_y).2.prepare_command
          (lib_reading 3) ⟨9, 0⟩ (pool_set_command "size" "3")).map
        (fun r => (r.1, r.2.pending_inc.new_pools.entries))
      = some (true, [(1, { data_pool with size := 3 })])
    ∧ ((data_pool_monitor.prepare_command (lib_reading 0) ⟨9, 0⟩
          (command_of ["osd", "pool", "mksnap", "data", "y"])).bind
        (fun r => r.2.pending_inc.new_pools.get? 1)).map (fun p => p.snaps.keys) = some [1, 2]
    ∧ ((data_pool_monitor.prepare_command (lib_reading 0) ⟨9, 0⟩
          (command_of ["osd", "pool", "mksnap", "data", "y"])).bind
        (fun r => r.2.prepare_command (lib_reading 16) ⟨9, 0⟩
          (pool_set_command "pg_num" "16"))).map
        (fun r => (r.1, r.2.pending_inc.new_pools.entries))
      = some (true, [(1, { data_pool with pg_num := 16 })])
    ∧ data_pool.snaps.keys = [1] := by
  refine ⟨by decide, by decide, by decide, by decide, by decide⟩
